import Mathlib

/-!
# Jupiter HTTP server: routing tree, request processing and scheduler

A shallow embedding of `src/Jupiter/HTTP_Server.cpp`.

* Byte strings are lists of characters (`Str`).
* The string utility layer (`Readable_String_Imp.h`, `Reference_String`,
  `Shift_String`) is not part of the sources at hand; the handful of operations
  the server calls are modelled from their documented meaning.
* The two checksum functions (`calcChecksum`, `calcChecksumi`) are parameters
  `ck` and `cki` of every definition that calls them.
* C++ loops that walk an `ArrayList` from its last index down to zero become
  searches for the last element that passes the test.
* Recursion that is not structural carries a `fuel` argument; `none` from a
  fuelled function means "has not returned".
-/

namespace Jupiter

/-- Byte strings of the server: `ReadableString`, `ReferenceString` and `String` alike. -/
abbrev Str := List Char

/-! ## String utility layer -/

/-- Modelled from the spec: `Readable_String::span(set)` (Readable_String_Imp.h is absent),
the number of leading elements that belong to `set`. -/
def span (set : Str) (s : Str) : Nat :=
  (s.takeWhile (fun c => set.contains c)).length

/-- Modelled from the spec: `Shift_String::shiftRight(n)` / `Reference_String::shiftRight(n)`
(absent), which drops the first `n` elements (all of them when `n` exceeds the size). -/
def shiftRight (n : Nat) (s : Str) : Str :=
  s.drop n

/-- Modelled from the spec: `Readable_String::find(value)` (absent), the index of the first
element equal to `value`; `none` stands for `Jupiter::INVALID_INDEX`. -/
def find (value : Char) : Str → Option Nat
  | [] => none
  | x :: xs => if x = value then some 0 else (find value xs).map (· + 1)

/-- Modelled from the spec: `Readable_String::find(in)` for a string argument (absent), the
index of the first occurrence of `sub`; `none` stands for `Jupiter::INVALID_INDEX`. -/
def findStr (sub : Str) : Str → Option Nat
  | [] => if sub.isEmpty then some 0 else none
  | x :: xs => if sub.isPrefixOf (x :: xs) then some 0 else (findStr sub xs).map (· + 1)

/-- Modelled from the spec: `Readable_String::substring(0, len)` and the
`ReferenceString(ptr, len)` constructor (absent): the first `len` elements. -/
def substring0 (len : Nat) (s : Str) : Str :=
  s.take len

/-- Modelled from the spec: `Readable_String::equals` (declared in Readable_String.h,
"Case sensitive"): element-wise equality. -/
def equals (a b : Str) : Bool :=
  a == b

/-- Modelled from the spec: `Readable_String::equalsi` (declared in Readable_String.h,
"Case insensitive"): equality after mapping every element through `toupper`. -/
def equalsi (a b : Str) : Bool :=
  a.map Char.toUpper == b.map Char.toUpper

/-- Modelled from the spec: `Readable_String::getToken(0, token)` (absent): the elements
before the first occurrence of the separator `token`. -/
def getToken0 (token : Char) (s : Str) : Str :=
  s.takeWhile (fun c => c != token)

/-- Modelled from the spec: `Readable_String::getWord(pos, whitespace)` (absent): the
`pos`-th maximal run of non-whitespace elements, empty when there are not that many. -/
def getWord : Nat → Str → Str → Str
  | 0, ws, s => (s.dropWhile (fun c => ws.contains c)).takeWhile (fun c => !ws.contains c)
  | pos + 1, ws, s =>
    getWord pos ws ((s.dropWhile (fun c => ws.contains c)).dropWhile (fun c => !ws.contains c))

/-- Modelled from the spec: `ReferenceString::tokenize(in, ENDL)` (absent) with
`ENDL = "\r\n"`: the pieces of the input between successive CRLF pairs, scanned left to
right; `n` separators give `n + 1` tokens. -/
def tokenize : Str → List Str
  | [] => [[]]
  | [c] => [[c]]
  | c :: d :: rest =>
    if c = '\r' ∧ d = '\n' then [] :: tokenize rest
    else
      match tokenize (d :: rest) with
      | [] => [[c]]
      | t :: ts => (c :: t) :: ts

/-! ## Content and Directory -/

/-- Modelled from the spec: the class `Content`, declared in HTTP_Server.h (absent). The
fields are those of section 3 and those HTTP_Server.cpp reads: `name`, `name_checksum`,
`function`, `type`, `charset`, `language` (the three optional ones are null pointers by
default). -/
structure Content where
  name : Str
  name_checksum : Nat
  function : Str → Str
  type : Option Str
  charset : Option Str
  language : Option Str

/-- The constructor `Content::Content(in_name, in_function)`:
`name_checksum = name.calcChecksum()`. -/
def Content.new (ck : Str → Nat) (in_name : Str) (in_function : Str → Str) : Content :=
  { name := in_name, name_checksum := ck in_name, function := in_function,
    type := none, charset := none, language := none }

/-- The method `Content::execute(parameters)`. -/
def Content.execute (c : Content) (parameters : Str) : Str :=
  c.function parameters

/-- Modelled from the spec: the class `Directory`, declared in HTTP_Server.h (absent), a
node of the routing tree with the fields of section 3 that HTTP_Server.cpp reads: `name`,
`name_checksum`, `directories`, `content`. A `Host` is a `Directory`. -/
inductive Directory where
  | mk (name : Str) (name_checksum : Nat) (directories : List Directory)
      (content : List Content) : Directory

namespace Directory

/-- The field `name`. -/
def name : Directory → Str
  | mk n _ _ _ => n

/-- The field `name_checksum`. -/
def name_checksum : Directory → Nat
  | mk _ k _ _ => k

/-- The field `directories`. -/
def directories : Directory → List Directory
  | mk _ _ ds _ => ds

/-- The field `content`. -/
def content : Directory → List Content
  | mk _ _ _ cs => cs

/-- The constructor `Directory::Directory(in_name)`:
`name_checksum = name.calcChecksumi()`, no children. -/
def new (cki : Str → Nat) (in_name : Str) : Directory :=
  mk in_name (cki in_name) [] []

/-- The call `content.add(in_content)` on a node. -/
def addContent (d : Directory) (c : Content) : Directory :=
  mk d.name d.name_checksum d.directories (d.content ++ [c])

/-- The call `directories.add(directory)` on a node. -/
def addDirectory (d : Directory) (sub : Directory) : Directory :=
  mk d.name d.name_checksum (d.directories ++ [sub]) d.content

/-- Write-back of a child that was modified through the pointer `directories.get(i)`. -/
def setDirectory (d : Directory) (i : Nat) (sub : Directory) : Directory :=
  mk d.name d.name_checksum (d.directories.set i sub) d.content

end Directory

/-- The loop `index = size; while (index != 0) { x = list.get(--index); if (p x) ... }`:
the element it stops at, the last one satisfying `p`. -/
def lastMatch {α : Type} (p : α → Bool) : List α → Option α
  | [] => none
  | x :: xs =>
    match lastMatch p xs with
    | some y => some y
    | none => if p x then some x else none

namespace Directory

/-- `Directory::find` (HTTP_Server.cpp:131-164). `ck` is `calcChecksum`. The recursion
`directory->find(in_name_ref)` is on a shorter string; `fuel` bounds its depth. -/
def findFuel (ck : Str → Nat) : Nat → Directory → Str → Option Content
  | 0, _, _ => none
  | fuel + 1, d, in_name =>
    let in_name_ref := shiftRight (span ['/'] in_name) in_name
    match find '/' in_name_ref with
    | none =>
      let content_name_checksum := ck in_name_ref
      lastMatch (fun content_itr =>
        content_itr.name_checksum == content_name_checksum
          && equals content_itr.name in_name_ref) d.content
    | some index =>
      let dir_name := substring0 index in_name_ref
      let in_name_ref2 := shiftRight dir_name.length in_name_ref
      let dir_name_checksum := ck dir_name
      match lastMatch (fun directory =>
        directory.name_checksum == dir_name_checksum
          && equals directory.name dir_name) d.directories with
      | some directory => findFuel ck fuel directory in_name_ref2
      | none => none

/-- `Directory::find`, with fuel for every segment of the path. -/
def find (ck : Str → Nat) (d : Directory) (in_name : Str) : Option Content :=
  findFuel ck (in_name.length + 1) d in_name

end Directory

/-- The downward loop again, giving the index together with the element it stops at. -/
def lastEntry {α : Type} (p : α → Bool) : List α → Option (Nat × α)
  | [] => none
  | x :: xs =>
    match lastEntry p xs with
    | some (i, y) => some (i + 1, y)
    | none => if p x then some (0, x) else none

namespace Directory

/-- The label `directory_add_loop` of `Directory::hook` (HTTP_Server.cpp:107-117).
`outer_size` is `directories.size()` of the node `hook` was called on (the unqualified
`directories` of line 113), `directory` the node the local pointer designates; the result
is that node after the loop, `none` when the loop has not returned after `fuel` rounds or
reads `ArrayList::get` outside the list. `in_name_ref` is never advanced by the loop. -/
def directory_add_loop (cki : Str → Nat) (outer_size : Nat) (in_name_ref : Str)
    (in_content : Content) : Nat → Directory → Option Directory
  | 0, _ => none
  | fuel + 1, directory =>
    match Jupiter.find '/' in_name_ref with
    | some index =>
      let directory1 := directory.addDirectory (Directory.new cki (substring0 index in_name_ref))
      match directory1.directories.get? (outer_size - 1) with
      | none => none
      | some child =>
        (directory_add_loop cki outer_size in_name_ref in_content fuel child).map
          (fun child1 => directory1.setDirectory (outer_size - 1) child1)
    | none => some (directory.addContent in_content)

/-- `Directory::hook` (HTTP_Server.cpp:81-119). The result is the node after the call;
`none` means the call has not returned within `fuel` nested steps. -/
def hook (ck cki : Str → Nat) : Nat → Directory → Str → Content → Option Directory
  | 0, _, _, _ => none
  | fuel + 1, d, in_name, in_content =>
    let in_name_ref := shiftRight (span ['/'] in_name) in_name
    match Jupiter.find '/' in_name_ref with
    | none => some (d.addContent in_content)
    | some index =>
      let dir_name := substring0 index in_name_ref
      let in_name_ref2 := shiftRight dir_name.length in_name_ref
      let dir_name_checksum := ck dir_name
      match lastEntry (fun directory =>
        directory.name_checksum == dir_name_checksum
          && equals directory.name dir_name) d.directories with
      | some (i, directory) =>
        (hook ck cki fuel directory dir_name in_content).map (fun sub => d.setDirectory i sub)
      | none =>
        let directory := Directory.new cki dir_name
        let d1 := d.addDirectory directory
        (directory_add_loop cki d1.directories.length in_name_ref2 in_content fuel directory).map
          (fun sub => d1.setDirectory d.directories.length sub)

/-- `Directory::remove` (HTTP_Server.cpp:121-124): always reports not-removed. -/
def remove (_d : Directory) (_in_name : Str) : Bool :=
  false

/-- `Directory::has` (HTTP_Server.cpp:126-129): always reports absent. -/
def has (_d : Directory) (_in_name : Str) : Bool :=
  false

end Directory

/-! ## Sessions and the server data -/

/-- The enum `HTTPCommand`. -/
inductive HTTPCommand where
  | GET
  | HEAD
  | UNKNOWN
  | NONE_SPECIFIED
  deriving DecidableEq, Repr

/-- The enum `HTTPVersion`. -/
inductive HTTPVersion where
  | HTTP_1_0
  | HTTP_1_1
  | HTTP_Unsupported
  deriving DecidableEq, Repr

/-- Modelled from the spec: the class `Socket` (Socket.h and TCPSocket.h are absent) as
the server uses it: the strings handed to `send`, oldest first. What `recv` and `accept`
deliver is an input of `think`. -/
structure Socket where
  sent : List Str
  deriving DecidableEq, Repr

/-- The struct `HTTPSession`. `host` is the Host the pointer designates, `last_active` a
reading of the steady clock in milliseconds. -/
structure HTTPSession where
  sock : Socket
  request : Str
  keep_alive : Bool
  host : Option Directory
  version : HTTPVersion
  last_active : Nat

/-- The constructor `HTTPSession::HTTPSession(in_sock)` with the default member
initialisers; `now` is the clock reading taken for `last_active`. -/
def HTTPSession.new (in_sock : Socket) (now : Nat) : HTTPSession :=
  { sock := in_sock, request := [], keep_alive := false, host := none,
    version := HTTPVersion.HTTP_1_0, last_active := now }

/-- The struct `Jupiter::HTTP::Server::Data`. Durations are in milliseconds. -/
structure Data where
  hosts : List Directory
  ports : List Socket
  sessions : List HTTPSession
  session_timeout : Nat
  keep_alive_session_timeout : Nat
  max_request_size : Nat
  permit_keept_alive : Bool

/-- The constant `Jupiter::HTTP::Server::global_namespace`, the empty string. -/
def global_namespace : Str := []

namespace Data

/-- The constructor `Data::Data()`: `hosts[0]` is the global namespace; the other members
take their default initialisers. -/
def new (cki : Str → Nat) : Data :=
  { hosts := [Directory.new cki global_namespace], ports := [], sessions := [],
    session_timeout := 30000, keep_alive_session_timeout := 30000,
    max_request_size := 1024, permit_keept_alive := true }

/-- The loop shared by `find_host`, `has(hostname)` and `remove(hostname)`: the last Host
whose stored checksum equals `calcChecksumi` of the argument and whose name `equalsi` it. -/
def hostEntry (cki : Str → Nat) (d : Data) (name : Str) : Option (Nat × Directory) :=
  let name_checksum := cki name
  lastEntry (fun host => name_checksum == host.name_checksum && equalsi host.name name) d.hosts

/-- `Data::find_host` (HTTP_Server.cpp:397-409); `none` is the null pointer. -/
def find_host (cki : Str → Nat) (d : Data) (name : Str) : Option Directory :=
  (hostEntry cki d name).map Prod.snd

/-- The body of `Data::hook` after the Host has been located or created
(HTTP_Server.cpp:273-306), as a function on that Host. -/
def hookHost (ck cki : Str → Nat) (fuel : Nat) (host : Directory) (in_path : Str)
    (in_content : Content) : Option Directory :=
  let path := shiftRight (span ['/'] in_path) in_path
  if path.isEmpty then
    Directory.hook ck cki fuel (host.addContent in_content) path in_content
  else
    let dir_name := getToken0 '/' path
    let path1 := shiftRight dir_name.length path
    let path2 := shiftRight (span ['/'] path1) path1
    match lastEntry (fun t_dir => equalsi t_dir.name dir_name) host.directories with
    | some (i, t_dir) =>
      (Directory.hook ck cki fuel t_dir path2 in_content).map (fun sub => host.setDirectory i sub)
    | none =>
      let t_dir := Directory.new cki dir_name
      (Directory.hook ck cki fuel t_dir path2 in_content).map (fun sub => host.addDirectory sub)

/-- `Data::hook` (HTTP_Server.cpp:259-310); `none` means the call has not returned. -/
def hook (ck cki : Str → Nat) (fuel : Nat) (d : Data) (hostname in_path : Str)
    (in_content : Content) : Option Data :=
  match hostEntry cki d hostname with
  | some (i, host) =>
    (hookHost ck cki fuel host in_path in_content).map
      (fun host1 => { d with hosts := d.hosts.set i host1 })
  | none =>
    (hookHost ck cki fuel (Directory.new cki hostname) in_path in_content).map
      (fun host1 => { d with hosts := d.hosts ++ [host1] })

/-- `Data::find(name)` (HTTP_Server.cpp:411-414): the lookup in `hosts.get(0)`. The source
reads `hosts.get(0)` without a test, so with an empty host list (left only when `remove`
has taken out every Host, the global namespace included) it reads outside the list; the
model answers not-found there and is the source on every table with a Host at index 0. -/
def find (ck : Str → Nat) (d : Data) (name : Str) : Option Content :=
  match d.hosts with
  | [] => none
  | host :: _ => host.find ck name

/-- `Data::find(hostname, name)` (HTTP_Server.cpp:416-423). -/
def findIn (ck cki : Str → Nat) (d : Data) (hostname name : Str) : Option Content :=
  match find_host cki d hostname with
  | none => none
  | some host => host.find ck name

/-- `Data::remove(hostname)` (HTTP_Server.cpp:312-327): the returned flag and the table
after the call, `hosts.remove(index)` taking out the Host the loop stopped at. -/
def remove (cki : Str → Nat) (d : Data) (hostname : Str) : Bool × Data :=
  match hostEntry cki d hostname with
  | some (index, _) => (true, { d with hosts := d.hosts.eraseIdx index })
  | none => (false, d)

/-- `Data::remove(hostname, name)` (HTTP_Server.cpp:330-356): the body is commented out,
the call reports not-removed and leaves the table alone. -/
def removeIn (d : Data) (_hostname _name : Str) : Bool × Data :=
  (false, d)

/-- `Data::has(hostname)` (HTTP_Server.cpp:358-370). -/
def has (cki : Str → Nat) (d : Data) (hostname : Str) : Bool :=
  (hostEntry cki d hostname).isSome

/-- `Data::has(hostname, name)` (HTTP_Server.cpp:372-395): once the Host is found, the
loop over `host->content` compares the whole of `name` with each Content name. -/
def hasIn (ck cki : Str → Nat) (d : Data) (hostname name : Str) : Bool :=
  match hostEntry cki d hostname with
  | some (_, host) =>
    let name_checksum := ck name
    (lastMatch (fun content : Content =>
      name_checksum == content.name_checksum && equals content.name name) host.content).isSome
  | none => false

end Data

/-! ## Request processing -/

/-- Modelled from the spec: the macro `ENDL` (Jupiter.h is absent), the CR LF sequence
`process_request` splits the request on and counts two bytes for in `get_line_offset`. -/
def ENDL : Str := ['\r', '\n']

/-- The constant `HTTP_REQUEST_ENDING` (HTTP_Server.cpp:31). -/
def HTTP_REQUEST_ENDING : Str := ['\r', '\n', '\r', '\n']

/-- Modelled from the spec: `Jupiter::HTTP::Content::Type::Text::PLAIN` (HTTP.h is absent),
the default content type `text/plain`. -/
def PLAIN : Str := "text/plain".toList

/-- The call `StringS::Format("Content-Length: %u" ENDL, size)`: `%u` prints an
`unsigned int`, the low 32 bits of the size, in decimal. -/
def formatContentLength (size : Nat) : Str :=
  "Content-Length: ".toList ++ (Nat.repr (size % 4294967296)).toList ++ ENDL

/-- The response text built in `process_request` (HTTP_Server.cpp:496-549) for a resolved
`content`; `time_header` is the string `html_time()` returned, `JUPITER_VERSION` the
macro of that name. -/
def response (JUPITER_VERSION time_header : Str) (version : HTTPVersion)
    (command : HTTPCommand) (content : Content) (content_parameters : Str) : Str :=
  let content_result := content.execute content_parameters
  let result : Str :=
    match version with
    | HTTPVersion.HTTP_1_1 => "HTTP/1.1 200 OK".toList ++ ENDL
    | _ => "HTTP/1.0 200 OK".toList ++ ENDL
  let result := result ++ ("Date: ".toList ++ ENDL)
  let result := result ++ time_header
  let result := result ++ ("Server: ".toList ++ JUPITER_VERSION ++ ENDL)
  let result := result ++ formatContentLength content_result.length
  let result := result ++
    (match version with
     | HTTPVersion.HTTP_1_1 => "Connection: keep-alive".toList ++ ENDL
     | _ => "Connection: close".toList ++ ENDL)
  let result := result ++ "Content-Type: ".toList
  let result := result ++
    (match content.type with
     | none => PLAIN
     | some type => type)
  let result :=
    match content.charset with
    | some charset => result ++ "; charset=".toList ++ charset
    | none => result
  let result := result ++ ENDL
  let result :=
    match content.language with
    | some language => result ++ "Content-Language".toList ++ language
    | none => result
  let result := result ++ (ENDL ++ ENDL)
  if command = HTTPCommand.GET then result ++ content_result else result

/-- The call `session.sock.send(result)`. -/
def HTTPSession.send (session : HTTPSession) (result : Str) : HTTPSession :=
  { session with sock := { sent := session.sock.sent ++ [result] } }

/-- The lambda `get_line_offset` (HTTP_Server.cpp:459-465): the sizes of the first `index`
tokens, as they stand in the token array, plus two each. -/
def get_line_offset (tokens : List Str) (index : Nat) : Nat :=
  ((tokens.take index).map (fun token => token.length + 2)).sum

/-- The locals of `process_request` that live across loop rounds. -/
structure RequestLocals where
  command : HTTPCommand
  content : Option Content
  content_parameters : Str

/-- The locals on entry to `process_request` (HTTP_Server.cpp:452-455). -/
def RequestLocals.initial : RequestLocals :=
  { command := HTTPCommand.NONE_SPECIFIED, content := none, content_parameters := [] }

/-- The request-line branch shared by `GET` and `HEAD` (HTTP_Server.cpp:602-654): resolve
the target in the global namespace, split off the parameters, read the protocol word. -/
def requestLine (ck : Str → Nat) (d : Data) (command : HTTPCommand) (line : Str)
    (session : HTTPSession) : RequestLocals × HTTPSession :=
  let content_parameters := getWord 1 [' '] line
  let locals : RequestLocals :=
    match find '?' content_parameters with
    | none =>
      { command := command, content := Data.find ck d content_parameters,
        content_parameters := [] }
    | some span =>
      { command := command, content := Data.find ck d (substring0 span content_parameters),
        content_parameters := shiftRight (span + 1) content_parameters }
  let protocol_str := getWord 2 [' '] line
  if equalsi protocol_str "http/1.0".toList then
    (locals, { session with version := HTTPVersion.HTTP_1_0 })
  else if equalsi protocol_str "http/1.1".toList then
    (locals, { session with version := HTTPVersion.HTTP_1_1, keep_alive := true })
  else
    (locals, session)

/-- The part of the loop body for a non-empty line (HTTP_Server.cpp:585-657). -/
def processLine (ck cki : Str → Nat) (d : Data) (line : Str) (locals : RequestLocals)
    (session : HTTPSession) : RequestLocals × HTTPSession :=
  let first_token := getToken0 ' ' line
  if first_token.getLast? = some ':' then
    let first_token := first_token.dropLast
    if equalsi first_token "HOST".toList then
      (locals, { session with host := Data.find_host cki d (getWord 1 [' '] line) })
    else if equalsi first_token "CONNECTION".toList then
      let connection_type := getWord 1 [' '] line
      if equalsi connection_type "keep-alive".toList then
        (locals, { session with keep_alive := true })
      else (locals, session)
    else (locals, session)
  else if equals first_token "GET".toList then
    requestLine ck d HTTPCommand.GET line session
  else if equals first_token "HEAD".toList then
    requestLine ck d HTTPCommand.HEAD line session
  else
    ({ locals with command := HTTPCommand.UNKNOWN }, session)

/-- The `switch (command)` at the end of a request (HTTP_Server.cpp:479-571): the session
after the send, and whether `html_time()` was called. -/
def respond (JUPITER_VERSION : Str) (time_header : Str) (locals : RequestLocals)
    (session : HTTPSession) : HTTPSession × Bool :=
  match locals.command, locals.content with
  | HTTPCommand.GET, some content =>
    (session.send (response JUPITER_VERSION time_header session.version HTTPCommand.GET
      content locals.content_parameters), true)
  | HTTPCommand.HEAD, some content =>
    (session.send (response JUPITER_VERSION time_header session.version HTTPCommand.HEAD
      content locals.content_parameters), true)
  | _, _ => (session, false)

/-- The `while (index != lines.token_count)` loop of `process_request`
(HTTP_Server.cpp:467-658). `done` holds the tokens already visited (trimmed in place),
the second list those still to visit, so the token array is `done ++ rest` and
`index = done.length`. `html_time j` is what the `j`-th call of `html_time()` from now
returns; `recurse` is the recursive call of line 581. -/
def lineLoop (ck cki : Str → Nat) (JUPITER_VERSION : Str) (d : Data)
    (recurse : (Nat → Str) → HTTPSession → Option HTTPSession) (html_time : Nat → Str)
    (token_count : Nat) :
    List Str → List Str → RequestLocals → HTTPSession → Option HTTPSession
  | _, [], _, session => some session
  | done, raw :: rest, locals, session =>
    let line := shiftRight (span [' '] raw) raw
    let index := done.length + 1
    if line.isEmpty then
      let answered := respond JUPITER_VERSION (html_time 0) locals session
      let session1 := answered.1
      let html_time1 : Nat → Str := if answered.2 then fun j => html_time (j + 1) else html_time
      if session1.keep_alive == false then some session1
      else
        let session2 : HTTPSession :=
          if index == token_count then { session1 with request := [] }
          else { session1 with
                 request := shiftRight (get_line_offset (done ++ line :: rest) index)
                   session1.request }
        if (findStr HTTP_REQUEST_ENDING session2.request).isSome then
          recurse html_time1 session2
        else some session2
    else
      let step := processLine ck cki d line locals session
      lineLoop ck cki JUPITER_VERSION d recurse html_time token_count (done ++ [line]) rest
        step.1 step.2

/-- `Data::process_request` (HTTP_Server.cpp:449-660) with a bound on the depth of the
recursion of line 581; `none` means the bound was reached. The result is the session
after the call, its socket holding what was sent. -/
def process_requestFuel (ck cki : Str → Nat) (JUPITER_VERSION : Str) (d : Data) :
    Nat → (Nat → Str) → HTTPSession → Option HTTPSession
  | 0, _, _ => none
  | fuel + 1, html_time, session =>
    let lines := tokenize session.request
    lineLoop ck cki JUPITER_VERSION d
      (fun html_time1 session1 => process_requestFuel ck cki JUPITER_VERSION d fuel html_time1 session1)
      html_time lines.length [] lines RequestLocals.initial session

/-- `Data::process_request`: every recursive call is on a shorter request, so the size of
the request bounds the depth. -/
def process_request (ck cki : Str → Nat) (JUPITER_VERSION : Str) (d : Data)
    (html_time : Nat → Str) (session : HTTPSession) : Option HTTPSession :=
  process_requestFuel ck cki JUPITER_VERSION d (session.request.length + 1) html_time session

/-! ## The scheduler -/

/-- Modelled from the spec: what one call of `sock.recv()` (Socket.h is absent) delivers
to the server: the value it returns, the contents of `sock.getBuffer()` afterwards and the
value of `sock.getLastError()`. -/
structure Recv where
  ret : Int
  buffer : Str
  lastError : Int

/-- A read that delivers the non-empty byte string `bytes`. -/
def Recv.data (bytes : Str) : Recv :=
  { ret := bytes.length, buffer := bytes, lastError := 0 }

/-- What `think` did with a session object: left it in `sessions`, deleted it (closing its
socket), or dropped the pointer without doing either. -/
inductive Fate where
  | retained
  | destroyed
  | leaked
  deriving DecidableEq, Repr

/-- A session object after `think` has handled it, and what became of it. -/
structure Outcome where
  session : HTTPSession
  fate : Fate

/-- The eviction test of `think` (HTTP_Server.cpp:765-766); `now` is the reading of the
steady clock. -/
def evicts (d : Data) (now : Nat) (session : HTTPSession) : Bool :=
  decide (now > session.last_active + d.keep_alive_session_timeout)
    || (session.keep_alive == false
        && decide (now > session.last_active + d.session_timeout))

/-- The body of the loop over existing sessions in `think` (HTTP_Server.cpp:763-788) for
one session; `recv` is what the read delivers if the loop gets to it. -/
def thinkSession (ck cki : Str → Nat) (JUPITER_VERSION : Str) (d : Data) (now : Nat)
    (html_time : Nat → Str) (session : HTTPSession) (recv : Recv) : Option Outcome :=
  if evicts d now session then some { session := session, fate := Fate.destroyed }
  else if recv.ret > 0 then
    let sock_buffer := recv.buffer
    if session.request.length + sock_buffer.length ≤ d.max_request_size then
      let session1 := { session with request := session.request ++ sock_buffer }
      if (findStr HTTP_REQUEST_ENDING session1.request).isSome then
        let session2 := { session1 with last_active := now }
        (process_request ck cki JUPITER_VERSION d html_time session2).map (fun session3 =>
          if session3.keep_alive == false then
            { session := session3, fate := Fate.destroyed }
          else { session := session3, fate := Fate.retained })
      else if session1.request.length == d.max_request_size then
        some { session := session1, fate := Fate.destroyed }
      else some { session := session1, fate := Fate.retained }
    else some { session := session, fate := Fate.destroyed }
  else if recv.lastError != 10035 then some { session := session, fate := Fate.destroyed }
  else some { session := session, fate := Fate.retained }

/-- The body of the loop over listening sockets in `think` (HTTP_Server.cpp:795-835) once
`accept()` has returned the socket `in_sock`; `recv` is what its first read delivers. -/
def thinkIncoming (ck cki : Str → Nat) (JUPITER_VERSION : Str) (d : Data) (now : Nat)
    (html_time : Nat → Str) (in_sock : Socket) (recv : Recv) : Option Outcome :=
  let session := HTTPSession.new in_sock now
  if recv.ret != 0 then
    let sock_buffer := recv.buffer
    if sock_buffer.length < d.max_request_size then
      let session1 := { session with request := sock_buffer }
      if (findStr HTTP_REQUEST_ENDING sock_buffer).isSome then
        (process_request ck cki JUPITER_VERSION d html_time session1).map (fun session2 =>
          if session2.keep_alive then { session := session2, fate := Fate.retained }
          else { session := session2, fate := Fate.destroyed })
      else some { session := session1, fate := Fate.retained }
    else if sock_buffer.length == d.max_request_size then
      if (findStr HTTP_REQUEST_ENDING sock_buffer).isNone then
        some { session := session, fate := Fate.destroyed }
      else
        let session1 := { session with request := sock_buffer }
        (process_request ck cki JUPITER_VERSION d html_time session1).map (fun session2 =>
          if session2.keep_alive then { session := session2, fate := Fate.retained }
          else { session := session2, fate := Fate.destroyed })
    else some { session := session, fate := Fate.destroyed }
  else some { session := session, fate := Fate.leaked }

/-- Modelled from the spec: what the environment delivers during one call of `think` (the
steady clock, the wall clock of `html_time` and the sockets, whose classes are absent),
keyed by the index of the session or of the listening socket being handled: the clock
readings, what `recv()` delivers, and what `accept()` returns together with the first
read of the accepted socket (`none` is the null pointer). -/
structure Tick where
  now : Nat → Nat
  html_time : Nat → Nat → Str
  recv : Nat → Recv
  accept : Nat → Option (Socket × Recv)
  accept_now : Nat → Nat
  accept_html_time : Nat → Nat → Str

/-- The loop over existing sessions in `think` (HTTP_Server.cpp:760-789), which runs from
the last index down to 0; the first argument is the index of the head of the list. The
result is the session list after the loop: the sessions `sessions.remove(index)` took out
are gone, the others stand as the loop body left them. -/
def thinkSessions (ck cki : Str → Nat) (JUPITER_VERSION : Str) (d : Data) (tick : Tick) :
    Nat → List HTTPSession → Option (List HTTPSession)
  | _, [] => some []
  | index, session :: rest =>
    match thinkSessions ck cki JUPITER_VERSION d tick (index + 1) rest with
    | none => none
    | some rest1 =>
      match thinkSession ck cki JUPITER_VERSION d (tick.now index) (tick.html_time index)
          session (tick.recv index) with
      | none => none
      | some outcome =>
        if outcome.fate = Fate.retained then some (outcome.session :: rest1) else some rest1

/-- The loop over listening sockets in `think` (HTTP_Server.cpp:791-837), from the last
index down to 0: the sessions `sessions.add` appended, in the order they were added. -/
def thinkPorts (ck cki : Str → Nat) (JUPITER_VERSION : Str) (d : Data) (tick : Tick) :
    Nat → List Socket → Option (List HTTPSession)
  | _, [] => some []
  | index, _ :: rest =>
    match thinkPorts ck cki JUPITER_VERSION d tick (index + 1) rest with
    | none => none
    | some added =>
      match tick.accept index with
      | none => some added
      | some (in_sock, recv) =>
        match thinkIncoming ck cki JUPITER_VERSION d (tick.accept_now index)
            (tick.accept_html_time index) in_sock recv with
        | none => none
        | some outcome =>
          if outcome.fate = Fate.retained then some (added ++ [outcome.session])
          else some added

/-- `Server::think` (HTTP_Server.cpp:754-838): the table after the tick. -/
def think (ck cki : Str → Nat) (JUPITER_VERSION : Str) (d : Data) (tick : Tick) :
    Option Data :=
  match thinkSessions ck cki JUPITER_VERSION d tick 0 d.sessions with
  | none => none
  | some sessions1 =>
    match thinkPorts ck cki JUPITER_VERSION d tick 0 d.ports with
    | none => none
    | some added => some { d with sessions := sessions1 ++ added }

/-! ## Hashes (Hash.cpp) -/

/-- The constant `JUPITER_FNV_1_32_OFFSET_BASIS` (Hash.cpp:22). -/
def JUPITER_FNV_1_32_OFFSET_BASIS : Nat := 2166136261

/-- The constant `JUPITER_FNV_1_64_OFFSET_BASIS` (Hash.cpp:23). -/
def JUPITER_FNV_1_64_OFFSET_BASIS : Nat := 14695981039346656037

/-- The constant `JUPITER_FNV_1_32_PRIME` (Hash.cpp:24). -/
def JUPITER_FNV_1_32_PRIME : Nat := 16777619

/-- The constant `JUPITER_FNV_1_64_PRIME` (Hash.cpp:25). -/
def JUPITER_FNV_1_64_PRIME : Nat := 1099511628211

/-- The loop of `Jupiter::fnv1` (Hash.cpp:33-38) over the bytes from `data` to `end`;
`hash` is a `uint64_t`, a byte is read as `uint8_t`. -/
def fnv1_loop (hash : Nat) : List Nat → Nat
  | [] => hash
  | byte :: data =>
    let hash1 := (hash * JUPITER_FNV_1_64_PRIME) % 18446744073709551616
    let hash2 := (hash1 ^^^ (byte % 256)) % 18446744073709551616
    fnv1_loop hash2 data

/-- `Jupiter::fnv1` (Hash.cpp:29-41). -/
def fnv1 (data : List Nat) : Nat :=
  fnv1_loop JUPITER_FNV_1_64_OFFSET_BASIS data

/-- The loop of `Jupiter::fnv1a` (Hash.cpp:47-52). -/
def fnv1a_loop (hash : Nat) : List Nat → Nat
  | [] => hash
  | byte :: data =>
    let hash1 := (hash ^^^ (byte % 256)) % 18446744073709551616
    let hash2 := (hash1 * JUPITER_FNV_1_64_PRIME) % 18446744073709551616
    fnv1a_loop hash2 data

/-- `Jupiter::fnv1a` (Hash.cpp:43-55). -/
def fnv1a (data : List Nat) : Nat :=
  fnv1a_loop JUPITER_FNV_1_64_OFFSET_BASIS data

/-- The loop of `Jupiter::fnv1_32` (Hash.cpp:61-66); `hash` is a `uint32_t`. -/
def fnv1_32_loop (hash : Nat) : List Nat → Nat
  | [] => hash
  | byte :: data =>
    let hash1 := (hash * JUPITER_FNV_1_32_PRIME) % 4294967296
    let hash2 := (hash1 ^^^ (byte % 256)) % 4294967296
    fnv1_32_loop hash2 data

/-- `Jupiter::fnv1_32` (Hash.cpp:57-69). -/
def fnv1_32 (data : List Nat) : Nat :=
  fnv1_32_loop JUPITER_FNV_1_32_OFFSET_BASIS data

/-- The loop of `Jupiter::fnv1a_32` (Hash.cpp:75-80). -/
def fnv1a_32_loop (hash : Nat) : List Nat → Nat
  | [] => hash
  | byte :: data =>
    let hash1 := (hash ^^^ (byte % 256)) % 4294967296
    let hash2 := (hash1 * JUPITER_FNV_1_32_PRIME) % 4294967296
    fnv1a_32_loop hash2 data

/-- `Jupiter::fnv1a_32` (Hash.cpp:71-83). -/
def fnv1a_32 (data : List Nat) : Nat :=
  fnv1a_32_loop JUPITER_FNV_1_32_OFFSET_BASIS data

/-! ## The rehash registry (Rehash.cpp) -/

/-- Modelled from the spec: a registered object as `rehash` uses it (Rehash.h is absent):
the value its `OnRehash()` returns, an `int`, and what its `OnBadRehash(removed)`
returns. The callbacks leave the registry alone. -/
structure Rehashable where
  OnRehash : Int
  OnBadRehash : Bool → Bool

/-- What `rehash` does to the nodes of the list `rehashables` and to their objects, the
node being named by its position in the list at the start of the call: the call
`n->data->OnRehash()`, the read of `n->next`, the call of `OnBadRehash`, the call
`rehashables.remove(node)`, and the `delete` of the object. -/
inductive RehashEvent where
  | OnRehash (node : Nat)
  | next (node : Nat)
  | OnBadRehash (node : Nat) (removed : Bool)
  | remove (node : Nat)
  | delete (node : Nat)
  deriving DecidableEq, Repr

/-- The outcome of a call of `rehash`: the value returned, the list `rehashables`
afterwards, and what was done in order. -/
structure RehashRun where
  total : Nat
  rehashables : List Rehashable
  events : List RehashEvent

/-- The loop `while (n != nullptr)` of `Jupiter::rehash` (Rehash.cpp:65-83). `node` is
the position of `n`, the second list holds the objects from `n` on, `kept` those before
`n` that are still in the list, `total` the `unsigned int` counter. Modelled from the
spec: the class `DLList` (DLList.h is absent) as a sequence; the loop goes on to the
successor after each of its three ways of reading `n->next`, also in the branch for a
positive result, where `n->next` is read after `rehashables.remove(n)` and is taken to
be the successor the node had. -/
def rehashLoop : Nat → List Rehashable → List Rehashable → Nat → RehashRun
  | _, kept, [], total => { total := total, rehashables := kept, events := [] }
  | node, kept, data :: rest, total =>
    let r := data.OnRehash
    if r != 0 then
      let total1 := (total + 1) % 4294967296
      if r < 0 then
        let run := rehashLoop (node + 1) kept rest total1
        if data.OnBadRehash true then
          { run with events :=
              [RehashEvent.OnRehash node, RehashEvent.next node,
               RehashEvent.OnBadRehash node true, RehashEvent.remove node,
               RehashEvent.delete node] ++ run.events }
        else
          { run with events :=
              [RehashEvent.OnRehash node, RehashEvent.next node,
               RehashEvent.OnBadRehash node true, RehashEvent.remove node] ++ run.events }
      else
        let run := rehashLoop (node + 1) kept rest total1
        { run with events :=
            [RehashEvent.OnRehash node, RehashEvent.remove node,
             RehashEvent.OnBadRehash node false, RehashEvent.next node] ++ run.events }
    else
      let run := rehashLoop (node + 1) (kept ++ [data]) rest total
      { run with events := [RehashEvent.OnRehash node, RehashEvent.next node] ++ run.events }

/-- `Jupiter::rehash` (Rehash.cpp:58-85) on the registry `rehashables`. -/
def rehash (rehashables : List Rehashable) : RehashRun :=
  if rehashables.length == 0 then { total := 0, rehashables := rehashables, events := [] }
  else rehashLoop 0 [] rehashables 0

/-- `Jupiter::getRehashableCount` (Rehash.cpp:87-90), an `unsigned int`. -/
def getRehashableCount (rehashables : List Rehashable) : Nat :=
  rehashables.length % 4294967296

/-! ## Notions used in the statements -/

/-- The final segment of a slash-separated path: the elements after its last `'/'`
(the whole path when it has none). -/
def finalSegment (path : Str) : Str :=
  (path.reverse.takeWhile (fun c => c != '/')).reverse

/-- Modelled from the spec: a stand-in for `Readable_String::calcChecksum`
(Readable_String_Imp.h is absent) used where a statement needs concrete numbers: the sum
of the bytes as a 32-bit unsigned value, a case-sensitive checksum as section 4.1 asks. -/
def calcChecksum (s : Str) : Nat :=
  (s.map Char.toNat).sum % 4294967296

/-- Modelled from the spec: a stand-in for `Readable_String::calcChecksumi`: the same sum
over the upper-cased bytes, equal on strings that differ only in ASCII case. -/
def calcChecksumi (s : Str) : Nat :=
  (s.map (fun c => c.toUpper.toNat)).sum % 4294967296

/-- A handler that answers `body` whatever the parameters. -/
def constantHandler (body : Str) : Str → Str :=
  fun _ => body

/-- The Host `example.com` after `hook("example.com", "images/logo", content)` on a fresh
table, `content` being named `logo`: one directory `images` holding the content. -/
def exampleHost (ck cki : Str → Nat) (f : Str → Str) : Directory :=
  Directory.mk "example.com".toList (cki "example.com".toList)
    [Directory.mk "images".toList (cki "images".toList) []
      [Content.new ck "logo".toList f]] []

/-- The text of a sequence of lines, each followed by CR LF. -/
def unlines : List Str → Str
  | [] => []
  | l :: ls => l ++ ENDL ++ unlines ls

/-- A header line as `process_request` takes one: it does not start with a space, its
first space-delimited token ends with a colon, and it holds no CR LF. -/
def isHeaderLine (l : Str) : Bool :=
  l.head? != some ' ' && (getToken0 ' ' l).getLast? == some ':' && (findStr ENDL l).isNone

/-- A request target: not empty, without space and without carriage return. -/
def isTarget (t : Str) : Bool :=
  !t.isEmpty && !t.contains ' ' && !t.contains '\r'

/-- The resource path of a target: what precedes its first `?`. -/
def targetPath (t : Str) : Str :=
  match find '?' t with
  | none => t
  | some span => substring0 span t

/-- The parameter string of a target: what follows its first `?`. -/
def targetParameters (t : Str) : Str :=
  match find '?' t with
  | none => []
  | some span => shiftRight (span + 1) t

/-- The request line `GET target HTTP/1.1`. -/
def getLine11 (target : Str) : Str :=
  "GET ".toList ++ target ++ " HTTP/1.1".toList

/-- The text of a complete request `GET target HTTP/1.1` with the given header lines:
every line followed by CR LF, then the empty line. -/
def getRequest11 (target : Str) (headers : List Str) : Str :=
  unlines (getLine11 target :: headers) ++ ENDL

/-- The session with its `last_active` member set to `t`. -/
def HTTPSession.touch (t : Nat) (session : HTTPSession) : HTTPSession :=
  { session with last_active := t }

/-- A session as `think` creates one, nothing sent yet, holding `request` in its buffer. -/
def freshSession (request : Str) : HTTPSession :=
  { HTTPSession.new { sent := [] } 0 with request := request }

/-- The clock text used in the examples, the one of the comment in `process_request`. -/
def exampleTime : Nat → Str :=
  fun _ => "Mon, 05 Oct 2015 01:50:08 GMT".toList

/-- The Content named `a` of the examples; its handler answers `A` followed by the
parameters. -/
def pageA : Content :=
  Content.new calcChecksum "a".toList (fun parameters => 'A' :: parameters)

/-- The Content named `b` of the examples; its handler answers `B` followed by the
parameters. -/
def pageB : Content :=
  Content.new calcChecksum "b".toList (fun parameters => 'B' :: parameters)

/-- The table after `hook("", "", pageA)` and `hook("", "", pageB)` on a fresh table: both
Contents sit in the global namespace, each added twice by `Data::hook`. -/
def pagesTable : Data :=
  { Data.new calcChecksumi with
    hosts := [Directory.mk [] (calcChecksumi []) [] [pageA, pageA, pageB, pageB]] }

/-- The Content named `a` hooked into the global namespace in the Host example; it
answers `GLOBAL`. -/
def globalPage : Content :=
  Content.new calcChecksum "a".toList (constantHandler "GLOBAL".toList)

/-- The Content named `a` hooked under the Host `example.com`; it answers `EXAMPLE`. -/
def examplePage : Content :=
  Content.new calcChecksum "a".toList (constantHandler "EXAMPLE".toList)

/-- The table after `hook("", "", globalPage)` and `hook("example.com", "", examplePage)` on
a fresh table. -/
def twoHostsTable : Option Data :=
  (Data.hook calcChecksum calcChecksumi 2 (Data.new calcChecksumi) [] [] globalPage).bind
    (fun t => Data.hook calcChecksum calcChecksumi 2 t "example.com".toList [] examplePage)

/-- The session after the loop of `process_request` has visited the header lines `hs`. -/
def afterHeaders (ck cki : Str → Nat) (d : Data) : List Str → HTTPSession → HTTPSession
  | [], session => session
  | l :: ls, session =>
    afterHeaders ck cki d ls (processLine ck cki d l RequestLocals.initial session).2

/-- What the end of a request does to the buffer when nothing follows it: a keep-alive
session has its buffer emptied, another one keeps it. -/
def finishRequest (session : HTTPSession) : HTTPSession :=
  if session.keep_alive == false then session else { session with request := [] }

/-- The session with its request buffer replaced. -/
def HTTPSession.withRequest (r : Str) (session : HTTPSession) : HTTPSession :=
  { session with request := r }

/-- A fresh table as far as routing goes: its host list is the one the constructor
builds, the global namespace alone. -/
def Data.isFresh (cki : Str → Nat) (t : Data) : Prop :=
  t.hosts = (Data.new cki).hosts

/-- The tables built from a fresh table by calls of `hook` that returned. -/
inductive Hooked (ck cki : Str → Nat) : Data → Prop where
  | fresh (t : Data) : Data.isFresh cki t → Hooked ck cki t
  | hook (t t1 : Data) (fuel : Nat) (hostname in_path : Str) (in_content : Content) :
      Hooked ck cki t → Data.hook ck cki fuel t hostname in_path in_content = some t1 →
      Hooked ck cki t1

/-- The tables built from a fresh table by calls of `hook` that returned and calls of
`remove(hostname)`. -/
inductive Reachable (ck cki : Str → Nat) : Data → Prop where
  | fresh (t : Data) : Data.isFresh cki t → Reachable ck cki t
  | hook (t t1 : Data) (fuel : Nat) (hostname in_path : Str) (in_content : Content) :
      Reachable ck cki t → Data.hook ck cki fuel t hostname in_path in_content = some t1 →
      Reachable ck cki t1
  | remove (t : Data) (hostname : Str) :
      Reachable ck cki t → Reachable ck cki (Data.remove cki t hostname).2

/-- The test of the host loops: a Host with this name and stored checksum is the one the
loop stops at when looking for `name`. -/
def hostMatches (cki : Str → Nat) (name : Str) (host : Directory) : Bool :=
  cki name == host.name_checksum && equalsi host.name name

/-- Every Host carries the checksum its constructor computed from its name. -/
def Data.checksummed (cki : Str → Nat) (t : Data) : Prop :=
  ∀ host ∈ t.hosts, host.name_checksum = cki host.name

/-- No two Hosts of the table have the same stored checksum and names equal ignoring
case. -/
def Data.distinctHosts (t : Data) : Prop :=
  t.hosts.Pairwise (fun a b =>
    ¬ (a.name_checksum = b.name_checksum ∧ equalsi a.name b.name = true))

/-- The global namespace leads the host list and no other Host answers to the empty
name. -/
def Data.globalFirst (cki : Str → Nat) (t : Data) : Prop :=
  ∃ g rest, t.hosts = g :: rest ∧ g.name = global_namespace
    ∧ g.name_checksum = cki global_namespace
    ∧ ∀ host ∈ rest, hostMatches cki global_namespace host = false

/-- A node named `site` whose only child is the empty directory `Images`. -/
def imagesNode (cki : Str → Nat) : Directory :=
  Directory.mk "site".toList (cki "site".toList) [Directory.new cki "Images".toList] []

/-- The node `imagesNode` after the content has been hooked into its child `Images`. -/
def imagesNodeHooked (cki : Str → Nat) (c : Content) : Directory :=
  Directory.mk "site".toList (cki "site".toList)
    [Directory.mk "Images".toList (cki "Images".toList) [] [c]] []

/-- The table after `hook("Example.com", "", examplePage)` on a fresh table. -/
def exampleComTable : Data :=
  { Data.new calcChecksumi with
    hosts := [Directory.new calcChecksumi global_namespace,
      Directory.mk "Example.com".toList (calcChecksumi "Example.com".toList) []
        [examplePage, examplePage]] }

/-- The Content named `logo` of the examples; it answers `LOGO`. -/
def logoPage : Content :=
  Content.new calcChecksum "logo".toList (constantHandler "LOGO".toList)

/-- The table holding the Host `Example.com` after
`hook("Example.com", "IMAGES/logo", logoPage)`, when that call returns. -/
def logoTable : Option Data :=
  Data.hook calcChecksum calcChecksumi 3 exampleComTable "Example.com".toList
    "IMAGES/logo".toList logoPage

/-- What answering a request puts on the socket, given what the lookup of its target
returned: one response built from the Content found, nothing when none was found. -/
def served (JUPITER_VERSION time_header : Str) (version : HTTPVersion) (command : HTTPCommand)
    (found : Option Content) (content_parameters : Str) : List Str :=
  match found with
  | some content =>
    [response JUPITER_VERSION time_header version command content content_parameters]
  | none => []

/-- The marks of the session version on a response text: at version 1.1 it starts with
the line `HTTP/1.1 200 OK` and holds the line `Connection: keep-alive`; at version 1.0 it
starts with the line `HTTP/1.0 200 OK` and holds the line `Connection: close`. -/
def versionMarks (version : HTTPVersion) (r : Str) : Prop :=
  (version = HTTPVersion.HTTP_1_1 →
      ("HTTP/1.1 200 OK".toList ++ ENDL) <+: r
        ∧ (ENDL ++ "Connection: keep-alive".toList ++ ENDL) <:+: r)
    ∧ (version = HTTPVersion.HTTP_1_0 →
      ("HTTP/1.0 200 OK".toList ++ ENDL) <+: r
        ∧ (ENDL ++ "Connection: close".toList ++ ENDL) <:+: r)

/-- The eviction rule in the words of section 4.5 of the specification: a keep-alive
session that exceeded `keep_alive_session_timeout` since its last activity, or a
non-keep-alive session that exceeded `session_timeout`. -/
def spec_evicts (d : Data) (now : Nat) (session : HTTPSession) : Bool :=
  (session.keep_alive && decide (now > session.last_active + d.keep_alive_session_timeout))
    || (!session.keep_alive && decide (now > session.last_active + d.session_timeout))

/-- A tick at clock reading 40000 in which no socket has anything to read (`recv` returns
-1 with the would-block error 10035) and no connection arrives. -/
def quietTick : Tick :=
  { now := fun _ => 40000, html_time := fun _ => exampleTime,
    recv := fun _ => { ret := -1, buffer := [], lastError := 10035 },
    accept := fun _ => none, accept_now := fun _ => 40000,
    accept_html_time := fun _ => exampleTime }

/-- A session last active at clock reading `t`, with the given keep-alive flag and an
empty buffer. -/
def sessionAt (t : Nat) (keep_alive : Bool) : HTTPSession :=
  { freshSession [] with last_active := t, keep_alive := keep_alive }

/-- The table of the eviction example: between two sessions last active at clock reading
20000, a keep-alive session last active at 5000. -/
def idleTable : Data :=
  { pagesTable with
    sessions := [sessionAt 20000 false, sessionAt 5000 true, sessionAt 20000 true] }

/-- What a tick does to the session list around one session of it, `pre` being the
sessions before that one and `post` those after it: the list after the tick is what the
loop leaves of `pre`, then `kept` (the session as the loop left it, or nothing when it
was removed), then what the loop leaves of `post`, then the newly accepted sessions. -/
def tickKeeps (ck cki : Str → Nat) (JUPITER_VERSION : Str) (d : Data) (tick : Tick)
    (pre post kept : List HTTPSession) : Prop :=
  ∃ pre1 post1 added,
    thinkSessions ck cki JUPITER_VERSION d tick 0 pre = some pre1
    ∧ thinkSessions ck cki JUPITER_VERSION d tick (pre.length + 1) post = some post1
    ∧ thinkPorts ck cki JUPITER_VERSION d tick 0 d.ports = some added
    ∧ think ck cki JUPITER_VERSION d tick
        = some { d with sessions := pre1 ++ kept ++ post1 ++ added }

/-- What a tick does to the session list around one listening socket that accepts a
connection, `pre` being the listening sockets before that one and `post` those after it:
the list after the tick is what the loop leaves of the existing sessions, then the
sessions accepted on `post`, then `kept` (the new session, or nothing when it was not
added), then the sessions accepted on `pre`. -/
def tickAdds (ck cki : Str → Nat) (JUPITER_VERSION : Str) (d : Data) (tick : Tick)
    (pre post : List Socket) (kept : List HTTPSession) : Prop :=
  ∃ sessions1 added_post added_pre,
    thinkSessions ck cki JUPITER_VERSION d tick 0 d.sessions = some sessions1
    ∧ thinkPorts ck cki JUPITER_VERSION d tick (pre.length + 1) post = some added_post
    ∧ thinkPorts ck cki JUPITER_VERSION d tick 0 pre = some added_pre
    ∧ think ck cki JUPITER_VERSION d tick
        = some { d with sessions := sessions1 ++ added_post ++ kept ++ added_pre }

/-- The table holding `pageA` and `pageB` with a request size cap of 19 bytes, the size of
the request `GET /a HTTP/1.0` with its empty line. -/
def tightTable : Data :=
  { pagesTable with max_request_size := 19 }

/-- The table with a request size cap of 19 bytes, one session whose buffer holds the 9
bytes `GET /a HT`, and one listening socket. -/
def crowdedTable : Data :=
  { tightTable with sessions := [freshSession "GET /a HT".toList], ports := [{ sent := [] }] }

/-- A tick at clock reading 10 in which the session reads 11 more bytes and a connection
arrives whose first read delivers 21 bytes. -/
def floodTick : Tick :=
  { now := fun _ => 10, html_time := fun _ => exampleTime,
    recv := fun _ => Recv.data "TP/1.0 \r\n\r\n".toList,
    accept := fun _ => some ({ sent := [] }, Recv.data "GET /ab HTTP/1.0\r\n\r\n".toList),
    accept_now := fun _ => 10, accept_html_time := fun _ => exampleTime }

/-- A tick at clock reading 10 in which the session reads the 10 bytes `TP/1.0` CR LF
CR LF and a connection arrives whose first read delivers the request `GET /a HTTP/1.1`
with its empty line. -/
def busyTick : Tick :=
  { now := fun _ => 10, html_time := fun _ => exampleTime,
    recv := fun _ => Recv.data "TP/1.0\r\n\r\n".toList,
    accept := fun _ => some ({ sent := [] }, Recv.data "GET /a HTTP/1.1\r\n\r\n".toList),
    accept_now := fun _ => 10, accept_html_time := fun _ => exampleTime }

/-- The nodes of the tree below a Directory: the Directory itself and the nodes of its
child directories. -/
inductive IsNode : Directory → Directory → Prop where
  | self (d : Directory) : IsNode d d
  | child (d c n : Directory) : c ∈ d.directories → IsNode c n → IsNode d n

/-- The shape of a Host in a table built by `hook`: its child directories have names
pairwise different ignoring case, and none of them has child directories. -/
def Directory.flat (host : Directory) : Prop :=
  host.directories.Pairwise (fun a b => equalsi a.name b.name = false)
    ∧ ∀ c ∈ host.directories, c.directories = []

/-- The table after `hook("", "x", pageA)` and `hook("", "X", globalPage)` on a fresh
table: the directory `x` of the global namespace holds the two Contents, both named
`a`. -/
def sameNameTable : Data :=
  { Data.new calcChecksumi with
    hosts := [Directory.mk [] (calcChecksumi [])
      [Directory.mk "x".toList (calcChecksumi "x".toList) [] [pageA, globalPage]] []] }

/-- The table after `hook("", "x", pageA)` on a fresh table. -/
def oneNameTable : Data :=
  { Data.new calcChecksumi with
    hosts := [Directory.mk [] (calcChecksumi [])
      [Directory.mk "x".toList (calcChecksumi "x".toList) [] [pageA]] []] }

/-- The table after `hook("", "x", pageA)`, `hook("", "X", globalPage)` and
`hook("", "y", pageB)` on a fresh table. -/
def twoDirsTable : Data :=
  { Data.new calcChecksumi with
    hosts := [Directory.mk [] (calcChecksumi [])
      [Directory.mk "x".toList (calcChecksumi "x".toList) [] [pageA, globalPage],
       Directory.mk "y".toList (calcChecksumi "y".toList) [] [pageB]] []] }

/-- The locals and the session after the loop of `process_request` has visited the lines
`ls`, each trimmed of its leading spaces, none of them the empty line. -/
def afterLines (ck cki : Str → Nat) (d : Data) :
    List Str → RequestLocals × HTTPSession → RequestLocals × HTTPSession
  | [], state => state
  | raw :: ls, state =>
    afterLines ck cki d ls
      (processLine ck cki d (shiftRight (span [' '] raw) raw) state.1 state.2)

/-- The Connection line of a response text `r` against the session `s` it was sent on:
at version 1.1 the text holds the line `Connection: keep-alive` and the keep-alive flag
of the session is set; at any other version the text holds the line
`Connection: close`. -/
def connectionMarks (s : HTTPSession) (r : Str) : Prop :=
  (s.version = HTTPVersion.HTTP_1_1 →
      (ENDL ++ "Connection: keep-alive".toList ++ ENDL) <:+: r ∧ s.keep_alive = true)
    ∧ (s.version ≠ HTTPVersion.HTTP_1_1 →
      (ENDL ++ "Connection: close".toList ++ ENDL) <:+: r)

/-- A tick at clock reading 10 in which a connection arrives whose first `recv()`
returns 0. -/
def silentTick : Tick :=
  { now := fun _ => 10, html_time := fun _ => exampleTime,
    recv := fun _ => { ret := -1, buffer := [], lastError := 10035 },
    accept := fun _ => some ({ sent := [] }, { ret := 0, buffer := [], lastError := 0 }),
    accept_now := fun _ => 10, accept_html_time := fun _ => exampleTime }

/-- The table holding the Host `Example.com` after `hook("example.COM", "", pageB)`. -/
def exampleComTable2 : Data :=
  { Data.new calcChecksumi with
    hosts := [Directory.new calcChecksumi global_namespace,
      Directory.mk "Example.com".toList (calcChecksumi "Example.com".toList) []
        [examplePage, examplePage, pageB, pageB]] }

/-- The reference FNV-1 hash in the words of the claim, for a width of `bits` bits, by
recurrence on the bytes hashed, listed last first: the hash of no byte is the offset
basis; the hash of a sequence extended by `byte` is the hash of the sequence multiplied
by the prime modulo `2 ^ bits`, then XORed with `byte`. -/
def reference_fnv1_rev (bits basis prime : Nat) : List Nat → Nat
  | [] => basis
  | byte :: earlier =>
    ((reference_fnv1_rev bits basis prime earlier * prime) % 2 ^ bits) ^^^ byte

/-- The reference FNV-1a hash in the words of the claim: the hash of a sequence extended
by `byte` is the hash of the sequence XORed with `byte`, then multiplied by the prime
modulo `2 ^ bits`. -/
def reference_fnv1a_rev (bits basis prime : Nat) : List Nat → Nat
  | [] => basis
  | byte :: earlier =>
    ((reference_fnv1a_rev bits basis prime earlier ^^^ byte) * prime) % 2 ^ bits

/-- The reference 32-bit FNV-1 hash of a byte sequence. -/
def reference_fnv1_32 (bytes : List Nat) : Nat :=
  reference_fnv1_rev 32 2166136261 16777619 bytes.reverse

/-- The reference 32-bit FNV-1a hash of a byte sequence. -/
def reference_fnv1a_32 (bytes : List Nat) : Nat :=
  reference_fnv1a_rev 32 2166136261 16777619 bytes.reverse

/-- The reference 64-bit FNV-1 hash of a byte sequence. -/
def reference_fnv1_64 (bytes : List Nat) : Nat :=
  reference_fnv1_rev 64 14695981039346656037 1099511628211 bytes.reverse

/-- The reference 64-bit FNV-1a hash of a byte sequence. -/
def reference_fnv1a_64 (bytes : List Nat) : Nat :=
  reference_fnv1a_rev 64 14695981039346656037 1099511628211 bytes.reverse

/-- The nodes on which `OnRehash` was called, in the order of the calls. -/
def rehashCalls : List RehashEvent → List Nat
  | [] => []
  | RehashEvent.OnRehash node :: events => node :: rehashCalls events
  | _ :: events => rehashCalls events

/-- An object whose `OnRehash` returns `r` and whose `OnBadRehash` returns its
argument. -/
def rehashableReturning (r : Int) : Rehashable :=
  { OnRehash := r, OnBadRehash := fun removed => removed }

/-- The path `Data::hook` hands to `dir->hook` (HTTP_Server.cpp:273-306): `in_path`
without its leading slashes and, when something is left, without its first segment and
the slashes that follow it. -/
def delegatedPath (in_path : Str) : Str :=
  let path := shiftRight (span ['/'] in_path) in_path
  if path.isEmpty then path
  else
    let dir_name := getToken0 '/' path
    let path1 := shiftRight dir_name.length path
    shiftRight (span ['/'] path1) path1

/-- Whether the path `Data::hook` hands to `dir->hook` still names a directory: after its
leading slashes it holds a further `/`. -/
def namesSubdirectory (in_path : Str) : Bool :=
  (find '/' (shiftRight (span ['/'] (delegatedPath in_path)) (delegatedPath in_path))).isSome

/-! # Theorems -/

/-! ## Lists and strings -/

theorem takeWhile_append_stop {α : Type} (p : α → Bool) (l r : List α) (x : α)
    (hx : p x = false) : (l ++ x :: r).takeWhile p = l.takeWhile p := by
  induction l with
  | nil => simp [List.takeWhile, hx]
  | cons a l ih =>
    by_cases ha : p a = true
    · simp [List.takeWhile, ha, ih]
    · simp [List.takeWhile, ha]

theorem finalSegment_append_slash (a b : Str) :
    finalSegment (a ++ '/' :: b) = finalSegment b := by
  unfold finalSegment
  have h : (a ++ '/' :: b).reverse = b.reverse ++ '/' :: a.reverse := by simp
  rw [h, takeWhile_append_stop _ _ _ _ (by decide)]

theorem find_none_iff (v : Char) (s : Str) : find v s = none ↔ v ∉ s := by
  induction s with
  | nil => simp [find]
  | cons x xs ih =>
    by_cases hx : x = v
    · simp [find, hx]
    · have hx2 : ¬ v = x := fun h => hx h.symm
      simp [find, hx, hx2, ih]

theorem finalSegment_of_not_mem (s : Str) (h : '/' ∉ s) : finalSegment s = s := by
  unfold finalSegment
  have : s.reverse.takeWhile (fun c => c != '/') = s.reverse := by
    rw [List.takeWhile_eq_self_iff]
    intro c hc
    have hc2 : c ∈ s := by simpa using hc
    have : c ≠ '/' := fun e => h (e ▸ hc2)
    simpa using this
  rw [this, List.reverse_reverse]

theorem find_some_split (v : Char) (s : Str) (i : Nat) (h : find v s = some i) :
    s = s.take i ++ v :: s.drop (i + 1) ∧ i < s.length := by
  induction s generalizing i with
  | nil => simp [find] at h
  | cons x xs ih =>
    by_cases hx : x = v
    · simp [find, hx] at h
      subst h
      simp [hx]
    · simp only [find, hx, if_false, Option.map_eq_some'] at h
      obtain ⟨j, hj, rfl⟩ := h
      obtain ⟨h1, h2⟩ := ih j hj
      refine ⟨?_, by simp; omega⟩
      simp only [List.take_succ_cons, List.drop_succ_cons, List.cons_append]
      rw [← h1]

theorem shiftRight_span_slash (s : Str) :
    ∃ k, s = List.replicate k '/' ++ shiftRight (span ['/'] s) s := by
  induction s with
  | nil => exact ⟨0, by simp [shiftRight, span]⟩
  | cons x xs ih =>
    by_cases hx : x = '/'
    · obtain ⟨k, hk⟩ := ih
      refine ⟨k + 1, ?_⟩
      subst hx
      simp only [shiftRight, span] at hk ⊢
      simp [List.takeWhile, List.replicate_succ]
      simpa using hk
    · refine ⟨0, ?_⟩
      simp [shiftRight, span, List.takeWhile, hx]

theorem finalSegment_replicate_slash (k : Nat) (s : Str) :
    finalSegment (List.replicate k '/' ++ s) = finalSegment s := by
  induction k with
  | zero => simp
  | succ k ih =>
    rw [List.replicate_succ, List.cons_append]
    exact (finalSegment_append_slash [] _).trans ih

theorem finalSegment_shiftRight_span (s : Str) :
    finalSegment (shiftRight (span ['/'] s) s) = finalSegment s := by
  obtain ⟨k, hk⟩ := shiftRight_span_slash s
  conv_rhs => rw [hk]
  rw [finalSegment_replicate_slash]

theorem lastMatch_some {α : Type} (p : α → Bool) (l : List α) (y : α)
    (h : lastMatch p l = some y) : p y = true ∧ y ∈ l := by
  induction l with
  | nil => simp [lastMatch] at h
  | cons x xs ih =>
    simp only [lastMatch] at h
    cases hm : lastMatch p xs with
    | some z =>
      rw [hm] at h
      simp only [Option.some.injEq] at h
      subst h
      exact ⟨(ih hm).1, List.mem_cons_of_mem _ (ih hm).2⟩
    | none =>
      rw [hm] at h
      by_cases hp : p x = true
      · simp [hp] at h
        subst h
        exact ⟨hp, List.mem_cons_self _ _⟩
      · simp [hp] at h

/-! ## The routing tree -/

/-- One round of `Directory::find`, the recursive call left folded. -/
theorem directory_find_unfold (ck : Str → Nat) (d : Directory) (in_name : Str) :
    Directory.find ck d in_name =
      match find '/' (shiftRight (span ['/'] in_name) in_name) with
      | none =>
        lastMatch (fun content_itr =>
          content_itr.name_checksum == ck (shiftRight (span ['/'] in_name) in_name)
            && equals content_itr.name (shiftRight (span ['/'] in_name) in_name)) d.content
      | some index =>
        match lastMatch (fun directory =>
          directory.name_checksum
              == ck (substring0 index (shiftRight (span ['/'] in_name) in_name))
            && equals directory.name
                (substring0 index (shiftRight (span ['/'] in_name) in_name)))
          d.directories with
        | some directory =>
          Directory.findFuel ck in_name.length directory
            (shiftRight (substring0 index (shiftRight (span ['/'] in_name) in_name)).length
              (shiftRight (span ['/'] in_name) in_name))
        | none => none := rfl

theorem findFuel_name (ck : Str → Nat) (fuel : Nat) (d : Directory) (path : Str)
    (c : Content) (h : Directory.findFuel ck fuel d path = some c) :
    c.name = finalSegment path := by
  induction fuel generalizing d path with
  | zero => simp [Directory.findFuel] at h
  | succ fuel ih =>
    simp only [Directory.findFuel] at h
    rw [← finalSegment_shiftRight_span path]
    generalize shiftRight (span ['/'] path) path = s at h
    cases hf : find '/' s with
    | none =>
      rw [hf] at h
      simp only at h
      have hm := (lastMatch_some _ _ _ h).1
      simp only [Bool.and_eq_true, equals, beq_iff_eq] at hm
      rw [finalSegment_of_not_mem s ((find_none_iff _ _).1 hf)]
      exact hm.2
    | some i =>
      rw [hf] at h
      simp only at h
      obtain ⟨hs, hi⟩ := find_some_split _ _ _ hf
      cases hd : lastMatch (fun directory : Directory =>
          directory.name_checksum == ck (substring0 i s)
            && equals directory.name (substring0 i s)) d.directories with
      | none => rw [hd] at h; simp at h
      | some sub =>
        rw [hd] at h
        simp only at h
        have := ih _ _ h
        rw [this]
        have hlen : (substring0 i s).length = i := by
          simp [substring0]; omega
        rw [hlen]
        conv_rhs => rw [hs]
        rw [finalSegment_append_slash]
        have : shiftRight i s = '/' :: List.drop (i + 1) s := by
          unfold shiftRight
          conv_lhs => rw [hs]
          rw [List.drop_append_of_le_length (by simp; omega)]
          simp
        rw [this]
        exact finalSegment_append_slash [] _

/-- The loop at `directory_add_loop` never leaves when the remaining path starts with a
slash: `find('/')` keeps answering 0 because `in_name_ref` is not advanced. -/
theorem directory_add_loop_slash (cki : Str → Nat) (outer_size : Nat) (rest : Str)
    (c : Content) (fuel : Nat) (directory : Directory) :
    Directory.directory_add_loop cki outer_size ('/' :: rest) c fuel directory = none := by
  induction fuel generalizing directory with
  | zero => rfl
  | succ fuel ih =>
    simp only [Directory.directory_add_loop, find, if_true]
    cases hg : (directory.addDirectory
        (Directory.new cki (substring0 0 ('/' :: rest)))).directories.get? (outer_size - 1) with
    | none => rfl
    | some child => simp [ih]

theorem shiftRight_at_slash (s : Str) (i : Nat) (h : find '/' s = some i) :
    shiftRight (substring0 i s).length s = '/' :: s.drop (i + 1) := by
  obtain ⟨hs, hi⟩ := find_some_split _ _ _ h
  have hlen : (substring0 i s).length = i := by
    simp [substring0]; omega
  rw [hlen]
  unfold shiftRight
  conv_lhs => rw [hs]
  rw [List.drop_append_of_le_length (by simp; omega)]
  simp

/-- `Directory::hook` with a path of two or more segments whose first segment matches no
child directory never returns. -/
theorem hook_unmatched_no_return (ck cki : Str → Nat) (fuel : Nat) (d : Directory)
    (in_name : Str) (c : Content) (i : Nat)
    (hfind : find '/' (shiftRight (span ['/'] in_name) in_name) = some i)
    (hno : lastEntry (fun directory : Directory =>
        directory.name_checksum
            == ck (substring0 i (shiftRight (span ['/'] in_name) in_name))
          && equals directory.name (substring0 i (shiftRight (span ['/'] in_name) in_name)))
        d.directories = none) :
    Directory.hook ck cki fuel d in_name c = none := by
  cases fuel with
  | zero => rfl
  | succ fuel =>
    rw [Directory.hook]
    simp only [hfind, hno, shiftRight_at_slash _ _ hfind, directory_add_loop_slash,
      Option.map_none']

theorem shiftRight_span_length_le (s : Str) : (shiftRight (span ['/'] s) s).length ≤ s.length := by
  simp [shiftRight]

theorem shiftRight_span_head (s : Str) : (shiftRight (span ['/'] s) s).head? ≠ some '/' := by
  induction s with
  | nil => simp [shiftRight, span]
  | cons x xs ih =>
    by_cases hx : x = '/'
    · subst hx
      simpa [shiftRight, span, List.takeWhile] using ih
    · simp [shiftRight, span, List.takeWhile, hx]

theorem find_zero_head (v : Char) (s : Str) (h : find v s = some 0) : s.head? = some v := by
  cases s with
  | nil => simp [find] at h
  | cons x xs =>
    by_cases hx : x = v
    · simp [hx]
    · simp [find, hx] at h

/-- Fuel beyond the length of the path does not change what `Directory::find` answers. -/
theorem findFuel_succ (ck : Str → Nat) (fuel : Nat) :
    ∀ (d : Directory) (path : Str), path.length < fuel →
      Directory.findFuel ck (fuel + 1) d path = Directory.findFuel ck fuel d path := by
  induction fuel with
  | zero => intro _ _ h; omega
  | succ fuel ih =>
    intro d path h
    rw [Directory.findFuel, Directory.findFuel.eq_def ck (fuel + 1)]
    simp only
    have hle := shiftRight_span_length_le path
    have hhead := shiftRight_span_head path
    generalize shiftRight (span ['/'] path) path = s at hle hhead ⊢
    cases hf : find '/' s with
    | none => rfl
    | some i =>
      simp only
      cases hd : lastMatch (fun directory : Directory =>
          directory.name_checksum == ck (substring0 i s)
            && equals directory.name (substring0 i s)) d.directories with
      | none => rfl
      | some sub =>
        simp only
        apply ih
        rw [shiftRight_at_slash s i hf]
        obtain ⟨_, hi⟩ := find_some_split _ _ _ hf
        have hpos : 0 < i := by
          rcases Nat.eq_zero_or_pos i with h0 | h0
          · subst h0
            exact absurd (find_zero_head _ _ hf) hhead
          · exact h0
        simp only [List.length_cons, List.length_drop]
        omega

theorem findFuel_eq_find (ck : Str → Nat) (fuel : Nat) (d : Directory) (path : Str)
    (h : path.length < fuel) :
    Directory.findFuel ck fuel d path = Directory.find ck d path := by
  unfold Directory.find
  induction fuel with
  | zero => omega
  | succ fuel ih =>
    by_cases hlt : path.length < fuel
    · rw [findFuel_succ ck fuel d path hlt]
      exact ih hlt
    · have : fuel = path.length := by omega
      rw [this]

/-- The table after `hook("example.com", "images/logo", content)` on a fresh table. -/
theorem hook_example (ck cki : Str → Nat) (f : Str → Str) :
    Data.hook ck cki 2 (Data.new cki) "example.com".toList "images/logo".toList
        (Content.new ck "logo".toList f)
      = some { Data.new cki with
               hosts := [Directory.new cki global_namespace, exampleHost ck cki f] } := by
  simp +decide [Data.hook, Data.hostEntry, Data.new, lastEntry, Directory.new, Directory.name,
    Directory.name_checksum, global_namespace, Data.hookHost, Directory.hook,
    Directory.directories, Directory.addDirectory, Directory.addContent, Directory.content,
    exampleHost, shiftRight, span, getToken0, find, substring0, List.takeWhile]

/-! ## Request processing -/

theorem findStr_ENDL_cons_cons (c d : Char) (l : Str) (h : findStr ENDL (c :: d :: l) = none) :
    ¬ (c = '\r' ∧ d = '\n') ∧ findStr ENDL (d :: l) = none := by
  unfold findStr at h
  by_cases hp : ENDL.isPrefixOf (c :: d :: l) = true
  · simp [hp] at h
  · simp only [hp, Option.map_eq_none'] at h
    refine ⟨?_, by simpa using h⟩
    rintro ⟨rfl, rfl⟩
    exact hp (by simp [ENDL, List.isPrefixOf])

theorem tokenize_line (l rest : Str) (h : findStr ENDL l = none) :
    tokenize (l ++ '\r' :: '\n' :: rest) = l :: tokenize rest := by
  match l, h with
  | [], _ => simp [tokenize]
  | [c], _ =>
    have h2 : ¬ (c = '\r' ∧ '\r' = '\n') := by simp
    simp [tokenize, h2]
  | c :: d :: l, h =>
    obtain ⟨h1, h2⟩ := findStr_ENDL_cons_cons c d l h
    have ih := tokenize_line (d :: l) rest h2
    simp only [List.cons_append] at ih ⊢
    rw [tokenize]
    simp only [h1, if_false, ih]

theorem tokenize_unlines (ls : List Str) (rest : Str)
    (h : ∀ l ∈ ls, findStr ENDL l = none) :
    tokenize (unlines ls ++ rest) = ls ++ tokenize rest := by
  induction ls with
  | nil => simp [unlines]
  | cons l ls ih =>
    have h1 := h l (List.mem_cons_self _ _)
    have h2 : ∀ x ∈ ls, findStr ENDL x = none := fun x hx => h x (List.mem_cons_of_mem _ hx)
    simp only [unlines, ENDL, List.append_assoc, List.cons_append, List.nil_append]
    rw [tokenize_line _ _ h1, ih h2]

theorem findStr_append_isSome (sub a b : Str) : (findStr sub (a ++ (sub ++ b))).isSome = true := by
  induction a with
  | nil =>
    cases hs : sub ++ b with
    | nil =>
      have : sub = [] := (List.append_eq_nil.1 hs).1
      simp [this, findStr]
    | cons x xs =>
      have hp : sub.isPrefixOf (x :: xs) = true := by
        rw [← hs]; simp
      simp [findStr, hp, hs]
  | cons x a ih =>
    simp only [List.cons_append, findStr]
    split
    · rfl
    · cases hf : findStr sub (a ++ (sub ++ b)) with
      | none => rw [hf] at ih; simp at ih
      | some i => simp

theorem length_unlines (ls : List Str) :
    (unlines ls).length = (ls.map (fun token => token.length + 2)).sum := by
  induction ls with
  | nil => rfl
  | cons l ls ih =>
    simp only [unlines, ENDL, List.length_append, List.length_cons, List.length_nil, ih,
      List.map_cons, List.sum_cons]

theorem get_line_offset_unlines (ls more : List Str) :
    get_line_offset (ls ++ [] :: more) (ls.length + 1) = (unlines ls ++ ENDL).length := by
  unfold get_line_offset
  have : (ls ++ [] :: more).take (ls.length + 1) = ls ++ [[]] := by
    rw [List.take_append_eq_append_take]
    simp
  rw [this]
  simp [length_unlines, ENDL]

theorem takeWhile_append_of_all {α : Type} (p : α → Bool) (l r : List α)
    (h : ∀ x ∈ l, p x = true) : (l ++ r).takeWhile p = l ++ r.takeWhile p := by
  induction l with
  | nil => rfl
  | cons a l ih =>
    have ha := h a (List.mem_cons_self _ _)
    simp [List.takeWhile, ha, ih (fun x hx => h x (List.mem_cons_of_mem _ hx))]

theorem dropWhile_append_of_all {α : Type} (p : α → Bool) (l r : List α)
    (h : ∀ x ∈ l, p x = true) : (l ++ r).dropWhile p = r.dropWhile p := by
  induction l with
  | nil => rfl
  | cons a l ih =>
    have ha := h a (List.mem_cons_self _ _)
    simp [List.dropWhile, ha, ih (fun x hx => h x (List.mem_cons_of_mem _ hx))]

theorem isTarget_spec (t : Str) (h : isTarget t = true) :
    (∃ c r, t = c :: r ∧ c ≠ ' ') ∧ (∀ x ∈ t, x ≠ ' ') ∧ (∀ x ∈ t, x ≠ '\r') := by
  simp only [isTarget, Bool.and_eq_true, Bool.not_eq_true', List.contains_eq_any_beq,
    List.any_eq_false, beq_iff_eq] at h
  obtain ⟨⟨h1, h2⟩, h3⟩ := h
  have h2' : ∀ x ∈ t, x ≠ ' ' := fun x hx e => h2 x hx (by simp [e])
  have h3' : ∀ x ∈ t, x ≠ '\r' := fun x hx e => h3 x hx (by simp [e])
  refine ⟨?_, h2', h3'⟩
  cases t with
  | nil => simp at h1
  | cons c r => exact ⟨c, r, rfl, h2' c (List.mem_cons_self _ _)⟩

theorem getLine11_token (t : Str) : getToken0 ' ' (getLine11 t) = "GET".toList := by
  simp [getLine11, getToken0, List.takeWhile]

theorem dropWhile_space_cons (s : Str) :
    List.dropWhile (fun c => ([' '] : Str).contains c) (' ' :: s)
      = List.dropWhile (fun c => ([' '] : Str).contains c) s := by
  simp [List.dropWhile]

theorem getWord_space (n : Nat) (s : Str) : getWord n [' '] (' ' :: s) = getWord n [' '] s := by
  cases n with
  | zero => simp only [getWord, dropWhile_space_cons]
  | succ n => simp only [getWord, dropWhile_space_cons]

theorem dropWhile_space_word (w rest : Str) (hne : w ≠ []) (hw : ∀ x ∈ w, x ≠ ' ') :
    List.dropWhile (fun c => ([' '] : Str).contains c) (w ++ rest) = w ++ rest := by
  cases w with
  | nil => exact absurd rfl hne
  | cons c r =>
    have hc : c ≠ ' ' := hw c (List.mem_cons_self _ _)
    simp [List.dropWhile, hc]

theorem getWord_succ_word (n : Nat) (w rest : Str) (hne : w ≠ []) (hw : ∀ x ∈ w, x ≠ ' ') :
    getWord (n + 1) [' '] (w ++ ' ' :: rest) = getWord n [' '] rest := by
  have hall : ∀ x ∈ w, (!([' '] : Str).contains x) = true := by
    intro x hx
    simp [hw x hx]
  rw [getWord, dropWhile_space_word w _ hne hw, dropWhile_append_of_all _ _ _ hall]
  have : List.dropWhile (fun c => !([' '] : Str).contains c) (' ' :: rest) = ' ' :: rest := by
    simp [List.dropWhile]
  rw [this, getWord_space]

theorem getWord_zero_word (w rest : Str) (hne : w ≠ []) (hw : ∀ x ∈ w, x ≠ ' ') :
    getWord 0 [' '] (w ++ ' ' :: rest) = w := by
  have hall : ∀ x ∈ w, (!([' '] : Str).contains x) = true := by
    intro x hx
    simp [hw x hx]
  rw [getWord, dropWhile_space_word w _ hne hw, takeWhile_append_of_all _ _ _ hall]
  simp [List.takeWhile]

theorem getLine11_eq (t : Str) :
    getLine11 t = "GET".toList ++ ' ' :: (t ++ ' ' :: "HTTP/1.1".toList) := by
  simp [getLine11]

theorem getLine11_word1 (t : Str) (h : isTarget t = true) :
    getWord 1 [' '] (getLine11 t) = t := by
  obtain ⟨⟨c, r, rfl, hc⟩, h2, _⟩ := isTarget_spec _ h
  rw [getLine11_eq, getWord_succ_word 0 _ _ (by decide) (by decide),
    getWord_zero_word _ _ (by simp) h2]

theorem getLine11_word2 (t : Str) (h : isTarget t = true) :
    getWord 2 [' '] (getLine11 t) = "HTTP/1.1".toList := by
  obtain ⟨⟨c, r, rfl, hc⟩, h2, _⟩ := isTarget_spec _ h
  rw [getLine11_eq, getWord_succ_word 1 _ _ (by decide) (by decide),
    getWord_succ_word 0 _ _ (by simp) h2]
  decide

theorem findStr_none_of_no_cr (s : Str) (h : ∀ x ∈ s, x ≠ '\r') : findStr ENDL s = none := by
  induction s with
  | nil => rfl
  | cons x xs ih =>
    have hx : x ≠ '\r' := h x (List.mem_cons_self _ _)
    have hx2 : ¬ '\r' = x := fun e => hx e.symm
    have hp : ENDL.isPrefixOf (x :: xs) = false := by
      simp [ENDL, List.isPrefixOf, hx2]
    simp [findStr, hp, ih (fun y hy => h y (List.mem_cons_of_mem _ hy))]

theorem getLine11_noCRLF (t : Str) (h : isTarget t = true) :
    findStr ENDL (getLine11 t) = none := by
  obtain ⟨_, _, h3⟩ := isTarget_spec _ h
  apply findStr_none_of_no_cr
  intro x hx
  simp only [getLine11, List.mem_append] at hx
  rcases hx with (hx | hx) | hx
  · intro e; subst e; revert hx; decide
  · exact h3 x hx
  · intro e; subst e; revert hx; decide

theorem processLine_getLine11 (ck cki : Str → Nat) (d : Data) (t : Str) (h : isTarget t = true)
    (locals : RequestLocals) (session : HTTPSession) :
    processLine ck cki d (getLine11 t) locals session
      = ({ command := HTTPCommand.GET, content := Data.find ck d (targetPath t),
           content_parameters := targetParameters t },
         { session with version := HTTPVersion.HTTP_1_1, keep_alive := true }) := by
  have e1 : equalsi "HTTP/1.1".toList "http/1.0".toList = false := by decide
  have e2 : equalsi "HTTP/1.1".toList "http/1.1".toList = true := by decide
  have e3 : ("GET".toList.getLast? = some ':') = False := by decide
  have e4 : equals "GET".toList "GET".toList = true := by decide
  unfold processLine
  simp only [getLine11_token, e3, if_false, e4, if_true]
  unfold requestLine
  simp only [getLine11_word1 t h, getLine11_word2 t h, e1, e2, if_true]
  unfold targetPath targetParameters
  cases find '?' t <;> simp

theorem processLine_header (ck cki : Str → Nat) (d : Data) (l : Str)
    (h : isHeaderLine l = true) (locals : RequestLocals) (session : HTTPSession) :
    ∃ host keep_alive,
      processLine ck cki d l locals session
        = (locals, { session with host := host, keep_alive := keep_alive })
      ∧ (session.keep_alive = true → keep_alive = true) := by
  simp only [isHeaderLine, Bool.and_eq_true, beq_iff_eq] at h
  unfold processLine
  simp only [h.1.2, if_true]
  split
  · exact ⟨_, session.keep_alive, rfl, id⟩
  · split
    · split
      · exact ⟨session.host, true, rfl, fun _ => rfl⟩
      · exact ⟨session.host, session.keep_alive, rfl, id⟩
    · exact ⟨session.host, session.keep_alive, rfl, id⟩

theorem isHeaderLine_trim (l : Str) (h : isHeaderLine l = true) :
    shiftRight (span [' '] l) l = l ∧ l.isEmpty = false ∧ findStr ENDL l = none := by
  simp only [isHeaderLine, Bool.and_eq_true, beq_iff_eq, bne_iff_ne, ne_eq,
    Option.isNone_iff_eq_none] at h
  obtain ⟨⟨h1, h2⟩, h3⟩ := h
  cases l with
  | nil => simp [getToken0] at h2
  | cons c r =>
    have hc : c ≠ ' ' := by simpa using h1
    refine ⟨?_, rfl, h3⟩
    simp [shiftRight, span, List.takeWhile, hc]

theorem lineLoop_headers (ck cki : Str → Nat) (JUPITER_VERSION : Str) (d : Data)
    (recurse : (Nat → Str) → HTTPSession → Option HTTPSession) (html_time : Nat → Str)
    (token_count : Nat) (hs : List Str) (hh : ∀ l ∈ hs, isHeaderLine l = true)
    (tail : List Str) (done : List Str) (locals : RequestLocals) (session : HTTPSession) :
    ∃ host keep_alive,
      lineLoop ck cki JUPITER_VERSION d recurse html_time token_count done (hs ++ tail)
          locals session
        = lineLoop ck cki JUPITER_VERSION d recurse html_time token_count (done ++ hs) tail
            locals { session with host := host, keep_alive := keep_alive }
      ∧ (session.keep_alive = true → keep_alive = true) := by
  induction hs generalizing done session with
  | nil => exact ⟨session.host, session.keep_alive, by simp, id⟩
  | cons l hs ih =>
    have hl := hh l (List.mem_cons_self _ _)
    obtain ⟨t1, t2, t3⟩ := isHeaderLine_trim l hl
    obtain ⟨host1, ka1, e1, k1⟩ := processLine_header ck cki d l hl locals session
    obtain ⟨host2, ka2, e2, k2⟩ := ih (fun x hx => hh x (List.mem_cons_of_mem _ hx))
      (done ++ [l]) { session with host := host1, keep_alive := ka1 }
    refine ⟨host2, ka2, ?_, fun hk => k2 (k1 hk)⟩
    rw [List.cons_append, lineLoop]
    simp only [t1, t2, e1]
    simp only [Bool.false_eq_true, if_false]
    rw [e2]
    simp

theorem tokenize_ne_nil (s : Str) : tokenize s ≠ [] := by
  match s with
  | [] => simp [tokenize]
  | [c] => simp [tokenize]
  | c :: d :: rest =>
    rw [tokenize]
    split
    · simp
    · split <;> simp

theorem getLine11_trim (t : Str) :
    shiftRight (span [' '] (getLine11 t)) (getLine11 t) = getLine11 t
      ∧ (getLine11 t).isEmpty = false := by
  simp [getLine11, shiftRight, span, List.takeWhile]

/-- One complete `GET target HTTP/1.1` request at the head of the buffer: what
`process_request` does with it. -/
theorem process_get11_step (ck cki : Str → Nat) (JUPITER_VERSION : Str) (d : Data)
    (t : Str) (ht : isTarget t = true) (hs : List Str) (hh : ∀ l ∈ hs, isHeaderLine l = true)
    (c : Content) (hc : Data.find ck d (targetPath t) = some c) (rest : Str)
    (session : HTTPSession) (hreq : session.request = unlines (getLine11 t :: hs) ++ ENDL ++ rest)
    (fuel : Nat) (html_time : Nat → Str) :
    ∃ host,
      process_requestFuel ck cki JUPITER_VERSION d (fuel + 1) html_time session
        = (if (findStr HTTP_REQUEST_ENDING rest).isSome then
            process_requestFuel ck cki JUPITER_VERSION d fuel (fun j => html_time (j + 1))
              { session with
                request := rest, version := HTTPVersion.HTTP_1_1, keep_alive := true,
                host := host,
                sock := { sent := session.sock.sent ++
                  [response JUPITER_VERSION (html_time 0) HTTPVersion.HTTP_1_1 HTTPCommand.GET c
                    (targetParameters t)] } }
          else
            some { session with
                request := rest, version := HTTPVersion.HTTP_1_1, keep_alive := true,
                host := host,
                sock := { sent := session.sock.sent ++
                  [response JUPITER_VERSION (html_time 0) HTTPVersion.HTTP_1_1 HTTPCommand.GET c
                    (targetParameters t)] } }) := by
  have hlines : ∀ l ∈ getLine11 t :: hs, findStr ENDL l = none := by
    intro l hl
    rcases List.mem_cons.1 hl with rfl | hl
    · exact getLine11_noCRLF t ht
    · exact (isHeaderLine_trim l (hh l hl)).2.2
  have htok : tokenize session.request = getLine11 t :: (hs ++ [] :: tokenize rest) := by
    rw [hreq, List.append_assoc, tokenize_unlines _ _ hlines]
    have : tokenize (ENDL ++ rest) = [] :: tokenize rest := tokenize_line [] rest rfl
    rw [this]
    rfl
  obtain ⟨g1, g2⟩ := getLine11_trim t
  rw [process_requestFuel]
  simp only [htok]
  rw [lineLoop]
  simp only [g1, g2, Bool.false_eq_true, if_false, processLine_getLine11 ck cki d t ht, hc]
  obtain ⟨host, ka, e, k⟩ := lineLoop_headers ck cki JUPITER_VERSION d
    (fun html_time1 session1 =>
      process_requestFuel ck cki JUPITER_VERSION d fuel html_time1 session1)
    html_time (getLine11 t :: (hs ++ [] :: tokenize rest)).length hs hh ([] :: tokenize rest)
    ([] ++ [getLine11 t])
    { command := HTTPCommand.GET, content := some c, content_parameters := targetParameters t }
    { session with version := HTTPVersion.HTTP_1_1, keep_alive := true }
  have hka : ka = true := k rfl
  subst hka
  refine ⟨host, ?_⟩
  rw [e, lineLoop]
  have hidx : ((([] : List Str) ++ [getLine11 t] ++ hs).length + 1
      == (getLine11 t :: (hs ++ [] :: tokenize rest)).length) = false := by
    have := List.length_pos.2 (tokenize_ne_nil rest)
    simp only [List.nil_append, List.length_append, List.length_cons, List.length_nil,
      beq_eq_false_iff_ne, ne_eq]
    omega
  have hoff : get_line_offset (([] : List Str) ++ [getLine11 t] ++ hs ++ [] :: tokenize rest)
      ((([] : List Str) ++ [getLine11 t] ++ hs).length + 1)
      = (unlines (getLine11 t :: hs) ++ ENDL).length := by
    have := get_line_offset_unlines (getLine11 t :: hs) (tokenize rest)
    simpa using this
  have hshift : shiftRight (unlines (getLine11 t :: hs) ++ ENDL).length session.request = rest := by
    rw [hreq]
    simp [shiftRight]
  simp only [shiftRight, span, List.takeWhile, List.length_nil, List.drop_zero, List.isEmpty_nil,
    if_true, respond, HTTPSession.send]
  simp only [hidx, hoff, Bool.false_eq_true, if_false, ← shiftRight.eq_1, hshift]
  simp

theorem unlines_cons_ends (l : Str) (ls : List Str) : ∃ pre, unlines (l :: ls) = pre ++ ENDL := by
  induction ls generalizing l with
  | nil => exact ⟨l, by simp [unlines]⟩
  | cons x xs ih =>
    obtain ⟨pre, hpre⟩ := ih x
    refine ⟨l ++ ENDL ++ pre, ?_⟩
    rw [unlines, hpre]
    simp

theorem getRequest11_ending (t : Str) (hs : List Str) :
    (findStr HTTP_REQUEST_ENDING (getRequest11 t hs)).isSome = true := by
  obtain ⟨pre, hpre⟩ := unlines_cons_ends (getLine11 t) hs
  have : getRequest11 t hs = pre ++ (HTTP_REQUEST_ENDING ++ []) := by
    rw [getRequest11, hpre]
    simp [ENDL, HTTP_REQUEST_ENDING]
  rw [this]
  exact findStr_append_isSome _ _ _

theorem getRequest11_length_pos (t : Str) (hs : List Str) : 0 < (getRequest11 t hs).length := by
  simp [getRequest11, ENDL]

theorem requestLine_request (ck : Str → Nat) (d : Data) (command : HTTPCommand) (line : Str)
    (session : HTTPSession) :
    (requestLine ck d command line session).2.request = session.request := by
  unfold requestLine
  simp only
  split
  · rfl
  · split <;> rfl

theorem processLine_request (ck cki : Str → Nat) (d : Data) (line : Str)
    (locals : RequestLocals) (session : HTTPSession) :
    (processLine ck cki d line locals session).2.request = session.request := by
  unfold processLine
  simp only
  split
  · split
    · rfl
    · split
      · split <;> rfl
      · rfl
  · split
    · exact requestLine_request _ _ _ _ _
    · split
      · exact requestLine_request _ _ _ _ _
      · rfl

theorem respond_request (JUPITER_VERSION time_header : Str) (locals : RequestLocals)
    (session : HTTPSession) :
    (respond JUPITER_VERSION time_header locals session).1.request = session.request := by
  unfold respond
  split <;> rfl

theorem findStr_ENDING_nil : findStr HTTP_REQUEST_ENDING [] = none := rfl

theorem get_line_offset_pos (done : List Str) (line : Str) (rest : List Str) :
    2 ≤ get_line_offset (done ++ line :: rest) (done.length + 1) := by
  unfold get_line_offset
  have : (done ++ line :: rest).take (done.length + 1) = done ++ [line] := by
    rw [List.take_append_eq_append_take]
    simp
  rw [this]
  simp only [List.map_append, List.sum_append, List.map_cons, List.map_nil, List.sum_cons,
    List.sum_nil]
  omega

theorem lineLoop_isSome (ck cki : Str → Nat) (JUPITER_VERSION : Str) (d : Data)
    (recurse : (Nat → Str) → HTTPSession → Option HTTPSession) (n : Nat)
    (hrec : ∀ ht s, s.request.length < n → (recurse ht s).isSome = true)
    (token_count : Nat) (rest : List Str) :
    ∀ (html_time : Nat → Str) (done : List Str) (locals : RequestLocals) (session : HTTPSession),
      session.request.length ≤ n →
      (lineLoop ck cki JUPITER_VERSION d recurse html_time token_count done rest locals
        session).isSome = true := by
  induction rest with
  | nil => intro _ _ _ _ _; rfl
  | cons raw rest ih =>
    intro html_time done locals session hlen
    rw [lineLoop]
    simp only
    by_cases hE : (shiftRight (span [' '] raw) raw).isEmpty = true
    · simp only [hE, if_true]
      by_cases hK : ((respond JUPITER_VERSION (html_time 0) locals session).1.keep_alive
          == false) = true
      · simp only [hK, if_true]
        rfl
      · simp only [hK]
        have hr := respond_request JUPITER_VERSION (html_time 0) locals session
        generalize hs2 : (if (done.length + 1 == token_count) = true then
            ({ respond JUPITER_VERSION (html_time 0) locals session |>.1 with
               request := [] } : HTTPSession)
          else { respond JUPITER_VERSION (html_time 0) locals session |>.1 with
                 request := shiftRight
                   (get_line_offset (done ++ shiftRight (span [' '] raw) raw :: rest)
                     (done.length + 1))
                   (respond JUPITER_VERSION (html_time 0) locals session).1.request })
          = session2
        have hlt : (findStr HTTP_REQUEST_ENDING session2.request).isSome = true →
            session2.request.length < n := by
          intro hfound
          subst hs2
          split at hfound
          · simp [findStr_ENDING_nil] at hfound
          · split
            · rename_i h1 h2
              exact absurd h2 h1
            · simp only [hr] at hfound ⊢
              have h2 := get_line_offset_pos done (shiftRight (span [' '] raw) raw) rest
              generalize get_line_offset (done ++ shiftRight (span [' '] raw) raw :: rest)
                (done.length + 1) = k at hfound h2 ⊢
              cases hreq : session.request with
              | nil => rw [hreq] at hfound; simp [shiftRight, findStr_ENDING_nil] at hfound
              | cons x xs =>
                rw [hreq] at hlen
                simp only [shiftRight, List.length_drop, List.length_cons] at hlen ⊢
                omega
        by_cases hF : (findStr HTTP_REQUEST_ENDING session2.request).isSome = true
        · simp only [hF, if_true]
          exact hrec _ _ (hlt hF)
        · simp only [hF]
          rfl
    · simp only [hE]
      apply ih
      rw [processLine_request]
      exact hlen

theorem process_requestFuel_isSome (ck cki : Str → Nat) (JUPITER_VERSION : Str) (d : Data)
    (fuel : Nat) :
    ∀ (html_time : Nat → Str) (session : HTTPSession), session.request.length < fuel →
      (process_requestFuel ck cki JUPITER_VERSION d fuel html_time session).isSome = true := by
  induction fuel with
  | zero => intro _ _ h; omega
  | succ fuel ih =>
    intro html_time session h
    rw [process_requestFuel]
    exact lineLoop_isSome ck cki JUPITER_VERSION d _ fuel (fun ht s hs => ih ht s hs) _ _ _ _ _ _
      (by omega)

/-- `process_request` returns for every session. -/
theorem process_request_isSome (ck cki : Str → Nat) (JUPITER_VERSION : Str) (d : Data)
    (html_time : Nat → Str) (session : HTTPSession) :
    (process_request ck cki JUPITER_VERSION d html_time session).isSome = true :=
  process_requestFuel_isSome ck cki JUPITER_VERSION d _ html_time session (by omega)

theorem requestLine_touch (ck : Str → Nat) (d : Data) (command : HTTPCommand) (line : Str)
    (session : HTTPSession) (t : Nat) :
    requestLine ck d command line (session.touch t)
      = ((requestLine ck d command line session).1,
         (requestLine ck d command line session).2.touch t) := by
  unfold requestLine
  simp only
  split
  · rfl
  · split <;> rfl

theorem processLine_touch (ck cki : Str → Nat) (d : Data) (line : Str)
    (locals : RequestLocals) (session : HTTPSession) (t : Nat) :
    processLine ck cki d line locals (session.touch t)
      = ((processLine ck cki d line locals session).1,
         (processLine ck cki d line locals session).2.touch t) := by
  unfold processLine
  simp only
  split
  · split
    · rfl
    · split
      · split <;> rfl
      · rfl
  · split
    · exact requestLine_touch _ _ _ _ _ _
    · split
      · exact requestLine_touch _ _ _ _ _ _
      · rfl

theorem respond_touch (JUPITER_VERSION time_header : Str) (locals : RequestLocals)
    (session : HTTPSession) (t : Nat) :
    respond JUPITER_VERSION time_header locals (session.touch t)
      = ((respond JUPITER_VERSION time_header locals session).1.touch t,
         (respond JUPITER_VERSION time_header locals session).2) := by
  unfold respond
  split <;> rfl

theorem lineLoop_touch (ck cki : Str → Nat) (JUPITER_VERSION : Str) (d : Data)
    (recurse : (Nat → Str) → HTTPSession → Option HTTPSession) (t : Nat)
    (hrec : ∀ ht s, recurse ht (HTTPSession.touch t s) = (recurse ht s).map (HTTPSession.touch t))
    (token_count : Nat) (rest : List Str) :
    ∀ (html_time : Nat → Str) (done : List Str) (locals : RequestLocals) (session : HTTPSession),
      lineLoop ck cki JUPITER_VERSION d recurse html_time token_count done rest locals
          (session.touch t)
        = (lineLoop ck cki JUPITER_VERSION d recurse html_time token_count done rest locals
            session).map (HTTPSession.touch t) := by
  induction rest with
  | nil => intro _ _ _ _; rfl
  | cons raw rest ih =>
    intro html_time done locals session
    rw [lineLoop, lineLoop]
    simp only [respond_touch, processLine_touch]
    by_cases hE : (shiftRight (span [' '] raw) raw).isEmpty = true
    · simp only [hE, if_true]
      by_cases hK : ((respond JUPITER_VERSION (html_time 0) locals session).1.keep_alive
          == false) = true
      · have hK2 : (((respond JUPITER_VERSION (html_time 0) locals session).1.touch t).keep_alive
            == false) = true := hK
        simp only [hK, hK2, if_true]
        rfl
      · have hK2 : ¬ (((respond JUPITER_VERSION (html_time 0) locals session).1.touch t).keep_alive
            == false) = true := hK
        simp only [hK, hK2, Bool.false_eq_true, if_false]
        by_cases hI : (done.length + 1 == token_count) = true
        · simp only [hI, if_true]
          simp [HTTPSession.touch, findStr_ENDING_nil]
        · simp only [hI, Bool.false_eq_true, if_false]
          by_cases hF : (findStr HTTP_REQUEST_ENDING
              (shiftRight (get_line_offset (done ++ shiftRight (span [' '] raw) raw :: rest)
                (done.length + 1))
                (respond JUPITER_VERSION (html_time 0) locals session).1.request)).isSome = true
          · simp only [HTTPSession.touch, hF, if_true]
            exact hrec _
              { (respond JUPITER_VERSION (html_time 0) locals session).1 with
                request := shiftRight
                  (get_line_offset (done ++ shiftRight (span [' '] raw) raw :: rest)
                    (done.length + 1))
                  (respond JUPITER_VERSION (html_time 0) locals session).1.request }
          · simp only [HTTPSession.touch, hF, Bool.false_eq_true, if_false]
            rfl
    · simp only [hE, Bool.false_eq_true, if_false]
      exact ih _ _ _ _

theorem process_requestFuel_touch (ck cki : Str → Nat) (JUPITER_VERSION : Str) (d : Data)
    (t : Nat) (fuel : Nat) :
    ∀ (html_time : Nat → Str) (session : HTTPSession),
      process_requestFuel ck cki JUPITER_VERSION d fuel html_time (session.touch t)
        = (process_requestFuel ck cki JUPITER_VERSION d fuel html_time session).map
            (HTTPSession.touch t) := by
  induction fuel with
  | zero => intro _ _; rfl
  | succ fuel ih =>
    intro html_time session
    rw [process_requestFuel, process_requestFuel]
    exact lineLoop_touch ck cki JUPITER_VERSION d _ t (fun ht s => ih ht s) _ _ _ _ _ _

theorem process_request_touch (ck cki : Str → Nat) (JUPITER_VERSION : Str) (d : Data)
    (t : Nat) (html_time : Nat → Str) (session : HTTPSession) :
    process_request ck cki JUPITER_VERSION d html_time (session.touch t)
      = (process_request ck cki JUPITER_VERSION d html_time session).map (HTTPSession.touch t) :=
  process_requestFuel_touch ck cki JUPITER_VERSION d t _ html_time session

theorem requestLine_same_words (ck : Str → Nat) (d : Data) (command : HTTPCommand)
    (line1 line2 : Str) (session : HTTPSession)
    (h1 : getWord 1 [' '] line1 = getWord 1 [' '] line2)
    (h2 : getWord 2 [' '] line1 = getWord 2 [' '] line2) :
    requestLine ck d command line1 session = requestLine ck d command line2 session := by
  unfold requestLine
  rw [h1, h2]

theorem requestLine_command (ck : Str → Nat) (d : Data) (command : HTTPCommand)
    (line : Str) (session : HTTPSession) :
    (requestLine ck d command line session).1.command = command := by
  unfold requestLine
  simp only
  split <;> split <;> (try split) <;> rfl

theorem requestLine_other_command (ck : Str → Nat) (d : Data) (c1 c2 : HTTPCommand)
    (line : Str) (session : HTTPSession) :
    (requestLine ck d c1 line session).1.content = (requestLine ck d c2 line session).1.content
      ∧ (requestLine ck d c1 line session).1.content_parameters
          = (requestLine ck d c2 line session).1.content_parameters
      ∧ (requestLine ck d c1 line session).2 = (requestLine ck d c2 line session).2 := by
  unfold requestLine
  simp only
  split <;> split <;> (try split) <;> exact ⟨rfl, rfl, rfl⟩

theorem processLine_GET (ck cki : Str → Nat) (d : Data) (rest : Str) (locals : RequestLocals)
    (session : HTTPSession) :
    processLine ck cki d ("GET ".toList ++ rest) locals session
      = requestLine ck d HTTPCommand.GET ("GET ".toList ++ rest) session := by
  have e0 : getToken0 ' ' ("GET ".toList ++ rest) = "GET".toList := by
    simp [getToken0, List.takeWhile]
  have e3 : ("GET".toList.getLast? = some ':') = False := by decide
  have e4 : equals "GET".toList "GET".toList = true := by decide
  unfold processLine
  simp only [e0, e3, if_false, e4, if_true]

theorem processLine_HEAD (ck cki : Str → Nat) (d : Data) (rest : Str) (locals : RequestLocals)
    (session : HTTPSession) :
    processLine ck cki d ("HEAD ".toList ++ rest) locals session
      = requestLine ck d HTTPCommand.HEAD ("GET ".toList ++ rest) session := by
  have e0 : getToken0 ' ' ("HEAD ".toList ++ rest) = "HEAD".toList := by
    simp [getToken0, List.takeWhile]
  have e3 : ("HEAD".toList.getLast? = some ':') = False := by decide
  have e4 : equals "HEAD".toList "GET".toList = false := by decide
  have e5 : equals "HEAD".toList "HEAD".toList = true := by decide
  unfold processLine
  simp only [e0, e3, if_false, e4, e5, if_true, Bool.false_eq_true]
  have hg : "GET ".toList ++ rest = "GET".toList ++ ' ' :: rest := by simp
  have hh : "HEAD ".toList ++ rest = "HEAD".toList ++ ' ' :: rest := by simp
  apply requestLine_same_words
  · rw [hg, hh, getWord_succ_word 0 _ _ (by decide) (by decide),
      getWord_succ_word 0 _ _ (by decide) (by decide)]
  · rw [hg, hh, getWord_succ_word 1 _ _ (by decide) (by decide),
      getWord_succ_word 1 _ _ (by decide) (by decide)]

theorem formatContentLength_small (n : Nat) (h : n < 4294967296) :
    formatContentLength n = "Content-Length: ".toList ++ (Nat.repr n).toList ++ ENDL := by
  unfold formatContentLength
  rw [Nat.mod_eq_of_lt h]

theorem response_GET_eq (JUPITER_VERSION time_header : Str) (version : HTTPVersion)
    (content : Content) (content_parameters : Str) :
    response JUPITER_VERSION time_header version HTTPCommand.GET content content_parameters
      = response JUPITER_VERSION time_header version HTTPCommand.HEAD content content_parameters
          ++ content.execute content_parameters := by
  simp [response]

theorem response_HEAD_contentLength (JUPITER_VERSION time_header : Str) (version : HTTPVersion)
    (content : Content) (content_parameters : Str) :
    ∃ pre post,
      response JUPITER_VERSION time_header version HTTPCommand.HEAD content content_parameters
        = pre ++ formatContentLength (content.execute content_parameters).length ++ post := by
  refine ⟨(match version with
      | HTTPVersion.HTTP_1_1 => "HTTP/1.1 200 OK".toList ++ ENDL
      | _ => "HTTP/1.0 200 OK".toList ++ ENDL)
      ++ ("Date: ".toList ++ ENDL) ++ time_header ++ ("Server: ".toList ++ JUPITER_VERSION ++ ENDL),
    (match version with
      | HTTPVersion.HTTP_1_1 => "Connection: keep-alive".toList ++ ENDL
      | _ => "Connection: close".toList ++ ENDL)
      ++ "Content-Type: ".toList
      ++ (match content.type with
          | none => PLAIN
          | some type => type)
      ++ (match content.charset with
          | some charset => "; charset=".toList ++ charset
          | none => [])
      ++ ENDL
      ++ (match content.language with
          | some language => "Content-Language".toList ++ language
          | none => [])
      ++ (ENDL ++ ENDL), ?_⟩
  cases hcs : content.charset <;> cases hl : content.language <;>
    simp [response, hcs, hl, List.append_assoc]

theorem processLine_header_eq (ck cki : Str → Nat) (d : Data) (l : Str)
    (h : isHeaderLine l = true) (locals : RequestLocals) (session : HTTPSession) :
    processLine ck cki d l locals session
      = (locals, (processLine ck cki d l RequestLocals.initial session).2) := by
  simp only [isHeaderLine, Bool.and_eq_true, beq_iff_eq] at h
  unfold processLine
  simp only [h.1.2, if_true]
  split
  · rfl
  · split
    · split <;> rfl
    · rfl

theorem lineLoop_afterHeaders (ck cki : Str → Nat) (JUPITER_VERSION : Str) (d : Data)
    (recurse : (Nat → Str) → HTTPSession → Option HTTPSession) (html_time : Nat → Str)
    (token_count : Nat) (hs : List Str) (hh : ∀ l ∈ hs, isHeaderLine l = true)
    (tail : List Str) (done : List Str) (locals : RequestLocals) (session : HTTPSession) :
    lineLoop ck cki JUPITER_VERSION d recurse html_time token_count done (hs ++ tail)
        locals session
      = lineLoop ck cki JUPITER_VERSION d recurse html_time token_count (done ++ hs) tail
          locals (afterHeaders ck cki d hs session) := by
  induction hs generalizing done session with
  | nil => simp [afterHeaders]
  | cons l hs ih =>
    have hl := hh l (List.mem_cons_self _ _)
    obtain ⟨t1, t2, _⟩ := isHeaderLine_trim l hl
    rw [List.cons_append, lineLoop]
    simp only [t1, t2, Bool.false_eq_true, if_false, processLine_header_eq ck cki d l hl locals]
    rw [ih (fun x hx => hh x (List.mem_cons_of_mem _ hx))]
    simp [afterHeaders]

theorem requestLine_withRequest (ck : Str → Nat) (d : Data) (command : HTTPCommand)
    (line : Str) (session : HTTPSession) (r : Str) :
    requestLine ck d command line (session.withRequest r)
      = ((requestLine ck d command line session).1,
         (requestLine ck d command line session).2.withRequest r) := by
  unfold requestLine
  simp only
  split
  · rfl
  · split <;> rfl

theorem processLine_withRequest (ck cki : Str → Nat) (d : Data) (line : Str)
    (locals : RequestLocals) (session : HTTPSession) (r : Str) :
    processLine ck cki d line locals (session.withRequest r)
      = ((processLine ck cki d line locals session).1,
         (processLine ck cki d line locals session).2.withRequest r) := by
  unfold processLine
  simp only
  split
  · split
    · rfl
    · split
      · split <;> rfl
      · rfl
  · split
    · exact requestLine_withRequest _ _ _ _ _ _
    · split
      · exact requestLine_withRequest _ _ _ _ _ _
      · rfl

theorem afterHeaders_withRequest (ck cki : Str → Nat) (d : Data) (hs : List Str)
    (session : HTTPSession) (r : Str) :
    afterHeaders ck cki d hs (session.withRequest r)
      = (afterHeaders ck cki d hs session).withRequest r := by
  induction hs generalizing session with
  | nil => rfl
  | cons l hs ih =>
    simp only [afterHeaders, processLine_withRequest, ih]

theorem requestLine_sock (ck : Str → Nat) (d : Data) (command : HTTPCommand) (line : Str)
    (session : HTTPSession) :
    (requestLine ck d command line session).2.sock = session.sock := by
  unfold requestLine
  simp only
  split
  · rfl
  · split <;> rfl

theorem processLine_sock (ck cki : Str → Nat) (d : Data) (line : Str)
    (locals : RequestLocals) (session : HTTPSession) :
    (processLine ck cki d line locals session).2.sock = session.sock := by
  unfold processLine
  simp only
  split
  · split
    · rfl
    · split
      · split <;> rfl
      · rfl
  · split
    · exact requestLine_sock _ _ _ _ _
    · split
      · exact requestLine_sock _ _ _ _ _
      · rfl

theorem afterHeaders_sock (ck cki : Str → Nat) (d : Data) (hs : List Str)
    (session : HTTPSession) :
    (afterHeaders ck cki d hs session).sock = session.sock := by
  induction hs generalizing session with
  | nil => rfl
  | cons l hs ih => simp only [afterHeaders, ih, processLine_sock]

theorem afterHeaders_request (ck cki : Str → Nat) (d : Data) (hs : List Str)
    (session : HTTPSession) :
    (afterHeaders ck cki d hs session).request = session.request := by
  induction hs generalizing session with
  | nil => rfl
  | cons l hs ih => simp only [afterHeaders, ih, processLine_request]

/-- A buffer holding exactly one request: a first line, header lines and the empty line.
`process_request` visits the first line and the headers, answers at the empty line and
finishes the request. -/
theorem process_single_request (ck cki : Str → Nat) (JUPITER_VERSION : Str) (d : Data)
    (line : Str) (hl1 : shiftRight (span [' '] line) line = line)
    (hl2 : line.isEmpty = false) (hl3 : findStr ENDL line = none)
    (hs : List Str) (hh : ∀ l ∈ hs, isHeaderLine l = true)
    (session : HTTPSession) (hreq : session.request = unlines (line :: hs) ++ ENDL)
    (html_time : Nat → Str) :
    process_request ck cki JUPITER_VERSION d html_time session
      = some (finishRequest
          (respond JUPITER_VERSION (html_time 0)
            (processLine ck cki d line RequestLocals.initial session).1
            (afterHeaders ck cki d hs
              (processLine ck cki d line RequestLocals.initial session).2)).1) := by
  have hlines : ∀ l ∈ line :: hs, findStr ENDL l = none := by
    intro l hl
    rcases List.mem_cons.1 hl with rfl | hl
    · exact hl3
    · exact (isHeaderLine_trim l (hh l hl)).2.2
  have htok : tokenize session.request = line :: (hs ++ [[], []]) := by
    rw [hreq, tokenize_unlines _ _ hlines]
    rfl
  unfold process_request
  rw [process_requestFuel]
  simp only [htok]
  rw [lineLoop]
  simp only [hl1, hl2, Bool.false_eq_true, if_false]
  rw [show ([] : List Str) ++ [line] = [line] from rfl,
    lineLoop_afterHeaders ck cki JUPITER_VERSION d _ html_time _ hs hh, lineLoop]
  have hidx : ((([line] : List Str) ++ hs).length + 1
      == (line :: (hs ++ [[], []])).length) = false := by
    simp only [List.length_append, List.length_cons, List.length_nil,
      beq_eq_false_iff_ne, ne_eq]
    omega
  have hoff : get_line_offset ([line] ++ hs ++ [[], []])
      (([line] ++ hs).length + 1) = (unlines (line :: hs) ++ ENDL).length := by
    have := get_line_offset_unlines (line :: hs) [[]]
    simpa using this
  have hrr := respond_request JUPITER_VERSION (html_time 0)
    (processLine ck cki d line RequestLocals.initial session).1
    (afterHeaders ck cki d hs (processLine ck cki d line RequestLocals.initial session).2)
  rw [afterHeaders_request, processLine_request, hreq] at hrr
  generalize respond JUPITER_VERSION (html_time 0)
    (processLine ck cki d line RequestLocals.initial session).1
    (afterHeaders ck cki d hs (processLine ck cki d line RequestLocals.initial session).2)
    = R at hrr ⊢
  simp only [shiftRight, span, List.takeWhile, List.length_nil, List.drop_zero, List.isEmpty_nil,
    if_true, hidx, Bool.false_eq_true, if_false, hoff, hrr, List.drop_length,
    findStr_ENDING_nil, Option.isSome_none, finishRequest]
  split <;> rfl


theorem requestLine_locals (ck : Str → Nat) (d : Data) (command : HTTPCommand) (line : Str)
    (session : HTTPSession) :
    (requestLine ck d command line session).1
      = { command := command,
          content := Data.find ck d (targetPath (getWord 1 [' '] line)),
          content_parameters := targetParameters (getWord 1 [' '] line) } := by
  unfold requestLine targetPath targetParameters
  simp only
  cases find '?' (getWord 1 [' '] line) <;> (split <;> (try split) <;> rfl)

theorem finishRequest_fields (session : HTTPSession) :
    (finishRequest session).sock = session.sock
      ∧ (finishRequest session).version = session.version
      ∧ (finishRequest session).keep_alive = session.keep_alive := by
  unfold finishRequest
  split <;> exact ⟨rfl, rfl, rfl⟩

theorem methodLine_facts (method rest : Str) (hm : method ≠ []) (hm1 : ∀ x ∈ method, x ≠ ' ')
    (hm2 : ∀ x ∈ method, x ≠ '\r') (hr : ∀ x ∈ rest, x ≠ '\r') :
    shiftRight (span [' '] (method ++ ' ' :: rest)) (method ++ ' ' :: rest)
        = method ++ ' ' :: rest
      ∧ (method ++ ' ' :: rest).isEmpty = false
      ∧ findStr ENDL (method ++ ' ' :: rest) = none := by
  refine ⟨?_, ?_, ?_⟩
  · cases method with
    | nil => exact absurd rfl hm
    | cons c r =>
      have hc : c ≠ ' ' := hm1 c (List.mem_cons_self _ _)
      simp [shiftRight, span, List.takeWhile, hc]
  · cases method with
    | nil => exact absurd rfl hm
    | cons c r => rfl
  · apply findStr_none_of_no_cr
    intro x hx
    rcases List.mem_append.1 hx with hx | hx
    · exact hm2 x hx
    · rcases List.mem_cons.1 hx with rfl | hx
      · decide
      · exact hr x hx

/-- The split delivery on a fresh connection: the first read, taken when the connection
is accepted, delivers `B1`; a later tick reads `B2`. Compared with a first read that
delivers `B1 ++ B2`. -/
theorem split_delivery_at_accept (ck cki : Str → Nat) (JUPITER_VERSION : Str) (d : Data)
    (html_time : Nat → Str) (in_sock : Socket) (now1 now2 : Nat) (B1 B2 : Str)
    (h1 : B1 ≠ []) (h2 : B2 ≠ [])
    (hsize : (B1 ++ B2).length ≤ d.max_request_size)
    (hno : findStr HTTP_REQUEST_ENDING B1 = none)
    (hka : now2 ≤ now1 + d.keep_alive_session_timeout)
    (hst : now2 ≤ now1 + d.session_timeout) :
    ∃ s1 oA oB,
      thinkIncoming ck cki JUPITER_VERSION d now1 html_time in_sock (Recv.data B1)
          = some { session := s1, fate := Fate.retained }
        ∧ thinkSession ck cki JUPITER_VERSION d now2 html_time s1 (Recv.data B2) = some oA
        ∧ thinkIncoming ck cki JUPITER_VERSION d now1 html_time in_sock (Recv.data (B1 ++ B2))
            = some oB
        ∧ oA.fate = oB.fate
        ∧ oA.session.sock.sent = oB.session.sock.sent
        ∧ oA.session.version = oB.session.version
        ∧ oA.session.keep_alive = oB.session.keep_alive
        ∧ (oA.fate = Fate.retained ∨ (findStr HTTP_REQUEST_ENDING (B1 ++ B2)).isSome = true →
            oA.session.request = oB.session.request) := by
  have l1 : 0 < B1.length := List.length_pos.2 h1
  have l2 : 0 < B2.length := List.length_pos.2 h2
  have hlen : (B1 ++ B2).length = B1.length + B2.length := List.length_append _ _
  have r1 : ((Recv.data B1).ret != 0) = true := by
    simp [Recv.data, h1]
  have r2 : (Recv.data B2).ret > 0 := by
    have : (0 : Int) < (B2.length : Int) := by exact_mod_cast l2
    exact this
  have r3 : ((Recv.data (B1 ++ B2)).ret != 0) = true := by
    simp only [Recv.data, bne_iff_ne, ne_eq, hlen]
    omega
  have hlt1 : B1.length < d.max_request_size := by omega
  have hev : evicts d now2 { HTTPSession.new in_sock now1 with request := B1 } = false := by
    have a : decide (now2 > now1 + d.keep_alive_session_timeout) = false :=
      decide_eq_false (by omega)
    have b : decide (now2 > now1 + d.session_timeout) = false := decide_eq_false (by omega)
    simp [evicts, HTTPSession.new, a, b]
  refine ⟨{ HTTPSession.new in_sock now1 with request := B1 }, ?_⟩
  have e1 : thinkIncoming ck cki JUPITER_VERSION d now1 html_time in_sock (Recv.data B1)
      = some { session := { HTTPSession.new in_sock now1 with request := B1 },
               fate := Fate.retained } := by
    unfold thinkIncoming
    simp only [r1, if_true]
    simp [Recv.data, hlt1, hno]
  obtain ⟨s3, hs3⟩ := Option.isSome_iff_exists.1
    (process_request_isSome ck cki JUPITER_VERSION d html_time
      { HTTPSession.new in_sock now1 with request := B1 ++ B2 })
  have ht := process_request_touch ck cki JUPITER_VERSION d now2 html_time
      { HTTPSession.new in_sock now1 with request := B1 ++ B2 }
  rw [hs3] at ht
  by_cases hF : (findStr HTTP_REQUEST_ENDING (B1 ++ B2)).isSome = true
  · have eA : thinkSession ck cki JUPITER_VERSION d now2 html_time
        { HTTPSession.new in_sock now1 with request := B1 } (Recv.data B2)
        = some (if s3.keep_alive == false then
            { session := s3.touch now2, fate := Fate.destroyed }
          else { session := s3.touch now2, fate := Fate.retained }) := by
      unfold thinkSession
      simp only [hev, Bool.false_eq_true, if_false, r2, if_true]
      have hle : B1.length + (Recv.data B2).buffer.length ≤ d.max_request_size := by
        simp only [Recv.data]; omega
      simp only [hle, if_true]
      have hF2 : (findStr HTTP_REQUEST_ENDING (B1 ++ (Recv.data B2).buffer)).isSome = true := hF
      simp only [hF2, if_true]
      have : ({ HTTPSession.new in_sock now1 with
                request := B1 ++ (Recv.data B2).buffer, last_active := now2 } : HTTPSession)
          = HTTPSession.touch now2 { HTTPSession.new in_sock now1 with request := B1 ++ B2 } := rfl
      rw [this, ht]
      rfl
    have eB : thinkIncoming ck cki JUPITER_VERSION d now1 html_time in_sock
        (Recv.data (B1 ++ B2))
        = some (if s3.keep_alive then { session := s3, fate := Fate.retained }
          else { session := s3, fate := Fate.destroyed }) := by
      unfold thinkIncoming
      simp only [r3, if_true]
      have hF2 : (findStr HTTP_REQUEST_ENDING (Recv.data (B1 ++ B2)).buffer).isSome = true := hF
      have hF3 : (findStr HTTP_REQUEST_ENDING (Recv.data (B1 ++ B2)).buffer).isNone = false := by
        cases hh : findStr HTTP_REQUEST_ENDING (Recv.data (B1 ++ B2)).buffer with
        | none => rw [hh] at hF2; simp at hF2
        | some _ => rfl
      have hb : (Recv.data (B1 ++ B2)).buffer = B1 ++ B2 := rfl
      by_cases hlt : (B1 ++ B2).length < d.max_request_size
      · simp only [hb] at hF2 ⊢
        simp only [hlt, if_true, hF2, hs3, Option.map_some']
      · have heq : ((B1 ++ B2).length == d.max_request_size) = true := by
          simp only [beq_iff_eq]; omega
        simp only [hb] at hF3 ⊢
        simp only [hlt, if_false, heq, if_true, hF3, Bool.false_eq_true, hs3, Option.map_some']
    refine ⟨_, _, e1, eA, eB, ?_⟩
    cases hk : s3.keep_alive <;> simp [HTTPSession.touch]
  · have hF' : (findStr HTTP_REQUEST_ENDING (B1 ++ B2)).isSome = false := by simpa using hF
    have eA : thinkSession ck cki JUPITER_VERSION d now2 html_time
        { HTTPSession.new in_sock now1 with request := B1 } (Recv.data B2)
        = some (if (B1 ++ B2).length == d.max_request_size then
            { session := { HTTPSession.new in_sock now1 with request := B1 ++ B2 },
              fate := Fate.destroyed }
          else { session := { HTTPSession.new in_sock now1 with request := B1 ++ B2 },
                 fate := Fate.retained }) := by
      unfold thinkSession
      simp only [hev, Bool.false_eq_true, if_false, r2, if_true]
      have hle : B1.length + (Recv.data B2).buffer.length ≤ d.max_request_size := by
        simp only [Recv.data]; omega
      simp only [hle, if_true]
      have hF2 : (findStr HTTP_REQUEST_ENDING (B1 ++ (Recv.data B2).buffer)).isSome = false := hF'
      simp only [hF2, Bool.false_eq_true, if_false]
      have hb2 : (Recv.data B2).buffer = B2 := rfl
      simp only [hb2]
      by_cases hc : ((B1 ++ B2).length == d.max_request_size) = true
      · simp only [hc, if_true]
      · simp only [hc, Bool.false_eq_true, if_false]
    have eB : thinkIncoming ck cki JUPITER_VERSION d now1 html_time in_sock
        (Recv.data (B1 ++ B2))
        = some (if (B1 ++ B2).length < d.max_request_size then
            { session := { HTTPSession.new in_sock now1 with request := B1 ++ B2 },
              fate := Fate.retained }
          else { session := HTTPSession.new in_sock now1, fate := Fate.destroyed }) := by
      unfold thinkIncoming
      simp only [r3, if_true]
      have hb : (Recv.data (B1 ++ B2)).buffer = B1 ++ B2 := rfl
      have hF3 : (findStr HTTP_REQUEST_ENDING (B1 ++ B2)).isNone = true := by
        cases hh : findStr HTTP_REQUEST_ENDING (B1 ++ B2) with
        | none => rfl
        | some _ => rw [hh] at hF'; simp at hF'
      simp only [hb, hF', hF3, Bool.false_eq_true, if_false, if_true]
      by_cases hlt : (B1 ++ B2).length < d.max_request_size
      · simp only [hlt, if_true]
      · have heq : ((B1 ++ B2).length == d.max_request_size) = true := by
          simp only [beq_iff_eq]; omega
        simp only [hlt, if_false, heq, if_true]
    refine ⟨_, _, e1, eA, eB, ?_⟩
    by_cases hlt : B1.length + B2.length < d.max_request_size
    · have hne : ¬ (B1.length + B2.length = d.max_request_size) := by omega
      simp [hlt, hne]
    · have heq : B1.length + B2.length = d.max_request_size := by omega
      have hlt2 : ¬ (d.max_request_size < d.max_request_size) := by omega
      simp [heq, hF', HTTPSession.new]

/-- An existing session that is not evicted and reads `B1`, which neither completes a
request nor fills the buffer: it stays, with `B1` appended. -/
theorem thinkSession_partial (ck cki : Str → Nat) (JUPITER_VERSION : Str) (d : Data)
    (now : Nat) (html_time : Nat → Str) (session : HTTPSession) (B1 : Str)
    (h1 : B1 ≠ [])
    (hsize : session.request.length + B1.length < d.max_request_size)
    (hno : findStr HTTP_REQUEST_ENDING (session.request ++ B1) = none)
    (hev : evicts d now session = false) :
    thinkSession ck cki JUPITER_VERSION d now html_time session (Recv.data B1)
      = some { session := { session with request := session.request ++ B1 },
               fate := Fate.retained } := by
  have l1 : 0 < B1.length := List.length_pos.2 h1
  have r1 : (Recv.data B1).ret > 0 := by
    have : (0 : Int) < (B1.length : Int) := by exact_mod_cast l1
    exact this
  have hb : (Recv.data B1).buffer = B1 := rfl
  have hle : session.request.length + B1.length ≤ d.max_request_size := by omega
  have hne : ((session.request ++ B1).length == d.max_request_size) = false := by
    simp only [beq_eq_false_iff_ne, ne_eq, List.length_append]
    omega
  unfold thinkSession
  simp only [hev, Bool.false_eq_true, if_false, r1, if_true, hb, hle, hno, Option.isSome_none,
    hne]

/-- Reading `B2` after `B1` has been appended is reading `B1 ++ B2` at once. -/
theorem thinkSession_append (ck cki : Str → Nat) (JUPITER_VERSION : Str) (d : Data)
    (now : Nat) (html_time : Nat → Str) (session : HTTPSession) (B1 B2 : Str)
    (h2 : B2 ≠ [])
    (hsize : session.request.length + (B1 ++ B2).length ≤ d.max_request_size)
    (hev0 : evicts d now session = false) :
    thinkSession ck cki JUPITER_VERSION d now html_time
        { session with request := session.request ++ B1 } (Recv.data B2)
      = thinkSession ck cki JUPITER_VERSION d now html_time session (Recv.data (B1 ++ B2)) := by
  have l2 : 0 < B2.length := List.length_pos.2 h2
  have r2 : (Recv.data B2).ret > 0 := by
    have : (0 : Int) < (B2.length : Int) := by exact_mod_cast l2
    exact this
  have r3 : (Recv.data (B1 ++ B2)).ret > 0 := by
    have : (0 : Int) < ((B1 ++ B2).length : Int) := by
      rw [List.length_append]
      exact_mod_cast (by omega : 0 < B1.length + B2.length)
    exact this
  have hev : evicts d now { session with request := session.request ++ B1 }
      = evicts d now session := rfl
  have hle : session.request.length + (B1.length + B2.length) ≤ d.max_request_size := by
    rw [List.length_append] at hsize
    exact hsize
  have hb2 : (Recv.data B2).buffer = B2 := rfl
  have hb3 : (Recv.data (B1 ++ B2)).buffer = B1 ++ B2 := rfl
  unfold thinkSession
  simp only [hev, hev0, r2, r3, if_true, hb2, hb3, List.length_append, List.append_assoc,
    Nat.add_assoc, hle, Bool.false_eq_true, if_false]

/-- The example table is what two `hook` calls with an empty path build. -/
theorem pagesTable_built :
    (Data.hook calcChecksum calcChecksumi 2 (Data.new calcChecksumi) [] [] pageA).bind
        (fun t => Data.hook calcChecksum calcChecksumi 2 t [] [] pageB)
      = some pagesTable := rfl

/-- A buffer holding one request whose first line takes the `GET`/`HEAD` branch: what is
sent is decided by the single-argument `find` of the target path. -/
theorem single_request_served (ck cki : Str → Nat) (JUPITER_VERSION : Str) (d : Data)
    (html_time : Nat → Str) (line line2 : Str) (command : HTTPCommand)
    (hcmd : command = HTTPCommand.GET ∨ command = HTTPCommand.HEAD)
    (hl1 : shiftRight (span [' '] line) line = line)
    (hl2 : line.isEmpty = false) (hl3 : findStr ENDL line = none)
    (hpl : ∀ locals session, processLine ck cki d line locals session
      = requestLine ck d command line2 session)
    (hs : List Str) (hh : ∀ l ∈ hs, isHeaderLine l = true)
    (session : HTTPSession) (hreq : session.request = unlines (line :: hs) ++ ENDL) :
    ∃ session1,
      process_request ck cki JUPITER_VERSION d html_time session = some session1
      ∧ session1.sock.sent = session.sock.sent ++
          served JUPITER_VERSION (html_time 0) session1.version command
            (Data.find ck d (targetPath (getWord 1 [' '] line2)))
            (targetParameters (getWord 1 [' '] line2)) := by
  rw [process_single_request ck cki JUPITER_VERSION d line hl1 hl2 hl3 hs hh session hreq
    html_time, hpl, requestLine_locals]
  have hA : (afterHeaders ck cki d hs (requestLine ck d command line2 session).2).sock
      = session.sock := by
    rw [afterHeaders_sock, requestLine_sock]
  generalize afterHeaders ck cki d hs (requestLine ck d command line2 session).2 = A at hA ⊢
  refine ⟨_, rfl, ?_⟩
  have f := finishRequest_fields (respond JUPITER_VERSION (html_time 0)
    { command := command,
      content := Data.find ck d (targetPath (getWord 1 [' '] line2)),
      content_parameters := targetParameters (getWord 1 [' '] line2) } A).1
  rw [f.1, f.2.1]
  cases hfind : Data.find ck d (targetPath (getWord 1 [' '] line2)) with
  | none =>
    rcases hcmd with h | h <;> subst h <;> simp [respond, served, hA]
  | some c =>
    rcases hcmd with h | h <;> subst h <;> simp [respond, served, HTTPSession.send, hA]

theorem equalsi_http10 (s : Str) :
    equalsi s "http/1.0".toList = equalsi s "HTTP/1.0".toList := by
  simp [equalsi]

theorem equalsi_http11 (s : Str) :
    equalsi s "http/1.1".toList = equalsi s "HTTP/1.1".toList := by
  simp [equalsi]

theorem equalsi_http11_not_http10 (s : Str) (h : equalsi s "HTTP/1.1".toList = true) :
    equalsi s "HTTP/1.0".toList = false := by
  simp only [equalsi, beq_iff_eq] at h
  simp only [equalsi, h]
  decide

/-- What the `GET`/`HEAD` branch does to the session, by the protocol word. -/
theorem requestLine_session (ck : Str → Nat) (d : Data) (command : HTTPCommand) (line : Str)
    (session : HTTPSession) :
    (equalsi (getWord 2 [' '] line) "HTTP/1.0".toList = true →
        (requestLine ck d command line session).2
          = { session with version := HTTPVersion.HTTP_1_0 })
      ∧ (equalsi (getWord 2 [' '] line) "HTTP/1.1".toList = true →
        (requestLine ck d command line session).2
          = { session with version := HTTPVersion.HTTP_1_1, keep_alive := true })
      ∧ (equalsi (getWord 2 [' '] line) "HTTP/1.0".toList = false →
        equalsi (getWord 2 [' '] line) "HTTP/1.1".toList = false →
        (requestLine ck d command line session).2 = session) := by
  refine ⟨?_, ?_, ?_⟩
  · intro h
    unfold requestLine
    simp only [equalsi_http10, h, if_true]
  · intro h
    unfold requestLine
    simp only [equalsi_http10, equalsi_http11, equalsi_http11_not_http10 _ h, h,
      Bool.false_eq_true, if_false, if_true]
  · intro h0 h1
    unfold requestLine
    simp only [equalsi_http10, equalsi_http11, h0, h1, Bool.false_eq_true, if_false]

theorem find_some_not_before (v : Char) (s : Str) (i : Nat) (h : find v s = some i) :
    v ∉ s.take i := by
  induction s generalizing i with
  | nil => simp [find] at h
  | cons x xs ih =>
    by_cases hx : x = v
    · simp [find, hx] at h
      subst h
      simp
    · simp only [find, hx, if_false, Option.map_eq_some'] at h
      obtain ⟨j, hj, rfl⟩ := h
      simp only [List.take_succ_cons, List.mem_cons, not_or]
      exact ⟨fun e => hx e.symm, ih j hj⟩

/-- The two parts `process_request` cuts a target into: with a `'?'`, what stands before
the first one and what stands after it; without, the whole target and nothing. -/
theorem target_split (t : Str) :
    (∀ i, find '?' t = some i →
        targetPath t = t.take i ∧ targetParameters t = t.drop (i + 1)
          ∧ t = targetPath t ++ '?' :: targetParameters t ∧ '?' ∉ targetPath t)
      ∧ (find '?' t = none → '?' ∉ t ∧ targetPath t = t ∧ targetParameters t = []) := by
  constructor
  · intro i h
    have hp : targetPath t = t.take i := by simp [targetPath, h, substring0]
    have hq : targetParameters t = t.drop (i + 1) := by simp [targetParameters, h, shiftRight]
    rw [hp, hq]
    exact ⟨rfl, rfl, (find_some_split '?' t i h).1, find_some_not_before '?' t i h⟩
  · intro h
    exact ⟨(find_none_iff '?' t).1 h, by simp [targetPath, h], by simp [targetParameters, h]⟩

/-- The head of every response text: the status line, the date and server text, the
Content-Length line and the Connection line. -/
theorem response_lines (JUPITER_VERSION time_header : Str) (version : HTTPVersion)
    (command : HTTPCommand) (content : Content) (content_parameters : Str) :
    ∃ post,
      response JUPITER_VERSION time_header version command content content_parameters
        = (match version with
            | HTTPVersion.HTTP_1_1 => "HTTP/1.1 200 OK".toList ++ ENDL
            | _ => "HTTP/1.0 200 OK".toList ++ ENDL)
          ++ (("Date: ".toList ++ ENDL) ++ time_header
              ++ ("Server: ".toList ++ JUPITER_VERSION ++ ENDL))
          ++ formatContentLength (content.execute content_parameters).length
          ++ (match version with
              | HTTPVersion.HTTP_1_1 => "Connection: keep-alive".toList ++ ENDL
              | _ => "Connection: close".toList ++ ENDL)
          ++ post := by
  refine ⟨"Content-Type: ".toList
      ++ (match content.type with
          | none => PLAIN
          | some type => type)
      ++ (match content.charset with
          | some charset => "; charset=".toList ++ charset
          | none => [])
      ++ ENDL
      ++ (match content.language with
          | some language => "Content-Language".toList ++ language
          | none => [])
      ++ (ENDL ++ ENDL)
      ++ (if command = HTTPCommand.GET then content.execute content_parameters else []), ?_⟩
  cases hcs : content.charset <;> cases hl : content.language <;>
    by_cases hg : command = HTTPCommand.GET <;>
    simp [response, hcs, hl, hg, List.append_assoc]

theorem infix_line (a status mid number line post : Str)
    (h : a = status ++ mid ++ (number ++ ENDL) ++ (line ++ ENDL) ++ post) :
    status <+: a ∧ (ENDL ++ line ++ ENDL) <:+: a := by
  subst h
  refine ⟨⟨mid ++ (number ++ ENDL) ++ (line ++ ENDL) ++ post, by simp only [List.append_assoc]⟩,
    ⟨status ++ mid ++ number, post, by simp only [List.append_assoc]⟩⟩

theorem response_versionMarks (JUPITER_VERSION time_header : Str) (version : HTTPVersion)
    (command : HTTPCommand) (content : Content) (content_parameters : Str) :
    versionMarks version
      (response JUPITER_VERSION time_header version command content content_parameters) := by
  obtain ⟨post, h⟩ := response_lines JUPITER_VERSION time_header version command content
    content_parameters
  constructor
  · intro hv
    subst hv
    exact infix_line _ _ _ _ _ post h
  · intro hv
    subst hv
    exact infix_line _ _ _ _ _ post h

/-- The loop of `process_request` on a session consults the recursive call only for
sessions whose buffer is strictly shorter: two stand-ins for the recursive call that
agree on those give the same result. -/
theorem lineLoop_congr (ck cki : Str → Nat) (JUPITER_VERSION : Str) (d : Data)
    (recurse recurse1 : (Nat → Str) → HTTPSession → Option HTTPSession) (n : Nat)
    (hrec : ∀ ht s, s.request.length < n → recurse ht s = recurse1 ht s)
    (token_count : Nat) (rest : List Str) :
    ∀ (html_time : Nat → Str) (done : List Str) (locals : RequestLocals) (session : HTTPSession),
      session.request.length ≤ n →
      lineLoop ck cki JUPITER_VERSION d recurse html_time token_count done rest locals session
        = lineLoop ck cki JUPITER_VERSION d recurse1 html_time token_count done rest locals
            session := by
  induction rest with
  | nil => intro _ _ _ _ _; rfl
  | cons raw rest ih =>
    intro html_time done locals session hlen
    rw [lineLoop, lineLoop]
    simp only
    by_cases hE : (shiftRight (span [' '] raw) raw).isEmpty = true
    · simp only [hE, if_true]
      by_cases hK : ((respond JUPITER_VERSION (html_time 0) locals session).1.keep_alive
          == false) = true
      · simp only [hK, if_true]
      · simp only [hK]
        have hr := respond_request JUPITER_VERSION (html_time 0) locals session
        generalize hs2 : (if (done.length + 1 == token_count) = true then
            ({ respond JUPITER_VERSION (html_time 0) locals session |>.1 with
               request := [] } : HTTPSession)
          else { respond JUPITER_VERSION (html_time 0) locals session |>.1 with
                 request := shiftRight
                   (get_line_offset (done ++ shiftRight (span [' '] raw) raw :: rest)
                     (done.length + 1))
                   (respond JUPITER_VERSION (html_time 0) locals session).1.request })
          = session2
        have hlt : (findStr HTTP_REQUEST_ENDING session2.request).isSome = true →
            session2.request.length < n := by
          intro hfound
          subst hs2
          split at hfound
          · simp [findStr_ENDING_nil] at hfound
          · split
            · rename_i h1 h2
              exact absurd h2 h1
            · simp only [hr] at hfound ⊢
              have h2 := get_line_offset_pos done (shiftRight (span [' '] raw) raw) rest
              generalize get_line_offset (done ++ shiftRight (span [' '] raw) raw :: rest)
                (done.length + 1) = k at hfound h2 ⊢
              cases hreq : session.request with
              | nil => rw [hreq] at hfound; simp [shiftRight, findStr_ENDING_nil] at hfound
              | cons x xs =>
                rw [hreq] at hlen
                simp only [shiftRight, List.length_drop, List.length_cons] at hlen ⊢
                omega
        by_cases hF : (findStr HTTP_REQUEST_ENDING session2.request).isSome = true
        · simp only [hF, if_true, Bool.false_eq_true, if_false]
          exact hrec _ _ (hlt hF)
        · simp only [hF, Bool.false_eq_true, if_false]
    · simp only [hE]
      apply ih
      rw [processLine_request]
      exact hlen

/-- More fuel than the buffer is long changes nothing: the bound on the recursion depth
is never met. -/
theorem process_requestFuel_enough (ck cki : Str → Nat) (JUPITER_VERSION : Str) (d : Data)
    (fuel : Nat) :
    ∀ (fuel1 : Nat) (html_time : Nat → Str) (session : HTTPSession),
      session.request.length < fuel → session.request.length < fuel1 →
      process_requestFuel ck cki JUPITER_VERSION d fuel html_time session
        = process_requestFuel ck cki JUPITER_VERSION d fuel1 html_time session := by
  induction fuel with
  | zero => intro _ _ _ h; omega
  | succ fuel ih =>
    intro fuel1 html_time session h h1
    cases fuel1 with
    | zero => omega
    | succ fuel1 =>
      rw [process_requestFuel, process_requestFuel]
      apply lineLoop_congr ck cki JUPITER_VERSION d _ _ (min fuel fuel1)
      · intro ht s hs
        exact ih fuel1 ht s (by omega) (by omega)
      · omega

theorem afterLines_request_sock (ck cki : Str → Nat) (d : Data) (ls : List Str) :
    ∀ state : RequestLocals × HTTPSession,
      (afterLines ck cki d ls state).2.request = state.2.request
        ∧ (afterLines ck cki d ls state).2.sock = state.2.sock := by
  induction ls with
  | nil => intro state; exact ⟨rfl, rfl⟩
  | cons raw ls ih =>
    intro state
    rw [afterLines]
    obtain ⟨h1, h2⟩ := ih (processLine ck cki d (shiftRight (span [' '] raw) raw) state.1 state.2)
    rw [h1, h2, processLine_request, processLine_sock]
    exact ⟨rfl, rfl⟩

/-- The loop of `process_request` over lines none of which is empty once trimmed. -/
theorem lineLoop_lines (ck cki : Str → Nat) (JUPITER_VERSION : Str) (d : Data)
    (recurse : (Nat → Str) → HTTPSession → Option HTTPSession) (html_time : Nat → Str)
    (token_count : Nat) (pre : List Str)
    (hpre : ∀ raw ∈ pre, (shiftRight (span [' '] raw) raw).isEmpty = false)
    (tail : List Str) :
    ∀ (done : List Str) (locals : RequestLocals) (session : HTTPSession),
      lineLoop ck cki JUPITER_VERSION d recurse html_time token_count done (pre ++ tail)
          locals session
        = lineLoop ck cki JUPITER_VERSION d recurse html_time token_count
            (done ++ pre.map (fun raw => shiftRight (span [' '] raw) raw)) tail
            (afterLines ck cki d pre (locals, session)).1
            (afterLines ck cki d pre (locals, session)).2 := by
  induction pre with
  | nil => intro done locals session; simp [afterLines]
  | cons raw pre ih =>
    intro done locals session
    have h1 := hpre raw (List.mem_cons_self _ _)
    rw [List.cons_append, lineLoop]
    simp only [h1, Bool.false_eq_true, if_false]
    rw [ih (fun r hr => hpre r (List.mem_cons_of_mem _ hr))]
    simp [afterLines]

/-- What the switch at the end of a request leaves of the session: its buffer and
keep-alive flag, and at most one more text on its socket. -/
theorem respond_effect (JUPITER_VERSION time_header : Str) (locals : RequestLocals)
    (session : HTTPSession) :
    (respond JUPITER_VERSION time_header locals session).1.request = session.request
      ∧ (respond JUPITER_VERSION time_header locals session).1.keep_alive = session.keep_alive
      ∧ ((respond JUPITER_VERSION time_header locals session).1.sock.sent = session.sock.sent
        ∨ ∃ r, (respond JUPITER_VERSION time_header locals session).1.sock.sent
            = session.sock.sent ++ [r]) := by
  unfold respond
  split
  · exact ⟨rfl, rfl, Or.inr ⟨_, rfl⟩⟩
  · exact ⟨rfl, rfl, Or.inr ⟨_, rfl⟩⟩
  · exact ⟨rfl, rfl, Or.inl rfl⟩

/-- The loop of `process_request` never lengthens the request buffer. -/
theorem lineLoop_request_le (ck cki : Str → Nat) (JUPITER_VERSION : Str) (d : Data)
    (recurse : (Nat → Str) → HTTPSession → Option HTTPSession)
    (hrec : ∀ ht s s1, recurse ht s = some s1 → s1.request.length ≤ s.request.length)
    (token_count : Nat) (rest : List Str) :
    ∀ (html_time : Nat → Str) (done : List Str) (locals : RequestLocals)
      (session session1 : HTTPSession),
      lineLoop ck cki JUPITER_VERSION d recurse html_time token_count done rest locals session
        = some session1 →
      session1.request.length ≤ session.request.length := by
  induction rest with
  | nil =>
    intro _ _ _ session session1 h
    simp only [lineLoop, Option.some.injEq] at h
    subst h
    exact le_refl _
  | cons raw rest ih =>
    intro html_time done locals session session1 h
    rw [lineLoop] at h
    simp only at h
    have hr := respond_request JUPITER_VERSION (html_time 0) locals session
    by_cases hE : (shiftRight (span [' '] raw) raw).isEmpty = true
    · simp only [hE, if_true] at h
      by_cases hK : ((respond JUPITER_VERSION (html_time 0) locals session).1.keep_alive
          == false) = true
      · simp only [hK, if_true, Option.some.injEq] at h
        subst h
        rw [hr]
      · simp only [hK, Bool.false_eq_true, if_false] at h
        generalize hs2 : (if (done.length + 1 == token_count) = true then
            ({ respond JUPITER_VERSION (html_time 0) locals session |>.1 with
               request := [] } : HTTPSession)
          else { respond JUPITER_VERSION (html_time 0) locals session |>.1 with
                 request := shiftRight
                   (get_line_offset (done ++ shiftRight (span [' '] raw) raw :: rest)
                     (done.length + 1))
                   (respond JUPITER_VERSION (html_time 0) locals session).1.request })
          = session2 at h
        have hle : session2.request.length ≤ session.request.length := by
          subst hs2
          split
          · exact Nat.zero_le _
          · simp only [hr, shiftRight, List.length_drop]
            omega
        by_cases hF : (findStr HTTP_REQUEST_ENDING session2.request).isSome = true
        · simp only [hF, if_true] at h
          exact le_trans (hrec _ _ _ h) hle
        · simp only [hF, Bool.false_eq_true, if_false, Option.some.injEq] at h
          subst h
          exact hle
    · simp only [hE, Bool.false_eq_true, if_false] at h
      have := ih _ _ _ _ _ h
      rw [processLine_request] at this
      exact this

theorem process_requestFuel_request_le (ck cki : Str → Nat) (JUPITER_VERSION : Str)
    (d : Data) (fuel : Nat) :
    ∀ (html_time : Nat → Str) (session session1 : HTTPSession),
      process_requestFuel ck cki JUPITER_VERSION d fuel html_time session = some session1 →
      session1.request.length ≤ session.request.length := by
  induction fuel with
  | zero => intro _ _ _ h; simp [process_requestFuel] at h
  | succ fuel ih =>
    intro html_time session session1 h
    rw [process_requestFuel] at h
    exact lineLoop_request_le ck cki JUPITER_VERSION d _ (fun ht s s1 hs => ih ht s s1 hs)
      _ _ _ _ _ _ _ h

/-- `process_request` never lengthens the request buffer. -/
theorem process_request_request_le (ck cki : Str → Nat) (JUPITER_VERSION : Str) (d : Data)
    (html_time : Nat → Str) (session session1 : HTTPSession)
    (h : process_request ck cki JUPITER_VERSION d html_time session = some session1) :
    session1.request.length ≤ session.request.length :=
  process_requestFuel_request_le ck cki JUPITER_VERSION d _ html_time session session1 h

/-- A session at version 1.1 with the keep-alive flag set stays so through a line of the
request: the flag is never cleared, and the line that selects version 1.1 sets it. -/
theorem processLine_versionFlag (ck cki : Str → Nat) (d : Data) (line : Str)
    (locals : RequestLocals) (session : HTTPSession)
    (h : session.version = HTTPVersion.HTTP_1_1 → session.keep_alive = true) :
    (processLine ck cki d line locals session).2.version = HTTPVersion.HTTP_1_1 →
      (processLine ck cki d line locals session).2.keep_alive = true := by
  unfold processLine requestLine
  simp only
  repeat' split
  all_goals simp_all

theorem afterHeaders_versionFlag (ck cki : Str → Nat) (d : Data) (hs : List Str) :
    ∀ session : HTTPSession,
      (session.version = HTTPVersion.HTTP_1_1 → session.keep_alive = true) →
      (afterHeaders ck cki d hs session).version = HTTPVersion.HTTP_1_1 →
      (afterHeaders ck cki d hs session).keep_alive = true := by
  induction hs with
  | nil => intro session h; exact h
  | cons l ls ih =>
    intro session h
    rw [afterHeaders]
    exact ih _ (processLine_versionFlag ck cki d l RequestLocals.initial session h)

/-- A buffer holding one request whose first line takes the `GET`/`HEAD` branch: what is
sent, and the version and keep-alive flag the session ends with. -/
theorem single_request_flags (ck cki : Str → Nat) (JUPITER_VERSION : Str) (d : Data)
    (html_time : Nat → Str) (line line2 : Str) (command : HTTPCommand)
    (hcmd : command = HTTPCommand.GET ∨ command = HTTPCommand.HEAD)
    (hl1 : shiftRight (span [' '] line) line = line)
    (hl2 : line.isEmpty = false) (hl3 : findStr ENDL line = none)
    (hpl : ∀ locals session, processLine ck cki d line locals session
      = requestLine ck d command line2 session)
    (hs : List Str) (hh : ∀ l ∈ hs, isHeaderLine l = true)
    (session : HTTPSession) (hreq : session.request = unlines (line :: hs) ++ ENDL) :
    ∃ session1,
      process_request ck cki JUPITER_VERSION d html_time session = some session1
      ∧ session1.sock.sent = session.sock.sent ++
          served JUPITER_VERSION (html_time 0) session1.version command
            (Data.find ck d (targetPath (getWord 1 [' '] line2)))
            (targetParameters (getWord 1 [' '] line2))
      ∧ session1.version
          = (afterHeaders ck cki d hs (processLine ck cki d line RequestLocals.initial
              session).2).version
      ∧ session1.keep_alive
          = (afterHeaders ck cki d hs (processLine ck cki d line RequestLocals.initial
              session).2).keep_alive := by
  rw [process_single_request ck cki JUPITER_VERSION d line hl1 hl2 hl3 hs hh session hreq
    html_time, hpl, requestLine_locals]
  have hA : (afterHeaders ck cki d hs (requestLine ck d command line2 session).2).sock
      = session.sock := by
    rw [afterHeaders_sock, requestLine_sock]
  generalize afterHeaders ck cki d hs (requestLine ck d command line2 session).2 = A at hA ⊢
  have f := finishRequest_fields (respond JUPITER_VERSION (html_time 0)
    { command := command,
      content := Data.find ck d (targetPath (getWord 1 [' '] line2)),
      content_parameters := targetParameters (getWord 1 [' '] line2) } A).1
  refine ⟨_, rfl, ?_, ?_, ?_⟩
  · rw [f.1, f.2.1]
    cases hfind : Data.find ck d (targetPath (getWord 1 [' '] line2)) with
    | none =>
      rcases hcmd with h | h <;> subst h <;> simp [respond, served, hA]
    | some c =>
      rcases hcmd with h | h <;> subst h <;> simp [respond, served, HTTPSession.send, hA]
  · rw [f.2.1]
    unfold respond
    split <;> rfl
  · rw [f.2.2]
    unfold respond
    split <;> rfl

theorem response_close_line (JUPITER_VERSION time_header : Str) (version : HTTPVersion)
    (command : HTTPCommand) (content : Content) (content_parameters : Str)
    (hv : version ≠ HTTPVersion.HTTP_1_1) :
    (ENDL ++ "Connection: close".toList ++ ENDL)
      <:+: response JUPITER_VERSION time_header version command content content_parameters := by
  obtain ⟨post, h⟩ := response_lines JUPITER_VERSION time_header version command content
    content_parameters
  cases version with
  | HTTP_1_1 => exact absurd rfl hv
  | HTTP_1_0 => exact (infix_line _ _ _ _ _ post h).2
  | HTTP_Unsupported => exact (infix_line _ _ _ _ _ post h).2

/-! ## The host table -/

theorem equalsi_refl (a : Str) : equalsi a a = true := by
  simp [equalsi]

theorem equalsi_symm (a b : Str) (h : equalsi a b = true) : equalsi b a = true := by
  simp only [equalsi, beq_iff_eq] at *
  exact h.symm

theorem equalsi_trans (a b c : Str) (h1 : equalsi a b = true) (h2 : equalsi b c = true) :
    equalsi a c = true := by
  simp only [equalsi, beq_iff_eq] at *
  exact h1.trans h2

theorem equalsi_nil (a : Str) (h : equalsi a [] = true) : a = [] := by
  simpa [equalsi] using h

theorem lastEntry_none {α : Type} (p : α → Bool) (l : List α) :
    lastEntry p l = none ↔ ∀ x ∈ l, p x = false := by
  induction l with
  | nil => simp [lastEntry]
  | cons x xs ih =>
    simp only [lastEntry, List.mem_cons, forall_eq_or_imp]
    cases hm : lastEntry p xs with
    | some z =>
      obtain ⟨j, z⟩ := z
      simp only [false_iff, not_and, reduceCtorEq]
      intro _ hall
      rw [ih.2 hall] at hm
      cases hm
    | none =>
      cases hp : p x <;> simp [hp]
      exact ih.1 hm

theorem lastEntry_split {α : Type} (p : α → Bool) (l : List α) (i : Nat) (y : α)
    (h : lastEntry p l = some (i, y)) :
    ∃ l1 l2, l = l1 ++ y :: l2 ∧ l1.length = i ∧ p y = true ∧ ∀ x ∈ l2, p x = false := by
  induction l generalizing i y with
  | nil => simp [lastEntry] at h
  | cons x xs ih =>
    simp only [lastEntry] at h
    cases hm : lastEntry p xs with
    | some z =>
      obtain ⟨j, z⟩ := z
      rw [hm] at h
      simp only [Option.some.injEq, Prod.mk.injEq] at h
      obtain ⟨l1, l2, h1, h2, h3, h4⟩ := ih j z hm
      obtain ⟨hj, hz⟩ := h
      subst hj hz
      exact ⟨x :: l1, l2, by rw [h1]; rfl, by simp [h2], h3, h4⟩
    | none =>
      rw [hm] at h
      cases hp : p x with
      | false => simp [hp] at h
      | true =>
        simp only [hp, if_true, Option.some.injEq, Prod.mk.injEq] at h
        obtain ⟨hj, hz⟩ := h
        subst hj hz
        exact ⟨[], xs, rfl, rfl, hp, (lastEntry_none p xs).1 hm⟩

theorem set_at_split {α : Type} (l1 l2 : List α) (y v : α) :
    (l1 ++ y :: l2).set l1.length v = l1 ++ v :: l2 := by
  induction l1 with
  | nil => rfl
  | cons x xs ih => simp [List.set, ih]

theorem eraseIdx_at_split {α : Type} (l1 l2 : List α) (y : α) :
    (l1 ++ y :: l2).eraseIdx l1.length = l1 ++ l2 := by
  induction l1 with
  | nil => rfl
  | cons x xs ih => simp [List.eraseIdx, ih]

theorem hook_name (ck cki : Str → Nat) (fuel : Nat) (d : Directory) (in_name : Str)
    (c : Content) (d1 : Directory) (h : Directory.hook ck cki fuel d in_name c = some d1) :
    d1.name = d.name ∧ d1.name_checksum = d.name_checksum := by
  cases fuel with
  | zero => simp [Directory.hook] at h
  | succ fuel =>
    rw [Directory.hook] at h
    simp only at h
    split at h
    · simp only [Option.some.injEq] at h
      subst h
      exact ⟨rfl, rfl⟩
    · split at h
      · simp only [Option.map_eq_some'] at h
        obtain ⟨sub, _, hsub⟩ := h
        subst hsub
        exact ⟨rfl, rfl⟩
      · simp only [Option.map_eq_some'] at h
        obtain ⟨sub, _, hsub⟩ := h
        subst hsub
        exact ⟨rfl, rfl⟩

theorem hookHost_name (ck cki : Str → Nat) (fuel : Nat) (host : Directory) (in_path : Str)
    (c : Content) (host1 : Directory)
    (h : Data.hookHost ck cki fuel host in_path c = some host1) :
    host1.name = host.name ∧ host1.name_checksum = host.name_checksum := by
  unfold Data.hookHost at h
  simp only at h
  split at h
  · exact hook_name ck cki fuel (host.addContent c) _ c host1 h
  · split at h
    · simp only [Option.map_eq_some'] at h
      obtain ⟨sub, _, hsub⟩ := h
      subst hsub
      exact ⟨rfl, rfl⟩
    · simp only [Option.map_eq_some'] at h
      obtain ⟨sub, _, hsub⟩ := h
      subst hsub
      exact ⟨rfl, rfl⟩

theorem hostEntry_eq (cki : Str → Nat) (t : Data) (name : Str) :
    Data.hostEntry cki t name = lastEntry (hostMatches cki name) t.hosts := rfl

/-- What a returned `Data::hook` does to the host list: the Host the lookup found is
updated in place and keeps its name and checksum, or no Host matched and a Host named
after the argument is appended. -/
theorem hook_hosts (ck cki : Str → Nat) (fuel : Nat) (t : Data) (hostname in_path : Str)
    (c : Content) (t1 : Data) (h : Data.hook ck cki fuel t hostname in_path c = some t1) :
    (∃ l1 host l2 host1, t.hosts = l1 ++ host :: l2 ∧ t1.hosts = l1 ++ host1 :: l2
        ∧ hostMatches cki hostname host = true
        ∧ (∀ x ∈ l2, hostMatches cki hostname x = false)
        ∧ host1.name = host.name ∧ host1.name_checksum = host.name_checksum)
    ∨ ((∀ x ∈ t.hosts, hostMatches cki hostname x = false)
        ∧ ∃ host1, t1.hosts = t.hosts ++ [host1] ∧ host1.name = hostname
          ∧ host1.name_checksum = cki hostname) := by
  unfold Data.hook at h
  rw [hostEntry_eq] at h
  cases he : lastEntry (hostMatches cki hostname) t.hosts with
  | some e =>
    obtain ⟨i, host⟩ := e
    rw [he] at h
    simp only [Option.map_eq_some'] at h
    obtain ⟨host1, hh, ht1⟩ := h
    obtain ⟨l1, l2, hl, hlen, hp, hrest⟩ := lastEntry_split _ _ _ _ he
    left
    refine ⟨l1, host, l2, host1, hl, ?_, hp, hrest, hookHost_name ck cki fuel host in_path c host1 hh⟩
    subst ht1
    show t.hosts.set i host1 = _
    rw [hl, ← hlen, set_at_split]
  | none =>
    rw [he] at h
    simp only [Option.map_eq_some'] at h
    obtain ⟨host1, hh, ht1⟩ := h
    right
    refine ⟨(lastEntry_none _ _).1 he, host1, ?_, ?_⟩
    · subst ht1
      rfl
    · exact hookHost_name ck cki fuel _ in_path c host1 hh

/-- What `Data::remove(hostname)` does to the host list. -/
theorem remove_hosts (cki : Str → Nat) (t : Data) (hostname : Str) :
    ((Data.remove cki t hostname).1 = true
      ∧ ∃ l1 host l2, t.hosts = l1 ++ host :: l2
        ∧ (Data.remove cki t hostname).2.hosts = l1 ++ l2
        ∧ hostMatches cki hostname host = true
        ∧ ∀ x ∈ l2, hostMatches cki hostname x = false)
    ∨ ((Data.remove cki t hostname).1 = false ∧ (Data.remove cki t hostname).2 = t
      ∧ ∀ x ∈ t.hosts, hostMatches cki hostname x = false) := by
  unfold Data.remove
  rw [hostEntry_eq]
  cases he : lastEntry (hostMatches cki hostname) t.hosts with
  | some e =>
    obtain ⟨i, host⟩ := e
    obtain ⟨l1, l2, hl, hlen, hp, hrest⟩ := lastEntry_split _ _ _ _ he
    left
    refine ⟨rfl, l1, host, l2, hl, ?_, hp, hrest⟩
    show t.hosts.eraseIdx i = _
    rw [hl, ← hlen, eraseIdx_at_split]
  | none =>
    right
    exact ⟨rfl, rfl, (lastEntry_none _ _).1 he⟩

theorem hostMatches_new (cki : Str → Nat) (name : Str) (host : Directory)
    (hn : host.name = name) (hc : host.name_checksum = cki name) :
    hostMatches cki name host = true := by
  simp [hostMatches, hn, hc, equalsi_refl]

/-- The invariants of the host list survive a returned `hook`. -/
theorem hook_invariant (ck cki : Str → Nat) (fuel : Nat) (t : Data) (hostname in_path : Str)
    (c : Content) (t1 : Data) (h : Data.hook ck cki fuel t hostname in_path c = some t1)
    (h1 : Data.checksummed cki t) (h2 : Data.distinctHosts t) :
    Data.checksummed cki t1 ∧ Data.distinctHosts t1 := by
  rcases hook_hosts ck cki fuel t hostname in_path c t1 h with
    ⟨l1, host, l2, host1, hl, hl1, _, _, hn, hc⟩ | ⟨hno, host1, hl1, hn, hc⟩
  · unfold Data.checksummed Data.distinctHosts at *
    rw [hl] at h1 h2
    rw [hl1]
    constructor
    · intro x hx
      rcases List.mem_append.1 hx with hx | hx
      · exact h1 x (List.mem_append_left _ hx)
      · rcases List.mem_cons.1 hx with rfl | hx
        · rw [hn, hc]
          exact h1 host (List.mem_append_right _ (List.mem_cons_self _ _))
        · exact h1 x (List.mem_append_right _ (List.mem_cons_of_mem _ hx))
    · simp only [List.pairwise_append, List.pairwise_cons, List.mem_cons, forall_eq_or_imp,
        hn, hc] at h2 ⊢
      exact h2
  · unfold Data.checksummed Data.distinctHosts at *
    rw [hl1]
    constructor
    · intro x hx
      rcases List.mem_append.1 hx with hx | hx
      · exact h1 x hx
      · simp only [List.mem_singleton] at hx
        subst hx
        rw [hc, hn]
    · simp only [List.pairwise_append, List.pairwise_cons, List.mem_singleton, forall_eq,
        List.Pairwise.nil, and_true, List.not_mem_nil, false_implies, implies_true, true_and]
      refine ⟨h2, ?_⟩
      intro a ha hboth
      have := hno a ha
      simp only [hostMatches, Bool.and_eq_false_imp, beq_iff_eq] at this
      rw [hn, hc] at hboth
      have h3 := this hboth.1.symm
      rw [hboth.2] at h3
      cases h3

/-- The invariants of the host list survive `remove(hostname)`. -/
theorem remove_invariant (cki : Str → Nat) (t : Data) (hostname : Str)
    (h1 : Data.checksummed cki t) (h2 : Data.distinctHosts t) :
    Data.checksummed cki (Data.remove cki t hostname).2
      ∧ Data.distinctHosts (Data.remove cki t hostname).2 := by
  rcases remove_hosts cki t hostname with ⟨_, l1, host, l2, hl, hl1, _, _⟩ | ⟨_, hsame, _⟩
  · unfold Data.checksummed Data.distinctHosts at *
    rw [hl] at h1 h2
    rw [hl1]
    constructor
    · intro x hx
      rcases List.mem_append.1 hx with hx | hx
      · exact h1 x (List.mem_append_left _ hx)
      · exact h1 x (List.mem_append_right _ (List.mem_cons_of_mem _ hx))
    · simp only [List.pairwise_append, List.pairwise_cons, List.mem_cons, forall_eq_or_imp]
        at h2 ⊢
      exact ⟨h2.1, h2.2.1.2, fun a ha b hb => (h2.2.2 a ha).2 b hb⟩
  · rw [hsame]
    exact ⟨h1, h2⟩

theorem fresh_invariant (cki : Str → Nat) (t : Data) (h : Data.isFresh cki t) :
    Data.checksummed cki t ∧ Data.distinctHosts t := by
  unfold Data.isFresh at h
  unfold Data.checksummed Data.distinctHosts
  rw [h]
  simp [Data.new, Directory.new, Directory.name, Directory.name_checksum]

theorem reachable_invariant (ck cki : Str → Nat) (t : Data) (h : Reachable ck cki t) :
    Data.checksummed cki t ∧ Data.distinctHosts t := by
  induction h with
  | fresh t hf => exact fresh_invariant cki t hf
  | hook t t1 fuel hostname in_path c _ hh ih =>
    exact hook_invariant ck cki fuel t hostname in_path c t1 hh ih.1 ih.2
  | remove t hostname _ ih => exact remove_invariant cki t hostname ih.1 ih.2

theorem hooked_reachable (ck cki : Str → Nat) (t : Data) (h : Hooked ck cki t) :
    Reachable ck cki t := by
  induction h with
  | fresh t hf => exact Reachable.fresh t hf
  | hook t t1 fuel hostname in_path c _ hh ih =>
    exact Reachable.hook t t1 fuel hostname in_path c ih hh

theorem shiftRight_span_replicate (k : Nat) :
    shiftRight (span ['/'] (List.replicate k '/')) (List.replicate k '/') = [] := by
  induction k with
  | zero => rfl
  | succ k ih =>
    simp only [shiftRight, span, List.replicate_succ] at ih ⊢
    simp [List.takeWhile]

/-- The body of `Data::hook` on a path without a segment: the content is added by
`host->content.add` and again by `dir->hook`. -/
theorem hookHost_slashes (ck cki : Str → Nat) (fuel : Nat) (host : Directory) (k : Nat)
    (c : Content) :
    Data.hookHost ck cki (fuel + 1) host (List.replicate k '/') c
      = some ((host.addContent c).addContent c) := by
  unfold Data.hookHost
  simp only [shiftRight_span_replicate, List.isEmpty_nil, if_true]
  rfl

/-- With a checksum that respects `equalsi`, the host loops stop at a Host exactly when its
name equals the argument ignoring case. -/
theorem hostMatches_eq_equalsi (cki : Str → Nat)
    (hcki : ∀ a b, equalsi a b = true → cki a = cki b) (name : Str) (host : Directory)
    (hc : host.name_checksum = cki host.name) :
    hostMatches cki name host = equalsi host.name name := by
  unfold hostMatches
  cases he : equalsi host.name name with
  | false => simp
  | true => simp [hc, hcki _ _ he]

theorem hostEntry_isSome (cki : Str → Nat) (t : Data) (name : Str) (host : Directory)
    (hm : host ∈ t.hosts) (hp : hostMatches cki name host = true) :
    (Data.hostEntry cki t name).isSome = true := by
  rw [hostEntry_eq]
  cases he : lastEntry (hostMatches cki name) t.hosts with
  | some e => rfl
  | none =>
    have := (lastEntry_none _ _).1 he host hm
    rw [hp] at this
    cases this

theorem calcChecksumi_equalsi (a b : Str) (h : equalsi a b = true) :
    calcChecksumi a = calcChecksumi b := by
  simp only [equalsi, beq_iff_eq] at h
  have e : ∀ s : Str, s.map (fun c => c.toUpper.toNat) = (s.map Char.toUpper).map Char.toNat := by
    intro s
    simp [List.map_map, Function.comp_def]
  unfold calcChecksumi
  rw [e a, e b, h]

/-- In a table whose Hosts are pairwise distinct for the host loops, the Host `remove`
takes out was the only one the loops stop at for that name. -/
theorem remove_no_match_left (cki : Str → Nat) (t : Data) (hostname : Str)
    (h2 : Data.distinctHosts t) (hrem : (Data.remove cki t hostname).1 = true) :
    Data.hostEntry cki (Data.remove cki t hostname).2 hostname = none := by
  rcases remove_hosts cki t hostname with ⟨_, l1, host, l2, hl, hl1, hp, hrest⟩ | ⟨hf, _, _⟩
  · rw [hostEntry_eq, lastEntry_none, hl1]
    intro x hx
    rcases List.mem_append.1 hx with hx | hx
    · unfold Data.distinctHosts at h2
      rw [hl] at h2
      have hR := (List.pairwise_append.1 h2).2.2 x hx host (List.mem_cons_self _ _)
      cases hm : hostMatches cki hostname x with
      | false => rfl
      | true =>
        exfalso
        apply hR
        simp only [hostMatches, Bool.and_eq_true, beq_iff_eq] at hm hp
        exact ⟨hm.1.symm.trans hp.1, equalsi_trans _ _ _ hm.2 (equalsi_symm _ _ hp.2)⟩
    · exact hrest x hx
  · rw [hf] at hrem
    cases hrem

theorem hostMatches_congr (cki : Str → Nat) (name : Str) (a b : Directory)
    (hn : a.name = b.name) (hc : a.name_checksum = b.name_checksum) :
    hostMatches cki name a = hostMatches cki name b := by
  simp [hostMatches, hn, hc]

/-- A returned `hook` keeps the global namespace at the head of the host list. -/
theorem hook_globalFirst (ck cki : Str → Nat) (fuel : Nat) (t : Data) (hostname in_path : Str)
    (c : Content) (t1 : Data) (h : Data.hook ck cki fuel t hostname in_path c = some t1)
    (hg : Data.globalFirst cki t) : Data.globalFirst cki t1 := by
  obtain ⟨g, rest, hhosts, hgn, hgc, hrest⟩ := hg
  rcases hook_hosts ck cki fuel t hostname in_path c t1 h with
    ⟨l1, host, l2, host1, hl, hl1, _, _, hn, hc⟩ | ⟨hno, host1, hl1, hn, hc⟩
  · rw [hhosts] at hl
    cases l1 with
    | nil =>
      simp only [List.nil_append, List.cons.injEq] at hl
      obtain ⟨hgh, hr⟩ := hl
      subst hgh hr
      exact ⟨host1, rest, hl1, by rw [hn, hgn], by rw [hc, hgc], hrest⟩
    | cons x l1 =>
      simp only [List.cons_append, List.cons.injEq] at hl
      obtain ⟨hgx, hr⟩ := hl
      subst hgx hr
      refine ⟨g, l1 ++ host1 :: l2, hl1, hgn, hgc, ?_⟩
      intro y hy
      rcases List.mem_append.1 hy with hy | hy
      · exact hrest y (List.mem_append_left _ hy)
      · rcases List.mem_cons.1 hy with rfl | hy
        · rw [hostMatches_congr cki global_namespace y host hn hc]
          exact hrest host (List.mem_append_right _ (List.mem_cons_self _ _))
        · exact hrest y (List.mem_append_right _ (List.mem_cons_of_mem _ hy))
  · refine ⟨g, rest ++ [host1], by rw [hl1, hhosts]; rfl, hgn, hgc, ?_⟩
    intro y hy
    rcases List.mem_append.1 hy with hy | hy
    · exact hrest y hy
    · simp only [List.mem_singleton] at hy
      subst hy
      cases hm : hostMatches cki global_namespace y with
      | false => rfl
      | true =>
        exfalso
        simp only [hostMatches, Bool.and_eq_true, beq_iff_eq] at hm
        have hempty : hostname = [] := by
          rw [← hn]
          exact equalsi_nil _ hm.2
        have hg0 := hno g (by rw [hhosts]; exact List.mem_cons_self _ _)
        rw [hostMatches_new cki hostname g (by rw [hgn, hempty]; rfl)
          (by rw [hgc, hempty]; rfl)] at hg0
        cases hg0

theorem hooked_globalFirst (ck cki : Str → Nat) (t : Data) (h : Hooked ck cki t) :
    Data.globalFirst cki t := by
  induction h with
  | fresh t hf =>
    exact ⟨Directory.new cki global_namespace, [], hf, rfl, rfl, by simp⟩
  | hook t t1 fuel hostname in_path c _ hh ih =>
    exact hook_globalFirst ck cki fuel t hostname in_path c t1 hh ih

/-- With the global namespace first and alone in answering to the empty name, `find_host`
of the empty name is the Host at index 0. -/
theorem globalFirst_hostEntry (cki : Str → Nat) (t : Data) (g : Directory)
    (rest : List Directory) (hhosts : t.hosts = g :: rest) (hgn : g.name = global_namespace)
    (hgc : g.name_checksum = cki global_namespace)
    (hrest : ∀ host ∈ rest, hostMatches cki global_namespace host = false) :
    Data.hostEntry cki t global_namespace = some (0, g) := by
  rw [hostEntry_eq, hhosts]
  simp only [lastEntry, (lastEntry_none _ _).2 hrest,
    hostMatches_new cki global_namespace g hgn hgc, if_true]

theorem lastEntry_append {α : Type} (p : α → Bool) (a b : List α) :
    lastEntry p (a ++ b)
      = match lastEntry p b with
        | some (i, y) => some (a.length + i, y)
        | none => lastEntry p a := by
  induction a with
  | nil =>
    cases h : lastEntry p b with
    | none => simp [h, lastEntry]
    | some e => obtain ⟨i, y⟩ := e; simp [h]
  | cons x xs ih =>
    rw [List.cons_append, lastEntry, ih]
    cases h : lastEntry p b with
    | none => simp only [lastEntry]
    | some e =>
      obtain ⟨i, y⟩ := e
      simp only [List.length_cons, Option.some.injEq, Prod.mk.injEq, and_true]
      omega

/-- Replacing an element the loop does not stop at by another one it does not stop at
changes nothing for the loop. -/
theorem lastEntry_replace {α : Type} (p : α → Bool) (l1 l2 : List α) (y y1 : α)
    (hy : p y = false) (hy1 : p y1 = false) :
    lastEntry p (l1 ++ y1 :: l2) = lastEntry p (l1 ++ y :: l2) := by
  rw [lastEntry_append, lastEntry_append]
  simp only [lastEntry, hy, hy1, Bool.false_eq_true, if_false]

theorem lastEntry_append_miss {α : Type} (p : α → Bool) (l : List α) (z : α)
    (hz : p z = false) : lastEntry p (l ++ [z]) = lastEntry p l := by
  rw [lastEntry_append]
  simp [lastEntry, hz]

/-- A returned `hook(h, ...)` leaves the host loop for every name not equal to `h`
ignoring case as it was, and the Hosts not named like `h` as they were, in their
order. -/
theorem hook_other_hosts (ck cki : Str → Nat) (fuel : Nat) (t : Data) (h in_path : Str)
    (c : Content) (t1 : Data) (hhook : Data.hook ck cki fuel t h in_path c = some t1)
    (h1 : Str) (hne : equalsi h1 h = false) :
    Data.hostEntry cki t1 h1 = Data.hostEntry cki t h1
      ∧ t1.hosts.filter (fun host => !equalsi host.name h)
          = t.hosts.filter (fun host => !equalsi host.name h)
      ∧ (t1.hosts.map Directory.name = t.hosts.map Directory.name
        ∨ t1.hosts.map Directory.name = t.hosts.map Directory.name ++ [h]) := by
  have hmiss : ∀ host : Directory, equalsi host.name h = true →
      hostMatches cki h1 host = false := by
    intro host he
    cases hm : hostMatches cki h1 host with
    | false => rfl
    | true =>
      exfalso
      simp only [hostMatches, Bool.and_eq_true, beq_iff_eq] at hm
      have := equalsi_trans _ _ _ (equalsi_symm _ _ hm.2) he
      rw [hne] at this
      cases this
  rcases hook_hosts ck cki fuel t h in_path c t1 hhook with
    ⟨l1, host, l2, host1, hl, hl1, hp, _, hn, hc⟩ | ⟨_, host1, hl1, hn, _⟩
  · have he : equalsi host.name h = true := by
      simp only [hostMatches, Bool.and_eq_true, beq_iff_eq] at hp
      exact hp.2
    refine ⟨?_, ?_, Or.inl ?_⟩
    · rw [hostEntry_eq, hostEntry_eq, hl, hl1]
      exact lastEntry_replace _ l1 l2 host host1 (hmiss host he)
        (hmiss host1 (by rw [hn]; exact he))
    · rw [hl, hl1]
      simp [List.filter_append, List.filter_cons, hn, he]
    · rw [hl, hl1]
      simp [hn]
  · refine ⟨?_, ?_, Or.inr ?_⟩
    · rw [hostEntry_eq, hostEntry_eq, hl1]
      exact lastEntry_append_miss _ _ host1 (hmiss host1 (by rw [hn]; exact equalsi_refl _))
    · rw [hl1]
      simp [List.filter_append, hn, equalsi_refl]
    · rw [hl1]
      simp [hn]

/-! ## The scheduler tick -/

theorem thinkSession_isSome (ck cki : Str → Nat) (JUPITER_VERSION : Str) (d : Data)
    (now : Nat) (html_time : Nat → Str) (session : HTTPSession) (recv : Recv) :
    (thinkSession ck cki JUPITER_VERSION d now html_time session recv).isSome = true := by
  unfold thinkSession
  simp only
  repeat' split
  all_goals first
    | rfl
    | (rw [Option.isSome_map']; exact process_request_isSome _ _ _ _ _ _)

theorem thinkIncoming_isSome (ck cki : Str → Nat) (JUPITER_VERSION : Str) (d : Data)
    (now : Nat) (html_time : Nat → Str) (in_sock : Socket) (recv : Recv) :
    (thinkIncoming ck cki JUPITER_VERSION d now html_time in_sock recv).isSome = true := by
  unfold thinkIncoming
  simp only
  repeat' split
  all_goals first
    | rfl
    | (rw [Option.isSome_map']; exact process_request_isSome _ _ _ _ _ _)

/-- The loop over existing sessions always ends. -/
theorem thinkSessions_isSome (ck cki : Str → Nat) (JUPITER_VERSION : Str) (d : Data)
    (tick : Tick) (sessions : List HTTPSession) :
    ∀ index, (thinkSessions ck cki JUPITER_VERSION d tick index sessions).isSome = true := by
  induction sessions with
  | nil => intro index; rfl
  | cons s rest ih =>
    intro index
    rw [thinkSessions]
    obtain ⟨rest1, h1⟩ := Option.isSome_iff_exists.1 (ih (index + 1))
    obtain ⟨o, h2⟩ := Option.isSome_iff_exists.1
      (thinkSession_isSome ck cki JUPITER_VERSION d (tick.now index) (tick.html_time index) s
        (tick.recv index))
    rw [h1, h2]
    simp only
    split <;> rfl

/-- The loop over listening sockets always ends. -/
theorem thinkPorts_isSome (ck cki : Str → Nat) (JUPITER_VERSION : Str) (d : Data)
    (tick : Tick) (ports : List Socket) :
    ∀ index, (thinkPorts ck cki JUPITER_VERSION d tick index ports).isSome = true := by
  induction ports with
  | nil => intro index; rfl
  | cons p rest ih =>
    intro index
    rw [thinkPorts]
    obtain ⟨added, h1⟩ := Option.isSome_iff_exists.1 (ih (index + 1))
    rw [h1]
    simp only
    cases ha : tick.accept index with
    | none => rfl
    | some a =>
      obtain ⟨in_sock, recv⟩ := a
      obtain ⟨o, h2⟩ := Option.isSome_iff_exists.1
        (thinkIncoming_isSome ck cki JUPITER_VERSION d (tick.accept_now index)
          (tick.accept_html_time index) in_sock recv)
      simp only [h2]
      split <;> rfl

/-- The session list after the loop, seen from one session of the list: what the loop
left of the sessions before it, then that session if the loop body retained it, then what
the loop left of the sessions after it. -/
theorem thinkSessions_at (ck cki : Str → Nat) (JUPITER_VERSION : Str) (d : Data)
    (tick : Tick) (pre : List HTTPSession) (s : HTTPSession) (post : List HTTPSession) :
    ∀ index, ∃ pre1 post1 outcome,
      thinkSessions ck cki JUPITER_VERSION d tick index pre = some pre1
      ∧ thinkSessions ck cki JUPITER_VERSION d tick (index + pre.length + 1) post = some post1
      ∧ thinkSession ck cki JUPITER_VERSION d (tick.now (index + pre.length))
          (tick.html_time (index + pre.length)) s (tick.recv (index + pre.length))
          = some outcome
      ∧ thinkSessions ck cki JUPITER_VERSION d tick index (pre ++ s :: post)
          = some (pre1 ++
              (if outcome.fate = Fate.retained then outcome.session :: post1 else post1)) := by
  induction pre with
  | nil =>
    intro index
    obtain ⟨post1, h1⟩ := Option.isSome_iff_exists.1
      (thinkSessions_isSome ck cki JUPITER_VERSION d tick post (index + 1))
    obtain ⟨o, h2⟩ := Option.isSome_iff_exists.1
      (thinkSession_isSome ck cki JUPITER_VERSION d (tick.now index) (tick.html_time index) s
        (tick.recv index))
    refine ⟨[], post1, o, rfl, h1, h2, ?_⟩
    rw [List.nil_append, thinkSessions, h1, h2]
    simp only [List.nil_append]
    split <;> rfl
  | cons x pre ih =>
    intro index
    obtain ⟨pre1, post1, o, h1, h2, h3, h4⟩ := ih (index + 1)
    obtain ⟨ox, hx⟩ := Option.isSome_iff_exists.1
      (thinkSession_isSome ck cki JUPITER_VERSION d (tick.now index) (tick.html_time index) x
        (tick.recv index))
    have e1 : index + 1 + pre.length + 1 = index + (x :: pre).length + 1 := by
      simp only [List.length_cons]; omega
    have e2 : index + 1 + pre.length = index + (x :: pre).length := by
      simp only [List.length_cons]; omega
    rw [e1] at h2
    rw [e2] at h3
    refine ⟨if ox.fate = Fate.retained then ox.session :: pre1 else pre1, post1, o, ?_, h2, h3, ?_⟩
    · rw [thinkSessions, h1, hx]
      simp only
      split <;> rfl
    · rw [List.cons_append, thinkSessions, h4, hx]
      simp only
      split <;> rfl

/-- A session idle beyond the timeout that applies to it passes the eviction test of
`think`. -/
theorem spec_evicts_evicts (d : Data) (now : Nat) (session : HTTPSession)
    (h : spec_evicts d now session = true) : evicts d now session = true := by
  unfold spec_evicts at h
  unfold evicts
  cases hk : session.keep_alive <;> simp [hk] at h ⊢
  · exact Or.inr h
  · exact h

/-- A session that passes the eviction test is deleted whatever its socket would
deliver. -/
theorem thinkSession_evicted (ck cki : Str → Nat) (JUPITER_VERSION : Str) (d : Data)
    (now : Nat) (html_time : Nat → Str) (session : HTTPSession) (recv : Recv)
    (h : evicts d now session = true) :
    thinkSession ck cki JUPITER_VERSION d now html_time session recv
      = some { session := session, fate := Fate.destroyed } := by
  unfold thinkSession
  simp only [h, if_true]

/-- The table after a tick, seen from one session of the list. -/
theorem think_at (ck cki : Str → Nat) (JUPITER_VERSION : Str) (d : Data) (tick : Tick)
    (pre : List HTTPSession) (s : HTTPSession) (post : List HTTPSession)
    (hd : d.sessions = pre ++ s :: post) :
    ∃ pre1 post1 outcome added,
      thinkSessions ck cki JUPITER_VERSION d tick 0 pre = some pre1
      ∧ thinkSessions ck cki JUPITER_VERSION d tick (pre.length + 1) post = some post1
      ∧ thinkSession ck cki JUPITER_VERSION d (tick.now pre.length)
          (tick.html_time pre.length) s (tick.recv pre.length) = some outcome
      ∧ thinkPorts ck cki JUPITER_VERSION d tick 0 d.ports = some added
      ∧ think ck cki JUPITER_VERSION d tick
          = some { d with sessions := pre1 ++
              (if outcome.fate = Fate.retained then outcome.session :: post1 else post1)
              ++ added } := by
  obtain ⟨pre1, post1, o, h1, h2, h3, h4⟩ :=
    thinkSessions_at ck cki JUPITER_VERSION d tick pre s post 0
  obtain ⟨added, h5⟩ := Option.isSome_iff_exists.1
    (thinkPorts_isSome ck cki JUPITER_VERSION d tick d.ports 0)
  simp only [Nat.zero_add] at h2 h3
  refine ⟨pre1, post1, o, added, h1, h2, h3, h5, ?_⟩
  unfold think
  rw [hd, h4, h5]

/-- An existing session that is not evicted and reads bytes completing a request within
the size cap is handed to `process_request`, and stays in the list exactly when it is
keep-alive afterwards. -/
theorem thinkSession_processes (ck cki : Str → Nat) (JUPITER_VERSION : Str) (d : Data)
    (now : Nat) (html_time : Nat → Str) (session : HTTPSession) (recv : Recv)
    (hev : evicts d now session = false) (hret : recv.ret > 0)
    (hsize : session.request.length + recv.buffer.length ≤ d.max_request_size)
    (hend : (findStr HTTP_REQUEST_ENDING (session.request ++ recv.buffer)).isSome = true) :
    ∃ session3,
      process_request ck cki JUPITER_VERSION d html_time
          { session with request := session.request ++ recv.buffer, last_active := now }
        = some session3
      ∧ thinkSession ck cki JUPITER_VERSION d now html_time session recv
        = some { session := session3,
                 fate := if session3.keep_alive = true then Fate.retained
                         else Fate.destroyed } := by
  obtain ⟨s3, h3⟩ := Option.isSome_iff_exists.1
    (process_request_isSome ck cki JUPITER_VERSION d html_time
      { session with request := session.request ++ recv.buffer, last_active := now })
  refine ⟨s3, h3, ?_⟩
  unfold thinkSession
  simp only [hev, Bool.false_eq_true, if_false, hret, hsize, if_true, hend, h3,
    Option.map_some']
  cases hk : s3.keep_alive <;> simp

/-- A newly accepted socket whose first read holds a complete request within the size cap
is handed to `process_request`, and is added to the list exactly when it is keep-alive
afterwards. -/
theorem thinkIncoming_processes (ck cki : Str → Nat) (JUPITER_VERSION : Str) (d : Data)
    (now : Nat) (html_time : Nat → Str) (in_sock : Socket) (recv : Recv)
    (hret : recv.ret ≠ 0) (hsize : recv.buffer.length ≤ d.max_request_size)
    (hend : (findStr HTTP_REQUEST_ENDING recv.buffer).isSome = true) :
    ∃ session2,
      process_request ck cki JUPITER_VERSION d html_time
          { HTTPSession.new in_sock now with request := recv.buffer } = some session2
      ∧ thinkIncoming ck cki JUPITER_VERSION d now html_time in_sock recv
        = some { session := session2,
                 fate := if session2.keep_alive = true then Fate.retained
                         else Fate.destroyed } := by
  obtain ⟨s2, h2⟩ := Option.isSome_iff_exists.1
    (process_request_isSome ck cki JUPITER_VERSION d html_time
      { HTTPSession.new in_sock now with request := recv.buffer })
  refine ⟨s2, h2, ?_⟩
  have hnone : (findStr HTTP_REQUEST_ENDING recv.buffer).isNone = false := by
    cases hf : findStr HTTP_REQUEST_ENDING recv.buffer with
    | none => rw [hf] at hend; cases hend
    | some i => rfl
  unfold thinkIncoming
  by_cases hlt : recv.buffer.length < d.max_request_size
  · simp only [bne_iff_ne, ne_eq, hret, not_false_eq_true, if_true, hlt, hend, h2,
      Option.map_some']
    cases hk : s2.keep_alive <;> simp
  · have heq : (recv.buffer.length == d.max_request_size) = true := by
      simp only [beq_iff_eq]; omega
    simp only [bne_iff_ne, ne_eq, hret, not_false_eq_true, if_true, hlt, if_false, heq,
      hnone, Bool.false_eq_true, h2, Option.map_some']
    cases hk : s2.keep_alive <;> simp

/-- An existing session that is not evicted and reads bytes that overflow the size cap,
or fill it without completing a request, is deleted with nothing sent. -/
theorem thinkSession_rejects (ck cki : Str → Nat) (JUPITER_VERSION : Str) (d : Data)
    (now : Nat) (html_time : Nat → Str) (session : HTTPSession) (recv : Recv)
    (hev : evicts d now session = false) (hret : recv.ret > 0)
    (hbig : session.request.length + recv.buffer.length > d.max_request_size
      ∨ (session.request.length + recv.buffer.length = d.max_request_size
        ∧ findStr HTTP_REQUEST_ENDING (session.request ++ recv.buffer) = none)) :
    thinkSession ck cki JUPITER_VERSION d now html_time session recv
        = some { session := session, fate := Fate.destroyed }
      ∨ thinkSession ck cki JUPITER_VERSION d now html_time session recv
        = some { session := { session with request := session.request ++ recv.buffer },
                 fate := Fate.destroyed } := by
  unfold thinkSession
  rcases hbig with h | ⟨h1, h2⟩
  · left
    have hn : ¬ (session.request.length + recv.buffer.length ≤ d.max_request_size) := by omega
    simp only [hev, Bool.false_eq_true, if_false, hret, if_true, hn]
  · right
    have hle : session.request.length + recv.buffer.length ≤ d.max_request_size := by omega
    simp only [hev, Bool.false_eq_true, if_false, hret, if_true, hle, h2, Option.isSome_none,
      List.length_append, h1, beq_self_eq_true, le_refl]

/-- A newly accepted socket whose first read overflows the size cap, or fills it without
holding a complete request, is deleted. -/
theorem thinkIncoming_rejects (ck cki : Str → Nat) (JUPITER_VERSION : Str) (d : Data)
    (now : Nat) (html_time : Nat → Str) (in_sock : Socket) (recv : Recv)
    (hret : recv.ret ≠ 0)
    (hbig : recv.buffer.length > d.max_request_size
      ∨ (recv.buffer.length = d.max_request_size
        ∧ findStr HTTP_REQUEST_ENDING recv.buffer = none)) :
    thinkIncoming ck cki JUPITER_VERSION d now html_time in_sock recv
      = some { session := HTTPSession.new in_sock now, fate := Fate.destroyed } := by
  unfold thinkIncoming
  rcases hbig with h | ⟨h1, h2⟩
  · have hn : ¬ (recv.buffer.length < d.max_request_size) := by omega
    have hne : (recv.buffer.length == d.max_request_size) = false := by
      simp only [beq_eq_false_iff_ne, ne_eq]; omega
    simp only [bne_iff_ne, ne_eq, hret, not_false_eq_true, if_true, hn, if_false, hne,
      Bool.false_eq_true]
  · have hn : ¬ (recv.buffer.length < d.max_request_size) := by omega
    have heq : (recv.buffer.length == d.max_request_size) = true := by
      simp only [beq_iff_eq]; exact h1
    simp only [bne_iff_ne, ne_eq, hret, not_false_eq_true, if_true, hn, if_false, heq,
      h2, Option.isNone_none]

/-- The sessions the loop over listening sockets adds, seen from one socket that accepts
a connection. -/
theorem thinkPorts_at (ck cki : Str → Nat) (JUPITER_VERSION : Str) (d : Data)
    (tick : Tick) (pre : List Socket) (p : Socket) (post : List Socket) :
    ∀ index (in_sock : Socket) (recv : Recv),
      tick.accept (index + pre.length) = some (in_sock, recv) →
      ∃ added_post added_pre outcome,
        thinkPorts ck cki JUPITER_VERSION d tick (index + pre.length + 1) post
            = some added_post
        ∧ thinkPorts ck cki JUPITER_VERSION d tick index pre = some added_pre
        ∧ thinkIncoming ck cki JUPITER_VERSION d (tick.accept_now (index + pre.length))
            (tick.accept_html_time (index + pre.length)) in_sock recv = some outcome
        ∧ thinkPorts ck cki JUPITER_VERSION d tick index (pre ++ p :: post)
            = some (added_post
                ++ (if outcome.fate = Fate.retained then [outcome.session] else [])
                ++ added_pre) := by
  induction pre with
  | nil =>
    intro index in_sock recv hacc
    obtain ⟨added_post, h1⟩ := Option.isSome_iff_exists.1
      (thinkPorts_isSome ck cki JUPITER_VERSION d tick post (index + 1))
    obtain ⟨o, h2⟩ := Option.isSome_iff_exists.1
      (thinkIncoming_isSome ck cki JUPITER_VERSION d (tick.accept_now index)
        (tick.accept_html_time index) in_sock recv)
    simp only [List.length_nil, Nat.add_zero] at hacc ⊢
    refine ⟨added_post, [], o, h1, rfl, h2, ?_⟩
    rw [List.nil_append, thinkPorts, h1]
    simp only [hacc, h2, List.append_nil]
    split <;> simp
  | cons x pre ih =>
    intro index in_sock recv hacc
    have e2 : index + 1 + pre.length = index + (x :: pre).length := by
      simp only [List.length_cons]; omega
    rw [← e2] at hacc
    obtain ⟨added_post, added_pre, o, h1, h2, h3, h4⟩ := ih (index + 1) in_sock recv hacc
    obtain ⟨ax, hx⟩ := Option.isSome_iff_exists.1
      (thinkPorts_isSome ck cki JUPITER_VERSION d tick (x :: pre) index)
    rw [e2] at h1 h3
    refine ⟨added_post, ax, o, h1, hx, h3, ?_⟩
    rw [thinkPorts, h2] at hx
    rw [List.cons_append, thinkPorts, h4]
    simp only at hx ⊢
    cases ha : tick.accept index with
    | none =>
      rw [ha] at hx
      simp only [Option.some.injEq] at hx
      subst hx
      rfl
    | some a =>
      obtain ⟨sock1, recv1⟩ := a
      rw [ha] at hx
      simp only at hx ⊢
      cases hi : thinkIncoming ck cki JUPITER_VERSION d (tick.accept_now index)
          (tick.accept_html_time index) sock1 recv1 with
      | none => rw [hi] at hx; cases hx
      | some o1 =>
        rw [hi] at hx
        simp only at hx ⊢
        by_cases hf : o1.fate = Fate.retained
        · simp only [hf, if_true, Option.some.injEq] at hx ⊢
          subst hx
          simp only [List.append_assoc]
        · simp only [hf, if_false, Option.some.injEq] at hx ⊢
          subst hx
          rfl

/-- The session list after a tick, around one session of the list. -/
theorem think_keeps (ck cki : Str → Nat) (JUPITER_VERSION : Str) (d : Data) (tick : Tick)
    (pre : List HTTPSession) (s : HTTPSession) (post : List HTTPSession)
    (hd : d.sessions = pre ++ s :: post) (outcome : Outcome)
    (ho : thinkSession ck cki JUPITER_VERSION d (tick.now pre.length)
      (tick.html_time pre.length) s (tick.recv pre.length) = some outcome) :
    tickKeeps ck cki JUPITER_VERSION d tick pre post
      (if outcome.fate = Fate.retained then [outcome.session] else []) := by
  obtain ⟨pre1, post1, o, added, h1, h2, h3, h4, h5⟩ :=
    think_at ck cki JUPITER_VERSION d tick pre s post hd
  rw [ho] at h3
  simp only [Option.some.injEq] at h3
  subst h3
  refine ⟨pre1, post1, added, h1, h2, h4, ?_⟩
  rw [h5]
  by_cases hf : outcome.fate = Fate.retained <;> simp [hf]

/-- The session list after a tick, around one listening socket that accepts a
connection. -/
theorem think_adds (ck cki : Str → Nat) (JUPITER_VERSION : Str) (d : Data) (tick : Tick)
    (pre : List Socket) (p : Socket) (post : List Socket)
    (hd : d.ports = pre ++ p :: post) (in_sock : Socket) (recv : Recv)
    (hacc : tick.accept pre.length = some (in_sock, recv)) (outcome : Outcome)
    (ho : thinkIncoming ck cki JUPITER_VERSION d (tick.accept_now pre.length)
      (tick.accept_html_time pre.length) in_sock recv = some outcome) :
    tickAdds ck cki JUPITER_VERSION d tick pre post
      (if outcome.fate = Fate.retained then [outcome.session] else []) := by
  obtain ⟨added_post, added_pre, o, h1, h2, h3, h4⟩ :=
    thinkPorts_at ck cki JUPITER_VERSION d tick pre p post 0 in_sock recv
      (by rw [Nat.zero_add]; exact hacc)
  simp only [Nat.zero_add] at h1 h3
  rw [ho] at h3
  simp only [Option.some.injEq] at h3
  subst h3
  obtain ⟨sessions1, h5⟩ := Option.isSome_iff_exists.1
    (thinkSessions_isSome ck cki JUPITER_VERSION d tick d.sessions 0)
  refine ⟨sessions1, added_post, added_pre, h5, h1, h2, ?_⟩
  unfold think
  rw [h5, hd, h4]
  simp only [List.append_assoc]

/-- A returned `Directory::hook` on a node without child directories has added the
content to that node. -/
theorem hook_leaf (ck cki : Str → Nat) (fuel : Nat) (d : Directory) (in_name : Str)
    (c : Content) (d1 : Directory) (h : Directory.hook ck cki fuel d in_name c = some d1)
    (hd : d.directories = []) : d1 = d.addContent c := by
  cases hfind : find '/' (shiftRight (span ['/'] in_name) in_name) with
  | some i =>
    rw [hook_unmatched_no_return ck cki fuel d in_name c i hfind (by rw [hd]; rfl)] at h
    cases h
  | none =>
    cases fuel with
    | zero => simp [Directory.hook] at h
    | succ fuel =>
      rw [Directory.hook] at h
      simp only [hfind, Option.some.injEq] at h
      exact h.symm

/-- The shape of a Host survives the body of `Data::hook`. -/
theorem hookHost_flat (ck cki : Str → Nat) (fuel : Nat) (host : Directory) (in_path : Str)
    (c : Content) (host1 : Directory)
    (h : Data.hookHost ck cki fuel host in_path c = some host1) (hf : host.flat) :
    host1.flat := by
  unfold Data.hookHost at h
  simp only at h
  split at h
  · have hk := hook_name ck cki fuel (host.addContent c) _ c host1 h
    cases fuel with
    | zero => simp [Directory.hook] at h
    | succ fuel =>
      rename_i hempty
      have hnil : shiftRight (span ['/'] in_path) in_path = [] := by
        simpa using hempty
      rw [hnil, Directory.hook] at h
      simp only [shiftRight, span, List.takeWhile, List.length_nil, List.drop_nil, find,
        Option.some.injEq] at h
      subst h
      exact hf
  · split at h
    · rename_i i t_dir he
      simp only [Option.map_eq_some'] at h
      obtain ⟨sub, hsub, hres⟩ := h
      obtain ⟨l1, l2, hl, hlen, _, _⟩ := lastEntry_split _ _ _ _ he
      have hmem : t_dir ∈ host.directories := by rw [hl]; simp
      have hleaf := hook_leaf ck cki fuel t_dir _ c sub hsub (hf.2 t_dir hmem)
      have hdir : host1.directories = l1 ++ sub :: l2 := by
        subst hres
        show host.directories.set i sub = _
        rw [hl, ← hlen, set_at_split]
      have hn : sub.name = t_dir.name := by rw [hleaf]; rfl
      have hd : sub.directories = [] := by
        rw [hleaf]
        exact hf.2 t_dir hmem
      unfold Directory.flat at hf ⊢
      rw [hl] at hf
      rw [hdir]
      constructor
      · have h1 := hf.1
        simp only [List.pairwise_append, List.pairwise_cons, List.mem_cons, forall_eq_or_imp,
          hn] at h1 ⊢
        exact h1
      · intro x hx
        rcases List.mem_append.1 hx with hx | hx
        · exact hf.2 x (List.mem_append_left _ hx)
        · rcases List.mem_cons.1 hx with rfl | hx
          · exact hd
          · exact hf.2 x (List.mem_append_right _ (List.mem_cons_of_mem _ hx))
    · rename_i he
      simp only [Option.map_eq_some'] at h
      obtain ⟨sub, hsub, hres⟩ := h
      have hleaf := hook_leaf ck cki fuel _ _ c sub hsub rfl
      have hdir : host1.directories = host.directories ++ [sub] := by
        subst hres
        rfl
      have hno := (lastEntry_none _ _).1 he
      unfold Directory.flat at hf ⊢
      rw [hdir]
      constructor
      · simp only [List.pairwise_append, List.pairwise_cons, List.mem_singleton, forall_eq,
          List.Pairwise.nil, and_true, List.not_mem_nil, false_implies, implies_true]
        refine ⟨hf.1, trivial, ?_⟩
        intro a ha
        rw [hleaf]
        exact hno a ha
      · intro x hx
        rcases List.mem_append.1 hx with hx | hx
        · exact hf.2 x hx
        · simp only [List.mem_singleton] at hx
          subst hx
          rw [hleaf]
          rfl

/-- What a returned `Data::hook` does to the host list, with the Host it worked on. -/
theorem hook_hosts_body (ck cki : Str → Nat) (fuel : Nat) (t : Data) (hostname in_path : Str)
    (c : Content) (t1 : Data) (h : Data.hook ck cki fuel t hostname in_path c = some t1) :
    (∃ l1 host l2 host1, t.hosts = l1 ++ host :: l2 ∧ t1.hosts = l1 ++ host1 :: l2
        ∧ Data.hookHost ck cki fuel host in_path c = some host1)
    ∨ (∃ host1, t1.hosts = t.hosts ++ [host1]
        ∧ Data.hookHost ck cki fuel (Directory.new cki hostname) in_path c = some host1) := by
  unfold Data.hook at h
  rw [hostEntry_eq] at h
  cases he : lastEntry (hostMatches cki hostname) t.hosts with
  | some e =>
    obtain ⟨i, host⟩ := e
    rw [he] at h
    simp only [Option.map_eq_some'] at h
    obtain ⟨host1, hh, ht1⟩ := h
    obtain ⟨l1, l2, hl, hlen, _, _⟩ := lastEntry_split _ _ _ _ he
    left
    refine ⟨l1, host, l2, host1, hl, ?_, hh⟩
    subst ht1
    show t.hosts.set i host1 = _
    rw [hl, ← hlen, set_at_split]
  | none =>
    rw [he] at h
    simp only [Option.map_eq_some'] at h
    obtain ⟨host1, hh, ht1⟩ := h
    right
    refine ⟨host1, ?_, hh⟩
    subst ht1
    rfl

/-- Every Host of a table built by `hook` has the flat shape. -/
theorem hooked_flat (ck cki : Str → Nat) (t : Data) (h : Hooked ck cki t) :
    ∀ host ∈ t.hosts, host.flat := by
  induction h with
  | fresh t hf =>
    intro host hm
    unfold Data.isFresh at hf
    rw [hf] at hm
    simp only [Data.new, List.mem_singleton] at hm
    subst hm
    exact ⟨List.Pairwise.nil, by intro c hc; cases hc⟩
  | hook t t1 fuel hostname in_path c _ hh ih =>
    intro host hm
    rcases hook_hosts_body ck cki fuel t hostname in_path c t1 hh with
      ⟨l1, host0, l2, host1, hl, hl1, hb⟩ | ⟨host1, hl1, hb⟩
    · rw [hl1] at hm
      rcases List.mem_append.1 hm with hm | hm
      · exact ih host (by rw [hl]; exact List.mem_append_left _ hm)
      · rcases List.mem_cons.1 hm with rfl | hm
        · exact hookHost_flat ck cki fuel host0 in_path c host hb
            (ih host0 (by rw [hl]; simp))
        · exact ih host (by rw [hl]; exact List.mem_append_right _ (List.mem_cons_of_mem _ hm))
    · rw [hl1] at hm
      rcases List.mem_append.1 hm with hm | hm
      · exact ih host hm
      · simp only [List.mem_singleton] at hm
        subst hm
        exact hookHost_flat ck cki fuel _ in_path c host hb
          ⟨List.Pairwise.nil, by intro c hc; cases hc⟩

/-- The nodes of a flat Host are the Host and its child directories. -/
theorem flat_nodes (host n : Directory) (hf : host.flat) (hn : IsNode host n) :
    n = host ∨ (n ∈ host.directories ∧ n.directories = []) := by
  cases hn with
  | self => exact Or.inl rfl
  | child _ c _ hc hcn =>
    right
    have hcd := hf.2 c hc
    cases hcn with
    | self => exact ⟨hc, hcd⟩
    | child _ c2 _ hc2 _ =>
      rw [hcd] at hc2
      cases hc2

/-- A session the loop body retains has a buffer within the size cap, if it had one
before. -/
theorem thinkSession_bound (ck cki : Str → Nat) (JUPITER_VERSION : Str) (d : Data)
    (now : Nat) (html_time : Nat → Str) (session : HTTPSession) (recv : Recv)
    (hs : session.request.length ≤ d.max_request_size) (outcome : Outcome)
    (h : thinkSession ck cki JUPITER_VERSION d now html_time session recv = some outcome)
    (hf : outcome.fate = Fate.retained) :
    outcome.session.request.length ≤ d.max_request_size := by
  unfold thinkSession at h
  simp only at h
  split at h
  · simp only [Option.some.injEq] at h
    subst h
    cases hf
  · split at h
    · split at h
      · rename_i hsize
        split at h
        · simp only [Option.map_eq_some'] at h
          obtain ⟨s3, h3, ho⟩ := h
          have hle := process_request_request_le ck cki JUPITER_VERSION d html_time _ s3 h3
          simp only [List.length_append] at hle
          subst ho
          split <;> simp only <;> omega
        · split at h
          · simp only [Option.some.injEq] at h
            subst h
            cases hf
          · simp only [Option.some.injEq] at h
            subst h
            simp only [List.length_append]
            exact hsize
      · simp only [Option.some.injEq] at h
        subst h
        cases hf
    · split at h
      · simp only [Option.some.injEq] at h
        subst h
        cases hf
      · simp only [Option.some.injEq] at h
        subst h
        exact hs

/-- A session the accept loop adds has a buffer within the size cap. -/
theorem thinkIncoming_bound (ck cki : Str → Nat) (JUPITER_VERSION : Str) (d : Data)
    (now : Nat) (html_time : Nat → Str) (in_sock : Socket) (recv : Recv) (outcome : Outcome)
    (h : thinkIncoming ck cki JUPITER_VERSION d now html_time in_sock recv = some outcome)
    (hf : outcome.fate = Fate.retained) :
    outcome.session.request.length ≤ d.max_request_size := by
  unfold thinkIncoming at h
  simp only at h
  split at h
  · split at h
    · rename_i hlt
      split at h
      · simp only [Option.map_eq_some'] at h
        obtain ⟨s2, h2, ho⟩ := h
        have hle := process_request_request_le ck cki JUPITER_VERSION d html_time _ s2 h2
        subst ho
        split <;> simp only at hle ⊢ <;> omega
      · simp only [Option.some.injEq] at h
        subst h
        exact Nat.le_of_lt hlt
    · split at h
      · rename_i heq
        split at h
        · simp only [Option.some.injEq] at h
          subst h
          cases hf
        · simp only [Option.map_eq_some'] at h
          obtain ⟨s2, h2, ho⟩ := h
          have hle := process_request_request_le ck cki JUPITER_VERSION d html_time _ s2 h2
          have heq1 : recv.buffer.length = d.max_request_size := by simpa using heq
          subst ho
          split <;> simp only at hle ⊢ <;> omega
      · simp only [Option.some.injEq] at h
        subst h
        cases hf
  · simp only [Option.some.injEq] at h
    subst h
    cases hf

theorem thinkSessions_bound (ck cki : Str → Nat) (JUPITER_VERSION : Str) (d : Data)
    (tick : Tick) (sessions : List HTTPSession)
    (hs : ∀ s ∈ sessions, s.request.length ≤ d.max_request_size) :
    ∀ index sessions1,
      thinkSessions ck cki JUPITER_VERSION d tick index sessions = some sessions1 →
      ∀ s ∈ sessions1, s.request.length ≤ d.max_request_size := by
  induction sessions with
  | nil =>
    intro _ sessions1 h
    simp only [thinkSessions, Option.some.injEq] at h
    subst h
    intro s hm
    cases hm
  | cons x rest ih =>
    intro index sessions1 h
    rw [thinkSessions] at h
    cases h1 : thinkSessions ck cki JUPITER_VERSION d tick (index + 1) rest with
    | none => rw [h1] at h; cases h
    | some rest1 =>
      rw [h1] at h
      simp only at h
      cases h2 : thinkSession ck cki JUPITER_VERSION d (tick.now index) (tick.html_time index)
          x (tick.recv index) with
      | none => rw [h2] at h; cases h
      | some o =>
        rw [h2] at h
        simp only at h
        have hrest := ih (fun s hm => hs s (List.mem_cons_of_mem _ hm)) (index + 1) rest1 h1
        by_cases hf : o.fate = Fate.retained
        · simp only [hf, if_true, Option.some.injEq] at h
          subst h
          intro s hm
          rcases List.mem_cons.1 hm with rfl | hm
          · exact thinkSession_bound ck cki JUPITER_VERSION d _ _ x _
              (hs x (List.mem_cons_self _ _)) o h2 hf
          · exact hrest s hm
        · simp only [hf, if_false, Option.some.injEq] at h
          subst h
          exact hrest

theorem thinkPorts_bound (ck cki : Str → Nat) (JUPITER_VERSION : Str) (d : Data)
    (tick : Tick) (ports : List Socket) :
    ∀ index added,
      thinkPorts ck cki JUPITER_VERSION d tick index ports = some added →
      ∀ s ∈ added, s.request.length ≤ d.max_request_size := by
  induction ports with
  | nil =>
    intro _ added h
    simp only [thinkPorts, Option.some.injEq] at h
    subst h
    intro s hm
    cases hm
  | cons p rest ih =>
    intro index added h
    rw [thinkPorts] at h
    cases h1 : thinkPorts ck cki JUPITER_VERSION d tick (index + 1) rest with
    | none => rw [h1] at h; cases h
    | some added1 =>
      rw [h1] at h
      simp only at h
      have hrest := ih (index + 1) added1 h1
      cases ha : tick.accept index with
      | none =>
        rw [ha] at h
        simp only [Option.some.injEq] at h
        subst h
        exact hrest
      | some a =>
        obtain ⟨in_sock, recv⟩ := a
        rw [ha] at h
        simp only at h
        cases h2 : thinkIncoming ck cki JUPITER_VERSION d (tick.accept_now index)
            (tick.accept_html_time index) in_sock recv with
        | none => rw [h2] at h; cases h
        | some o =>
          rw [h2] at h
          simp only at h
          by_cases hf : o.fate = Fate.retained
          · simp only [hf, if_true, Option.some.injEq] at h
            subst h
            intro s hm
            rcases List.mem_append.1 hm with hm | hm
            · exact hrest s hm
            · simp only [List.mem_singleton] at hm
              subst hm
              exact thinkIncoming_bound ck cki JUPITER_VERSION d _ _ in_sock recv o h2 hf
          · simp only [hf, if_false, Option.some.injEq] at h
            subst h
            exact hrest

/-- `think` returns for every table and every tick. -/
theorem think_isSome (ck cki : Str → Nat) (JUPITER_VERSION : Str) (d : Data) (tick : Tick) :
    (think ck cki JUPITER_VERSION d tick).isSome = true := by
  obtain ⟨s1, h1⟩ := Option.isSome_iff_exists.1
    (thinkSessions_isSome ck cki JUPITER_VERSION d tick d.sessions 0)
  obtain ⟨a1, h2⟩ := Option.isSome_iff_exists.1
    (thinkPorts_isSome ck cki JUPITER_VERSION d tick d.ports 0)
  unfold think
  rw [h1, h2]
  rfl

/-- The loop of `process_request` reads the table only through the line handler: two
tables on which the line handler agrees give the same loop. -/
theorem lineLoop_data (ck cki : Str → Nat) (JUPITER_VERSION : Str) (d d1 : Data)
    (hp : ∀ line locals s, processLine ck cki d1 line locals s = processLine ck cki d line locals s)
    (recurse recurse1 : (Nat → Str) → HTTPSession → Option HTTPSession)
    (hrec : ∀ ht s, recurse1 ht s = recurse ht s) (token_count : Nat) (rest : List Str) :
    ∀ (html_time : Nat → Str) (done : List Str) (locals : RequestLocals) (session : HTTPSession),
      lineLoop ck cki JUPITER_VERSION d1 recurse1 html_time token_count done rest locals session
        = lineLoop ck cki JUPITER_VERSION d recurse html_time token_count done rest locals
            session := by
  induction rest with
  | nil => intro _ _ _ _; rfl
  | cons raw rest ih =>
    intro html_time done locals session
    rw [lineLoop, lineLoop]
    simp only [hp, hrec, ih]

theorem process_requestFuel_data (ck cki : Str → Nat) (JUPITER_VERSION : Str) (d d1 : Data)
    (hp : ∀ line locals s, processLine ck cki d1 line locals s = processLine ck cki d line locals s)
    (fuel : Nat) :
    ∀ (html_time : Nat → Str) (session : HTTPSession),
      process_requestFuel ck cki JUPITER_VERSION d1 fuel html_time session
        = process_requestFuel ck cki JUPITER_VERSION d fuel html_time session := by
  induction fuel with
  | zero => intro _ _; rfl
  | succ fuel ih =>
    intro html_time session
    rw [process_requestFuel, process_requestFuel]
    exact lineLoop_data ck cki JUPITER_VERSION d d1 hp _ _ (fun ht s => ih ht s) _ _ _ _ _ _

/-- `process_request` does not read the member `permit_keept_alive`. -/
theorem process_request_permit (ck cki : Str → Nat) (JUPITER_VERSION : Str) (d : Data)
    (b : Bool) (html_time : Nat → Str) (session : HTTPSession) :
    process_request ck cki JUPITER_VERSION { d with permit_keept_alive := b } html_time session
      = process_request ck cki JUPITER_VERSION d html_time session :=
  process_requestFuel_data ck cki JUPITER_VERSION d { d with permit_keept_alive := b }
    (fun _ _ _ => rfl) _ html_time session

theorem thinkSession_permit (ck cki : Str → Nat) (JUPITER_VERSION : Str) (d : Data)
    (b : Bool) (now : Nat) (html_time : Nat → Str) (session : HTTPSession) (recv : Recv) :
    thinkSession ck cki JUPITER_VERSION { d with permit_keept_alive := b } now html_time
        session recv
      = thinkSession ck cki JUPITER_VERSION d now html_time session recv := by
  unfold thinkSession
  simp only [process_request_permit]
  rfl

theorem thinkIncoming_permit (ck cki : Str → Nat) (JUPITER_VERSION : Str) (d : Data)
    (b : Bool) (now : Nat) (html_time : Nat → Str) (in_sock : Socket) (recv : Recv) :
    thinkIncoming ck cki JUPITER_VERSION { d with permit_keept_alive := b } now html_time
        in_sock recv
      = thinkIncoming ck cki JUPITER_VERSION d now html_time in_sock recv := by
  unfold thinkIncoming
  simp only [process_request_permit]

theorem thinkSessions_permit (ck cki : Str → Nat) (JUPITER_VERSION : Str) (d : Data)
    (b : Bool) (tick : Tick) (sessions : List HTTPSession) :
    ∀ index,
      thinkSessions ck cki JUPITER_VERSION { d with permit_keept_alive := b } tick index
          sessions
        = thinkSessions ck cki JUPITER_VERSION d tick index sessions := by
  induction sessions with
  | nil => intro _; rfl
  | cons s rest ih =>
    intro index
    rw [thinkSessions, thinkSessions, ih, thinkSession_permit]

theorem thinkPorts_permit (ck cki : Str → Nat) (JUPITER_VERSION : Str) (d : Data)
    (b : Bool) (tick : Tick) (ports : List Socket) :
    ∀ index,
      thinkPorts ck cki JUPITER_VERSION { d with permit_keept_alive := b } tick index ports
        = thinkPorts ck cki JUPITER_VERSION d tick index ports := by
  induction ports with
  | nil => intro _; rfl
  | cons p rest ih =>
    intro index
    rw [thinkPorts, thinkPorts, ih]
    simp only [thinkIncoming_permit]

/-- `Directory::hook` on a node without child directories returns exactly when the path
names no directory: it then adds the content to the node. -/
theorem hook_leaf_returns (ck cki : Str → Nat) (fuel : Nat) (d : Directory) (in_name : Str)
    (c : Content) (hd : d.directories = []) :
    (find '/' (shiftRight (span ['/'] in_name) in_name) = none →
        Directory.hook ck cki (fuel + 1) d in_name c = some (d.addContent c))
      ∧ ((find '/' (shiftRight (span ['/'] in_name) in_name)).isSome = true →
        Directory.hook ck cki fuel d in_name c = none) := by
  constructor
  · intro h
    rw [Directory.hook]
    simp only [h]
  · intro h
    obtain ⟨i, hi⟩ := Option.isSome_iff_exists.1 h
    exact hook_unmatched_no_return ck cki fuel d in_name c i hi (by rw [hd]; rfl)

/-- The body of `Data::hook` on a Host whose child directories have no child directories
returns exactly when the path handed on names no directory. -/
theorem hookHost_returns (ck cki : Str → Nat) (fuel : Nat) (host : Directory) (in_path : Str)
    (c : Content) (hf : ∀ x ∈ host.directories, x.directories = []) :
    (namesSubdirectory in_path = false →
        (Data.hookHost ck cki (fuel + 1) host in_path c).isSome = true)
      ∧ (namesSubdirectory in_path = true →
        Data.hookHost ck cki fuel host in_path c = none) := by
  unfold namesSubdirectory delegatedPath Data.hookHost
  simp only
  by_cases hp : (shiftRight (span ['/'] in_path) in_path).isEmpty = true
  · have hnil : shiftRight (span ['/'] in_path) in_path = [] := by simpa using hp
    simp only [hp, if_true, hnil]
    constructor
    · intro _
      rw [Directory.hook]
      simp [shiftRight, span, find]
    · intro h
      simp [shiftRight, span, find] at h
  · simp only [hp, if_false, Bool.false_eq_true]
    constructor
    · intro h
      have hnone : find '/' (shiftRight (span ['/'] (shiftRight (span ['/']
          (shiftRight (getToken0 '/' (shiftRight (span ['/'] in_path) in_path)).length
            (shiftRight (span ['/'] in_path) in_path)))
          (shiftRight (getToken0 '/' (shiftRight (span ['/'] in_path) in_path)).length
            (shiftRight (span ['/'] in_path) in_path))))
          (shiftRight (span ['/']
          (shiftRight (getToken0 '/' (shiftRight (span ['/'] in_path) in_path)).length
            (shiftRight (span ['/'] in_path) in_path)))
          (shiftRight (getToken0 '/' (shiftRight (span ['/'] in_path) in_path)).length
            (shiftRight (span ['/'] in_path) in_path)))) = none := by
        cases hx : find '/' _ with
        | none => rfl
        | some i => rw [hx] at h; cases h
      split
      · rename_i i t_dir he
        obtain ⟨l1, l2, hl, _, _, _⟩ := lastEntry_split _ _ _ _ he
        have hmem : t_dir ∈ host.directories := by rw [hl]; simp
        rw [(hook_leaf_returns ck cki fuel t_dir _ c (hf t_dir hmem)).1 hnone]
        rfl
      · rw [(hook_leaf_returns ck cki fuel (Directory.new cki _) _ c rfl).1 hnone]
        rfl
    · intro h
      split
      · rename_i i t_dir he
        obtain ⟨l1, l2, hl, _, _, _⟩ := lastEntry_split _ _ _ _ he
        have hmem : t_dir ∈ host.directories := by rw [hl]; simp
        rw [(hook_leaf_returns ck cki fuel t_dir _ c (hf t_dir hmem)).2 h]
        rfl
      · rw [(hook_leaf_returns ck cki fuel (Directory.new cki _) _ c rfl).2 h]
        rfl

/-- Every Host of a table built by `hook` and `remove` has the flat shape. -/
theorem reachable_flat (ck cki : Str → Nat) (t : Data) (h : Reachable ck cki t) :
    ∀ host ∈ t.hosts, host.flat := by
  induction h with
  | fresh t hf =>
    intro host hm
    unfold Data.isFresh at hf
    rw [hf] at hm
    simp only [Data.new, List.mem_singleton] at hm
    subst hm
    exact ⟨List.Pairwise.nil, by intro c hc; cases hc⟩
  | hook t t1 fuel hostname in_path c _ hh ih =>
    intro host hm
    rcases hook_hosts_body ck cki fuel t hostname in_path c t1 hh with
      ⟨l1, host0, l2, host1, hl, hl1, hb⟩ | ⟨host1, hl1, hb⟩
    · rw [hl1] at hm
      rcases List.mem_append.1 hm with hm | hm
      · exact ih host (by rw [hl]; exact List.mem_append_left _ hm)
      · rcases List.mem_cons.1 hm with rfl | hm
        · exact hookHost_flat ck cki fuel host0 in_path c host hb
            (ih host0 (by rw [hl]; simp))
        · exact ih host (by rw [hl]; exact List.mem_append_right _ (List.mem_cons_of_mem _ hm))
    · rw [hl1] at hm
      rcases List.mem_append.1 hm with hm | hm
      · exact ih host hm
      · simp only [List.mem_singleton] at hm
        subst hm
        exact hookHost_flat ck cki fuel (Directory.new cki hostname) in_path c host hb
          ⟨List.Pairwise.nil, by intro c hc; cases hc⟩
  | remove t hostname _ ih =>
    intro host hm
    apply ih host
    unfold Data.remove at hm
    split at hm
    · exact List.mem_of_mem_eraseIdx hm
    · exact hm

/-- On a table whose Hosts have the flat shape, `Data::hook` returns exactly when the path
it hands on names no directory. -/
theorem hook_returns (ck cki : Str → Nat) (fuel : Nat) (t : Data) (hostname in_path : Str)
    (c : Content) (hf : ∀ host ∈ t.hosts, host.flat) :
    (namesSubdirectory in_path = false →
        (Data.hook ck cki (fuel + 1) t hostname in_path c).isSome = true)
      ∧ (namesSubdirectory in_path = true →
        Data.hook ck cki fuel t hostname in_path c = none) := by
  unfold Data.hook
  cases he : Data.hostEntry cki t hostname with
  | some e =>
    obtain ⟨i, host⟩ := e
    have he1 := he
    rw [hostEntry_eq] at he1
    obtain ⟨l1, l2, hl, _, _, _⟩ := lastEntry_split _ _ _ _ he1
    have hmem : host ∈ t.hosts := by rw [hl]; simp
    have hr := hookHost_returns ck cki fuel host in_path c (hf host hmem).2
    constructor
    · intro h
      simp only [Option.isSome_map']
      exact hr.1 h
    · intro h
      simp only [hr.2 h, Option.map_none']
  | none =>
    have hr := hookHost_returns ck cki fuel (Directory.new cki hostname) in_path c
      (by intro x hx; cases hx)
    constructor
    · intro h
      simp only [Option.isSome_map']
      exact hr.1 h
    · intro h
      simp only [hr.2 h, Option.map_none']

/-- With a case-insensitive checksum that gives equal values to names equal ignoring
case, on a table built by `hook` and `remove` calls: a `hook` that returns has appended a
Host named `hostname` when no Host name equals `hostname` ignoring case and left the list
of Host names as it was when one does; the Host names of the resulting table are pairwise
different ignoring case, and `has` and `find_host` succeed for every name equal to
`hostname` ignoring case. -/
theorem hook_host_table (ck cki : Str → Nat)
    (hcki : ∀ a b, equalsi a b = true → cki a = cki b) (t : Data)
    (ht : Reachable ck cki t) (fuel : Nat) (hostname in_path : Str) (c : Content) (t1 : Data)
    (hhook : Data.hook ck cki fuel t hostname in_path c = some t1) :
    ((∀ host ∈ t.hosts, equalsi host.name hostname = false) →
        ∃ host1, t1.hosts = t.hosts ++ [host1] ∧ host1.name = hostname)
      ∧ ((∃ host ∈ t.hosts, equalsi host.name hostname = true) →
        t1.hosts.map Directory.name = t.hosts.map Directory.name)
      ∧ t1.hosts.Pairwise (fun a b => equalsi a.name b.name = false)
      ∧ ∀ h1, equalsi h1 hostname = true →
          Data.has cki t1 h1 = true ∧ (Data.find_host cki t1 h1).isSome = true := by
  have inv := reachable_invariant ck cki t ht
  have inv1 := hook_invariant ck cki fuel t hostname in_path c t1 hhook inv.1 inv.2
  have hshape := hook_hosts ck cki fuel t hostname in_path c t1 hhook
  refine ⟨?_, ?_, ?_, ?_⟩
  · intro hnone
    rcases hshape with ⟨l1, host, l2, host1, hl, _, hp, _, _, _⟩ | ⟨_, host1, hl1, hn, _⟩
    · have hmem : host ∈ t.hosts := by rw [hl]; simp
      rw [hostMatches_eq_equalsi cki hcki hostname host (inv.1 host hmem), hnone host hmem] at hp
      cases hp
    · exact ⟨host1, hl1, hn⟩
  · rintro ⟨host0, hmem0, he0⟩
    rcases hshape with ⟨l1, host, l2, host1, hl, hl1, _, _, hn, _⟩ | ⟨hno, _, _, _, _⟩
    · rw [hl, hl1]
      simp [hn]
    · have := hno host0 hmem0
      rw [hostMatches_eq_equalsi cki hcki hostname host0 (inv.1 host0 hmem0), he0] at this
      cases this
  · refine List.Pairwise.imp_of_mem ?_ inv1.2
    intro a b ha hb hnot
    cases he : equalsi a.name b.name with
    | false => rfl
    | true =>
      exfalso
      apply hnot
      refine ⟨?_, he⟩
      rw [inv1.1 a ha, inv1.1 b hb]
      exact hcki _ _ he
  · intro h1 hh1
    have hex : ∃ host ∈ t1.hosts, equalsi host.name hostname = true := by
      rcases hshape with ⟨l1, host, l2, host1, hl, hl1, hp, _, hn, _⟩ | ⟨_, host1, hl1, hn, _⟩
      · have hmem : host ∈ t.hosts := by rw [hl]; simp
        rw [hostMatches_eq_equalsi cki hcki hostname host (inv.1 host hmem)] at hp
        exact ⟨host1, by rw [hl1]; simp, by rw [hn]; exact hp⟩
      · exact ⟨host1, by rw [hl1]; simp, by rw [hn]; exact equalsi_refl _⟩
    obtain ⟨host, hmem, he⟩ := hex
    have hm : hostMatches cki h1 host = true := by
      rw [hostMatches_eq_equalsi cki hcki h1 host (inv1.1 host hmem)]
      exact equalsi_trans _ _ _ he (equalsi_symm _ _ hh1)
    have hsome := hostEntry_isSome cki t1 h1 host hmem hm
    refine ⟨hsome, ?_⟩
    unfold Data.find_host
    rw [Option.isSome_map']
    exact hsome

/-! ## Hashes and the rehash registry -/

theorem reference_fnv1_rev_lt (bits basis prime : Nat) (hbits : 8 ≤ bits)
    (hbasis : basis < 2 ^ bits) (l : List Nat) (hl : ∀ b ∈ l, b < 256) :
    reference_fnv1_rev bits basis prime l < 2 ^ bits := by
  cases l with
  | nil => exact hbasis
  | cons b earlier =>
    rw [reference_fnv1_rev]
    apply Nat.xor_lt_two_pow
    · exact Nat.mod_lt _ (by positivity)
    · have hb := hl b (List.mem_cons_self _ _)
      have h256 : (256 : Nat) = 2 ^ 8 := by decide
      have : 2 ^ 8 ≤ 2 ^ bits := Nat.pow_le_pow_right (by decide) hbits
      omega

theorem fnv1_32_loop_reference (data : List Nat) (hd : ∀ b ∈ data, b < 256) :
    ∀ pre : List Nat, (∀ b ∈ pre, b < 256) →
      fnv1_32_loop (reference_fnv1_rev 32 2166136261 16777619 pre.reverse) data
        = reference_fnv1_rev 32 2166136261 16777619 (pre ++ data).reverse := by
  induction data with
  | nil => intro pre _; simp [fnv1_32_loop]
  | cons b rest ih =>
    intro pre hpre
    have hb := hd b (List.mem_cons_self _ _)
    have hpre1 : ∀ x ∈ pre ++ [b], x < 256 := by
      intro x hx
      rcases List.mem_append.1 hx with hx | hx
      · exact hpre x hx
      · simp only [List.mem_singleton] at hx
        rw [hx]; exact hb
    have hstep := reference_fnv1_rev_lt 32 2166136261 16777619 (by decide) (by decide)
      (pre ++ [b]).reverse (fun x hx => hpre1 x (List.mem_reverse.1 hx))
    have hrev : (pre ++ [b]).reverse = b :: pre.reverse := by simp
    rw [hrev, reference_fnv1_rev] at hstep
    have := ih (fun x hx => hd x (List.mem_cons_of_mem _ hx)) (pre ++ [b]) hpre1
    rw [hrev, reference_fnv1_rev] at this
    have h32 : (2 : Nat) ^ 32 = 4294967296 := by norm_num
    rw [h32] at hstep this
    rw [fnv1_32_loop]
    simp only [JUPITER_FNV_1_32_PRIME, Nat.mod_eq_of_lt hb]
    rw [Nat.mod_eq_of_lt hstep, this]
    simp

theorem fnv1_loop_reference (data : List Nat) (hd : ∀ b ∈ data, b < 256) :
    ∀ pre : List Nat, (∀ b ∈ pre, b < 256) →
      fnv1_loop (reference_fnv1_rev 64 14695981039346656037 1099511628211 pre.reverse) data
        = reference_fnv1_rev 64 14695981039346656037 1099511628211 (pre ++ data).reverse := by
  induction data with
  | nil => intro pre _; simp [fnv1_loop]
  | cons b rest ih =>
    intro pre hpre
    have hb := hd b (List.mem_cons_self _ _)
    have hpre1 : ∀ x ∈ pre ++ [b], x < 256 := by
      intro x hx
      rcases List.mem_append.1 hx with hx | hx
      · exact hpre x hx
      · simp only [List.mem_singleton] at hx
        rw [hx]; exact hb
    have hstep := reference_fnv1_rev_lt 64 14695981039346656037 1099511628211 (by decide)
      (by decide) (pre ++ [b]).reverse (fun x hx => hpre1 x (List.mem_reverse.1 hx))
    have hrev : (pre ++ [b]).reverse = b :: pre.reverse := by simp
    rw [hrev, reference_fnv1_rev] at hstep
    have := ih (fun x hx => hd x (List.mem_cons_of_mem _ hx)) (pre ++ [b]) hpre1
    rw [hrev, reference_fnv1_rev] at this
    have h64 : (2 : Nat) ^ 64 = 18446744073709551616 := by norm_num
    rw [h64] at hstep this
    rw [fnv1_loop]
    simp only [JUPITER_FNV_1_64_PRIME, Nat.mod_eq_of_lt hb]
    rw [Nat.mod_eq_of_lt hstep, this]
    simp

theorem reference_fnv1a_rev_lt (bits basis prime : Nat) (hbasis : basis < 2 ^ bits)
    (l : List Nat) : reference_fnv1a_rev bits basis prime l < 2 ^ bits := by
  cases l with
  | nil => exact hbasis
  | cons b earlier =>
    rw [reference_fnv1a_rev]
    exact Nat.mod_lt _ (by positivity)

theorem xor_byte_lt (bits hash b : Nat) (hbits : 8 ≤ bits) (hh : hash < 2 ^ bits)
    (hb : b < 256) : hash ^^^ b < 2 ^ bits := by
  apply Nat.xor_lt_two_pow hh
  have : 2 ^ 8 ≤ 2 ^ bits := Nat.pow_le_pow_right (by decide) hbits
  have h256 : (256 : Nat) = 2 ^ 8 := by decide
  omega

theorem fnv1a_32_loop_reference (data : List Nat) (hd : ∀ b ∈ data, b < 256) :
    ∀ pre : List Nat,
      fnv1a_32_loop (reference_fnv1a_rev 32 2166136261 16777619 pre.reverse) data
        = reference_fnv1a_rev 32 2166136261 16777619 (pre ++ data).reverse := by
  induction data with
  | nil => intro pre; simp [fnv1a_32_loop]
  | cons b rest ih =>
    intro pre
    have hb := hd b (List.mem_cons_self _ _)
    have hlt := reference_fnv1a_rev_lt 32 2166136261 16777619 (by decide) pre.reverse
    have hx := xor_byte_lt 32 _ b (by decide) hlt hb
    have hrev : (pre ++ [b]).reverse = b :: pre.reverse := by simp
    have := ih (fun x hx => hd x (List.mem_cons_of_mem _ hx)) (pre ++ [b])
    rw [hrev, reference_fnv1a_rev] at this
    have h32 : (2 : Nat) ^ 32 = 4294967296 := by norm_num
    rw [h32] at hx this
    rw [fnv1a_32_loop]
    simp only [JUPITER_FNV_1_32_PRIME, Nat.mod_eq_of_lt hb]
    rw [Nat.mod_eq_of_lt hx, this]
    simp

theorem fnv1a_loop_reference (data : List Nat) (hd : ∀ b ∈ data, b < 256) :
    ∀ pre : List Nat,
      fnv1a_loop (reference_fnv1a_rev 64 14695981039346656037 1099511628211 pre.reverse) data
        = reference_fnv1a_rev 64 14695981039346656037 1099511628211 (pre ++ data).reverse := by
  induction data with
  | nil => intro pre; simp [fnv1a_loop]
  | cons b rest ih =>
    intro pre
    have hb := hd b (List.mem_cons_self _ _)
    have hlt := reference_fnv1a_rev_lt 64 14695981039346656037 1099511628211 (by decide)
      pre.reverse
    have hx := xor_byte_lt 64 _ b (by decide) hlt hb
    have hrev : (pre ++ [b]).reverse = b :: pre.reverse := by simp
    have := ih (fun x hx => hd x (List.mem_cons_of_mem _ hx)) (pre ++ [b])
    rw [hrev, reference_fnv1a_rev] at this
    have h64 : (2 : Nat) ^ 64 = 18446744073709551616 := by norm_num
    rw [h64] at hx this
    rw [fnv1a_loop]
    simp only [JUPITER_FNV_1_64_PRIME, Nat.mod_eq_of_lt hb]
    rw [Nat.mod_eq_of_lt hx, this]
    simp

/-- The three ways through the body of the loop of `rehash`, by the sign of what
`OnRehash` returned. -/
theorem rehashLoop_cons (node : Nat) (kept : List Rehashable) (data : Rehashable)
    (rest : List Rehashable) (total : Nat) :
    (data.OnRehash = 0 →
        rehashLoop node kept (data :: rest) total
          = { rehashLoop (node + 1) (kept ++ [data]) rest total with
              events := [RehashEvent.OnRehash node, RehashEvent.next node]
                ++ (rehashLoop (node + 1) (kept ++ [data]) rest total).events })
      ∧ (data.OnRehash < 0 →
        ∃ tail, rehashLoop node kept (data :: rest) total
          = { rehashLoop (node + 1) kept rest ((total + 1) % 4294967296) with
              events := [RehashEvent.OnRehash node, RehashEvent.next node,
                  RehashEvent.OnBadRehash node true, RehashEvent.remove node] ++ tail
                ++ (rehashLoop (node + 1) kept rest ((total + 1) % 4294967296)).events }
          ∧ (tail = [] ∨ tail = [RehashEvent.delete node]))
      ∧ (0 < data.OnRehash →
        rehashLoop node kept (data :: rest) total
          = { rehashLoop (node + 1) kept rest ((total + 1) % 4294967296) with
              events := [RehashEvent.OnRehash node, RehashEvent.remove node,
                  RehashEvent.OnBadRehash node false, RehashEvent.next node]
                ++ (rehashLoop (node + 1) kept rest ((total + 1) % 4294967296)).events }) := by
  refine ⟨?_, ?_, ?_⟩
  · intro h
    rw [rehashLoop]
    simp [h]
  · intro h
    have hne : data.OnRehash ≠ 0 := by omega
    rw [rehashLoop]
    simp only [bne_iff_ne, ne_eq, hne, not_false_eq_true, if_true, h]
    cases hb : data.OnBadRehash true with
    | true => exact ⟨[RehashEvent.delete node], by simp, Or.inr rfl⟩
    | false => exact ⟨[], by simp, Or.inl rfl⟩
  · intro h
    have hne : data.OnRehash ≠ 0 := by omega
    have hnl : ¬ data.OnRehash < 0 := by omega
    rw [rehashLoop]
    simp only [bne_iff_ne, ne_eq, hne, not_false_eq_true, if_true, hnl, if_false]

/-- What the loop of `rehash` leaves and returns, and on which nodes it calls `OnRehash`. -/
theorem rehashLoop_result (nodes : List Rehashable) :
    ∀ (node : Nat) (kept : List Rehashable) (total : Nat), total < 4294967296 →
      (rehashLoop node kept nodes total).rehashables
          = kept ++ nodes.filter (fun o => o.OnRehash == 0)
        ∧ (rehashLoop node kept nodes total).total
          = (total + (nodes.filter (fun o => o.OnRehash != 0)).length) % 4294967296
        ∧ rehashCalls (rehashLoop node kept nodes total).events
          = List.range' node nodes.length := by
  induction nodes with
  | nil =>
    intro node kept total ht
    simp [rehashLoop, rehashCalls, Nat.mod_eq_of_lt ht]
  | cons data rest ih =>
    intro node kept total ht
    obtain ⟨c0, cneg, cpos⟩ := rehashLoop_cons node kept data rest total
    have hm : (total + 1) % 4294967296 < 4294967296 := Nat.mod_lt _ (by decide)
    rcases lt_trichotomy data.OnRehash 0 with h | h | h
    · obtain ⟨tail, e, htail⟩ := cneg h
      obtain ⟨i1, i2, i3⟩ := ih (node + 1) kept ((total + 1) % 4294967296) hm
      have hne : data.OnRehash ≠ 0 := by omega
      rw [e]
      refine ⟨?_, ?_, ?_⟩
      · simp [i1, hne]
      · simp only [i2]
        simp only [List.filter_cons, bne_iff_ne, ne_eq, hne, not_false_eq_true, decide_True,
          if_true, List.length_cons]
        omega
      · rcases htail with rfl | rfl <;>
          simp [rehashCalls, i3, List.range'_succ]
    · obtain ⟨i1, i2, i3⟩ := ih (node + 1) (kept ++ [data]) total ht
      rw [c0 h]
      refine ⟨?_, ?_, ?_⟩
      · simp [i1, h]
      · simp only [i2]
        simp [List.filter_cons, h]
      · simp [rehashCalls, i3, List.range'_succ]
    · obtain ⟨i1, i2, i3⟩ := ih (node + 1) kept ((total + 1) % 4294967296) hm
      have hne : data.OnRehash ≠ 0 := by omega
      rw [cpos h]
      refine ⟨?_, ?_, ?_⟩
      · simp [i1, hne]
      · simp only [i2]
        simp only [List.filter_cons, bne_iff_ne, ne_eq, hne, not_false_eq_true, decide_True,
          if_true, List.length_cons]
        omega
      · simp [rehashCalls, i3, List.range'_succ]

/-- The objects that returned 0 and those that did not make up the registry. -/
theorem rehash_filter_lengths (nodes : List Rehashable) :
    (nodes.filter (fun o => o.OnRehash == 0)).length
        + (nodes.filter (fun o => o.OnRehash != 0)).length = nodes.length := by
  induction nodes with
  | nil => rfl
  | cons data rest ih =>
    by_cases h : data.OnRehash = 0
    · simp only [List.filter_cons, h, beq_self_eq_true, if_true, bne_self_eq_false,
        Bool.false_eq_true, if_false, List.length_cons]
      omega
    · simp only [List.filter_cons, beq_iff_eq, h, if_false, bne_iff_ne, ne_eq,
        not_false_eq_true, if_true, List.length_cons]
      omega

/-! ## The claims -/

/-- C1 (fails on the code): after `hook("example.com", "images/logo", content)` on a fresh
table, with `content` named `logo`, the lookup `find("example.com", "IMAGES/logo")`, the
hooked path with its directory segment in another letter case, returns not-found, for
every pair of checksum functions. -/
theorem C1_find_other_case_not_found (ck cki : Str → Nat) (f : Str → Str) :
    ∃ t, Data.hook ck cki 2 (Data.new cki) "example.com".toList "images/logo".toList
          (Content.new ck "logo".toList f) = some t
      ∧ Data.findIn ck cki t "example.com".toList "IMAGES/logo".toList = none := by
  refine ⟨_, hook_example ck cki f, ?_⟩
  unfold Data.findIn Data.find_host Data.hostEntry
  simp +decide [lastEntry, exampleHost, Directory.name, Directory.name_checksum, Directory.new]
  rw [directory_find_unfold]
  simp +decide [Directory.directories, Directory.name, lastMatch, shiftRight, span, find,
    substring0, List.takeWhile, equals]

/-- C2: whatever the tree and the checksum functions, a Content returned by
`Directory::find`, by `find(name)` or by `find(hostname, name)` has a name byte-for-byte
equal to the final segment of the path asked for. -/
theorem C2_find_returns_exact_name (ck cki : Str → Nat) (t : Data) (d : Directory)
    (hostname path : Str) (c : Content) :
    (Directory.find ck d path = some c → c.name = finalSegment path)
      ∧ (Data.find ck t path = some c → c.name = finalSegment path)
      ∧ (Data.findIn ck cki t hostname path = some c → c.name = finalSegment path) := by
  refine ⟨fun h => findFuel_name ck _ d path c h, fun h => ?_, fun h => ?_⟩
  · unfold Data.find at h
    cases hh : t.hosts with
    | nil => rw [hh] at h; simp at h
    | cons host rest =>
      rw [hh] at h
      exact findFuel_name ck _ host path c h
  · unfold Data.findIn at h
    cases hh : Data.find_host cki t hostname with
    | none => rw [hh] at h; simp at h
    | some host =>
      rw [hh] at h
      exact findFuel_name ck _ host path c h

/-- C2 at a concrete input: the stored names `logo` and `olog` share the byte-sum checksum
and the requested leaf is `logo`; the Content found is the one named `logo`. -/
theorem C2_find_returns_exact_name_witness :
    Directory.find calcChecksum
        (Directory.mk [] 0 []
          [Content.new calcChecksum "logo".toList (constantHandler []),
           Content.new calcChecksum "olog".toList (constantHandler [])])
        "/logo".toList
      = some (Content.new calcChecksum "logo".toList (constantHandler []))
    ∧ (Content.new calcChecksum "logo".toList (constantHandler [])).name
      = finalSegment "/logo".toList :=
  ⟨rfl, (C2_find_returns_exact_name calcChecksum calcChecksumi (Data.new calcChecksumi)
      (Directory.mk [] 0 []
        [Content.new calcChecksum "logo".toList (constantHandler []),
         Content.new calcChecksum "olog".toList (constantHandler [])])
      [] "/logo".toList (Content.new calcChecksum "logo".toList (constantHandler []))).1 rfl⟩

/-- C3 (fails on the code): with a Content `a` answering `GLOBAL` in the global namespace
and another Content `a` answering `EXAMPLE` under the Host `example.com`, the request
`GET /a HTTP/1.0` with the header `Host: example.com` makes `find("example.com", "/a")`
resolve the `EXAMPLE` Content and `session.host` designate `example.com`, yet the response
sent carries the body `GLOBAL`: the target was looked up in the global namespace. -/
theorem C3_host_header_served_from_global :
    twoHostsTable.bind (fun t =>
        (process_request calcChecksum calcChecksumi "Jupiter".toList t exampleTime
          (freshSession "GET /a HTTP/1.0\r\nHost: example.com\r\n\r\n".toList)).map
        (fun s =>
          ((Data.findIn calcChecksum calcChecksumi t "example.com".toList "/a".toList).map
              (fun c => c.execute []),
           s.host.map (fun h => h.name),
           s.sock.sent)))
      = some (some "EXAMPLE".toList, some "example.com".toList,
          ["HTTP/1.0 200 OK\r\nDate: \r\nMon, 05 Oct 2015 01:50:08 GMTServer: Jupiter\r\nContent-Length: 6\r\nConnection: close\r\nContent-Type: text/plain\r\n\r\n\r\nGLOBAL".toList]) := by
  decide

/-- C4 (fails on the code): on a fresh table the complete request `GET /missing HTTP/1.0`
resolves no Content and `process_request` returns having sent nothing, whatever the
checksum functions, the version string and the clock. -/
theorem C4_routing_miss_sends_nothing (ck cki : Str → Nat) (JUPITER_VERSION : Str)
    (html_time : Nat → Str) :
    (process_request ck cki JUPITER_VERSION (Data.new cki) html_time
        (freshSession "GET /missing HTTP/1.0\r\n\r\n".toList)).map (fun s => s.sock.sent)
      = some [] := by
  rfl

/-- C5, as the code has it: a buffer made of two complete requests `GET target HTTP/1.1`, each target
resolving a Content and each with any number of header lines that do not start with a
space and whose first space-delimited token ends with a colon, makes a single call of
`process_request` return having sent exactly two responses, the answer to the first
request and then the answer to the second, with the request buffer empty and the session
keep-alive. -/
theorem C5_two_pipelined_requests (ck cki : Str → Nat) (JUPITER_VERSION : Str) (d : Data)
    (html_time : Nat → Str) (session : HTTPSession)
    (t1 t2 : Str) (hs1 hs2 : List Str) (c1 c2 : Content)
    (ht1 : isTarget t1 = true) (ht2 : isTarget t2 = true)
    (hh1 : ∀ l ∈ hs1, isHeaderLine l = true) (hh2 : ∀ l ∈ hs2, isHeaderLine l = true)
    (hc1 : Data.find ck d (targetPath t1) = some c1)
    (hc2 : Data.find ck d (targetPath t2) = some c2)
    (hreq : session.request = getRequest11 t1 hs1 ++ getRequest11 t2 hs2) :
    ∃ session1, process_request ck cki JUPITER_VERSION d html_time session = some session1
      ∧ session1.sock.sent = session.sock.sent ++
          [response JUPITER_VERSION (html_time 0) HTTPVersion.HTTP_1_1 HTTPCommand.GET c1
             (targetParameters t1),
           response JUPITER_VERSION (html_time 1) HTTPVersion.HTTP_1_1 HTTPCommand.GET c2
             (targetParameters t2)]
      ∧ session1.request = []
      ∧ session1.keep_alive = true := by
  have hlen : session.request.length + 1 = (session.request.length - 1 + 1) + 1 := by
    have := getRequest11_length_pos t1 hs1
    rw [hreq, List.length_append]
    omega
  unfold process_request
  rw [hlen]
  obtain ⟨host1, e1⟩ := process_get11_step ck cki JUPITER_VERSION d t1 ht1 hs1 hh1 c1 hc1
    (getRequest11 t2 hs2) session (by rw [hreq]; rfl) (session.request.length - 1 + 1) html_time
  rw [e1, getRequest11_ending, if_pos rfl]
  obtain ⟨host2, e2⟩ := process_get11_step ck cki JUPITER_VERSION d t2 ht2 hs2 hh2 c2 hc2 []
    { session with
      request := getRequest11 t2 hs2, version := HTTPVersion.HTTP_1_1, keep_alive := true,
      host := host1,
      sock := { sent := session.sock.sent ++
        [response JUPITER_VERSION (html_time 0) HTTPVersion.HTTP_1_1 HTTPCommand.GET c1
          (targetParameters t1)] } }
    (by simp [getRequest11]) (session.request.length - 1) (fun j => html_time (j + 1))
  rw [e2]
  refine ⟨_, by simp [findStr, HTTP_REQUEST_ENDING]; rfl, ?_, rfl, rfl⟩
  simp

/-- C5 at a concrete input: `GET /a` with a Host header followed by `GET /b?x=1`, on the
table holding `pageA` and `pageB`. -/
theorem C5_two_pipelined_requests_witness :
    ∃ session1,
      process_request calcChecksum calcChecksumi "Jupiter".toList pagesTable exampleTime
          (freshSession (getRequest11 "/a".toList ["Host: example.com".toList]
            ++ getRequest11 "/b?x=1".toList []))
        = some session1
      ∧ session1.sock.sent = (freshSession (getRequest11 "/a".toList ["Host: example.com".toList]
            ++ getRequest11 "/b?x=1".toList [])).sock.sent ++
          [response "Jupiter".toList (exampleTime 0) HTTPVersion.HTTP_1_1 HTTPCommand.GET pageA
             (targetParameters "/a".toList),
           response "Jupiter".toList (exampleTime 1) HTTPVersion.HTTP_1_1 HTTPCommand.GET pageB
             (targetParameters "/b?x=1".toList)]
      ∧ session1.request = []
      ∧ session1.keep_alive = true :=
  C5_two_pipelined_requests calcChecksum calcChecksumi "Jupiter".toList pagesTable exampleTime
    (freshSession (getRequest11 "/a".toList ["Host: example.com".toList]
      ++ getRequest11 "/b?x=1".toList []))
    "/a".toList "/b?x=1".toList ["Host: example.com".toList] [] pageA pageB
    (by decide) (by decide) (by decide) (by decide) rfl rfl rfl

/-- C5 fails as stated: the buffer holding `GET /a HTTP/1.1` with the header `Host:x` and
then `GET /b HTTP/1.1` is two complete HTTP/1.1 GET requests back to back whose targets
both resolve a Content of `pagesTable`, yet a single call of `process_request` sends one
response only, the answer to the second request. The line `Host:x` has a first
space-delimited token that does not end with a colon, so it is taken for a request line
with an unknown method and the first request is not answered. -/
theorem C5_counterexample :
    Data.find calcChecksum pagesTable (targetPath "/a".toList) = some pageA
      ∧ Data.find calcChecksum pagesTable (targetPath "/b".toList) = some pageB
      ∧ (process_request calcChecksum calcChecksumi "Jupiter".toList pagesTable exampleTime
          (freshSession
            "GET /a HTTP/1.1\r\nHost:x\r\n\r\nGET /b HTTP/1.1\r\n\r\n".toList)).map
          (fun s => (s.sock.sent, s.request, s.keep_alive))
        = some ([response "Jupiter".toList (exampleTime 1) HTTPVersion.HTTP_1_1
                  HTTPCommand.GET pageB []], [], true) := by
  refine ⟨rfl, rfl, ?_⟩
  decide

/-- C6: bytes `B1 ++ B2` within `max_request_size`, both parts non-empty and `B1` not
completing a request. (1) A connection whose first read delivers `B1` is retained; when a
later tick, before any timeout, reads `B2`, the session ends with the same fate, the same
responses sent, the same version and keep-alive flag as a connection whose first read
delivers `B1 ++ B2`, and with the same request buffer whenever the session stays or the
request was processed. (2) A session already in the list that reads `B1` in one tick is
retained, and reading `B2` in a later tick has exactly the outcome of reading `B1 ++ B2`
in that tick. -/
theorem C6_split_delivery_same_outcome (ck cki : Str → Nat) (JUPITER_VERSION : Str) (d : Data)
    (html_time : Nat → Str) (in_sock : Socket) (session : HTTPSession) (now1 now2 : Nat)
    (B1 B2 : Str)
    (h1 : B1 ≠ []) (h2 : B2 ≠ [])
    (hsize : session.request.length + (B1 ++ B2).length ≤ d.max_request_size)
    (hno : findStr HTTP_REQUEST_ENDING B1 = none)
    (hno2 : findStr HTTP_REQUEST_ENDING (session.request ++ B1) = none)
    (hka : now2 ≤ now1 + d.keep_alive_session_timeout)
    (hst : now2 ≤ now1 + d.session_timeout)
    (hev1 : evicts d now1 session = false) (hev2 : evicts d now2 session = false) :
    (∃ s1 oA oB,
      thinkIncoming ck cki JUPITER_VERSION d now1 html_time in_sock (Recv.data B1)
          = some { session := s1, fate := Fate.retained }
        ∧ thinkSession ck cki JUPITER_VERSION d now2 html_time s1 (Recv.data B2) = some oA
        ∧ thinkIncoming ck cki JUPITER_VERSION d now1 html_time in_sock (Recv.data (B1 ++ B2))
            = some oB
        ∧ oA.fate = oB.fate
        ∧ oA.session.sock.sent = oB.session.sock.sent
        ∧ oA.session.version = oB.session.version
        ∧ oA.session.keep_alive = oB.session.keep_alive
        ∧ (oA.fate = Fate.retained ∨ (findStr HTTP_REQUEST_ENDING (B1 ++ B2)).isSome = true →
            oA.session.request = oB.session.request))
    ∧ thinkSession ck cki JUPITER_VERSION d now1 html_time session (Recv.data B1)
        = some { session := { session with request := session.request ++ B1 },
                 fate := Fate.retained }
    ∧ (thinkSession ck cki JUPITER_VERSION d now2 html_time
          { session with request := session.request ++ B1 } (Recv.data B2)
        = thinkSession ck cki JUPITER_VERSION d now2 html_time session
            (Recv.data (B1 ++ B2)))
    ∧ (thinkSession ck cki JUPITER_VERSION d now2 html_time session
          (Recv.data (B1 ++ B2))).isSome = true := by
  have l2 : 0 < B2.length := List.length_pos.2 h2
  have hlen : (B1 ++ B2).length = B1.length + B2.length := List.length_append _ _
  refine ⟨split_delivery_at_accept ck cki JUPITER_VERSION d html_time in_sock now1 now2 B1 B2
      h1 h2 (by omega) hno hka hst,
    thinkSession_partial ck cki JUPITER_VERSION d now1 html_time session B1 h1 (by omega) hno2
      hev1,
    thinkSession_append ck cki JUPITER_VERSION d now2 html_time session B1 B2 h2 hsize hev2, ?_⟩
  have r3 : (Recv.data (B1 ++ B2)).ret > 0 := by
    have : (0 : Int) < ((B1 ++ B2).length : Int) := by
      rw [hlen]
      exact_mod_cast (by omega : 0 < B1.length + B2.length)
    exact this
  have hb3 : (Recv.data (B1 ++ B2)).buffer = B1 ++ B2 := rfl
  unfold thinkSession
  simp only [hev2, Bool.false_eq_true, if_false, r3, if_true, hb3, hsize]
  split
  · rw [Option.isSome_map']
    exact process_request_isSome _ _ _ _ _ _
  · split <;> rfl

/-- C6 at a concrete input: `GET /a HTTP/1.0` split inside the protocol word, on a fresh
connection and on a session whose buffer is still empty. -/
theorem C6_split_delivery_same_outcome_witness :
    (∃ s1 oA oB,
      thinkIncoming calcChecksum calcChecksumi "Jupiter".toList pagesTable 0 exampleTime
          { sent := [] } (Recv.data "GET /a HT".toList)
          = some { session := s1, fate := Fate.retained }
        ∧ thinkSession calcChecksum calcChecksumi "Jupiter".toList pagesTable 10 exampleTime s1
            (Recv.data "TP/1.0\r\n\r\n".toList) = some oA
        ∧ thinkIncoming calcChecksum calcChecksumi "Jupiter".toList pagesTable 0 exampleTime
            { sent := [] } (Recv.data ("GET /a HT".toList ++ "TP/1.0\r\n\r\n".toList))
            = some oB
        ∧ oA.fate = oB.fate
        ∧ oA.session.sock.sent = oB.session.sock.sent
        ∧ oA.session.version = oB.session.version
        ∧ oA.session.keep_alive = oB.session.keep_alive
        ∧ (oA.fate = Fate.retained
            ∨ (findStr HTTP_REQUEST_ENDING
                ("GET /a HT".toList ++ "TP/1.0\r\n\r\n".toList)).isSome = true →
            oA.session.request = oB.session.request))
    ∧ thinkSession calcChecksum calcChecksumi "Jupiter".toList pagesTable 0 exampleTime
        (freshSession []) (Recv.data "GET /a HT".toList)
        = some { session := { freshSession [] with
                               request := (freshSession []).request ++ "GET /a HT".toList },
                 fate := Fate.retained }
    ∧ (thinkSession calcChecksum calcChecksumi "Jupiter".toList pagesTable 10 exampleTime
          { freshSession [] with request := (freshSession []).request ++ "GET /a HT".toList }
          (Recv.data "TP/1.0\r\n\r\n".toList)
        = thinkSession calcChecksum calcChecksumi "Jupiter".toList pagesTable 10 exampleTime
            (freshSession []) (Recv.data ("GET /a HT".toList ++ "TP/1.0\r\n\r\n".toList)))
    ∧ (thinkSession calcChecksum calcChecksumi "Jupiter".toList pagesTable 10 exampleTime
          (freshSession []) (Recv.data ("GET /a HT".toList ++ "TP/1.0\r\n\r\n".toList))).isSome
        = true :=
  C6_split_delivery_same_outcome calcChecksum calcChecksumi "Jupiter".toList pagesTable
    exampleTime { sent := [] } (freshSession []) 0 10 "GET /a HT".toList
    "TP/1.0\r\n\r\n".toList
    (by decide) (by decide) (by decide) (by decide) (by decide) (by decide) (by decide)
    (by decide) (by decide)

/-- C7 (fails on the code): for `GET /a HTTP/1.0` resolving a Content without language
whose handler answers `BODY`, the bytes sent have the timestamp after the CR LF that ends
`Date: `, run straight into `Server:`, and put CR LF CR LF CR LF before the body: what
follows the first CR LF CR LF is CR LF and the body, six bytes against a Content-Length
of 4. For the same Content with the language `en` the response text holds the line
`Content-Languageen`, without colon and space. -/
theorem C7_response_bytes :
    (Data.hook calcChecksum calcChecksumi 2 (Data.new calcChecksumi) [] []
        (Content.new calcChecksum "a".toList (constantHandler "BODY".toList))).bind
      (fun t => (process_request calcChecksum calcChecksumi "Jupiter".toList t exampleTime
        (freshSession "GET /a HTTP/1.0\r\n\r\n".toList)).map (fun s => s.sock.sent))
      = some ["HTTP/1.0 200 OK\r\nDate: \r\nMon, 05 Oct 2015 01:50:08 GMTServer: Jupiter\r\nContent-Length: 4\r\nConnection: close\r\nContent-Type: text/plain\r\n\r\n\r\nBODY".toList]
    ∧ response "Jupiter".toList (exampleTime 0) HTTPVersion.HTTP_1_0 HTTPCommand.GET
        { Content.new calcChecksum "a".toList (constantHandler "BODY".toList) with
          language := some "en".toList } []
      = "HTTP/1.0 200 OK\r\nDate: \r\nMon, 05 Oct 2015 01:50:08 GMTServer: Jupiter\r\nContent-Length: 4\r\nConnection: close\r\nContent-Type: text/plain\r\nContent-Languageen\r\n\r\nBODY".toList := by
  decide

/-- C8: for every table, session (whatever its version), clock and header lines, and
every rest of the request line whose target resolves a Content: the buffer holding the
request `HEAD rest` and the buffer holding `GET rest` both make `process_request` return,
with the same session version and keep-alive flag; the HEAD run sends one response, the
GET run sends that same text followed by the handler's body; the text holds the
Content-Length line of that body, whose value is the decimal length of the body when that
length fits the 32 bits `%u` prints. -/
theorem C8_head_is_get_without_body (ck cki : Str → Nat) (JUPITER_VERSION : Str) (d : Data)
    (html_time : Nat → Str) (rest : Str) (hs : List Str) (session : HTTPSession) (c : Content)
    (hr : ∀ x ∈ rest, x ≠ '\r')
    (hh : ∀ l ∈ hs, isHeaderLine l = true)
    (hc : Data.find ck d (targetPath (getWord 0 [' '] rest)) = some c) :
    ∃ sG sH,
      process_request ck cki JUPITER_VERSION d html_time
          { session with request := unlines (("GET ".toList ++ rest) :: hs) ++ ENDL } = some sG
      ∧ process_request ck cki JUPITER_VERSION d html_time
          { session with request := unlines (("HEAD ".toList ++ rest) :: hs) ++ ENDL } = some sH
      ∧ sG.version = sH.version
      ∧ sG.keep_alive = sH.keep_alive
      ∧ sH.sock.sent = session.sock.sent ++
          [response JUPITER_VERSION (html_time 0) sH.version HTTPCommand.HEAD c
            (targetParameters (getWord 0 [' '] rest))]
      ∧ sG.sock.sent = session.sock.sent ++
          [response JUPITER_VERSION (html_time 0) sH.version HTTPCommand.HEAD c
              (targetParameters (getWord 0 [' '] rest))
            ++ c.execute (targetParameters (getWord 0 [' '] rest))]
      ∧ (∃ pre post,
          response JUPITER_VERSION (html_time 0) sH.version HTTPCommand.HEAD c
              (targetParameters (getWord 0 [' '] rest))
            = pre ++ formatContentLength
                (c.execute (targetParameters (getWord 0 [' '] rest))).length ++ post)
      ∧ ((c.execute (targetParameters (getWord 0 [' '] rest))).length < 4294967296 →
          formatContentLength (c.execute (targetParameters (getWord 0 [' '] rest))).length
            = "Content-Length: ".toList
                ++ (Nat.repr (c.execute (targetParameters (getWord 0 [' '] rest))).length).toList
                ++ ENDL) := by
  have hg : "GET ".toList ++ rest = "GET".toList ++ ' ' :: rest := by simp
  have hhd : "HEAD ".toList ++ rest = "HEAD".toList ++ ' ' :: rest := by simp
  obtain ⟨g1, g2, g3⟩ := methodLine_facts "GET".toList rest (by decide) (by decide) (by decide) hr
  obtain ⟨k1, k2, k3⟩ := methodLine_facts "HEAD".toList rest (by decide) (by decide) (by decide) hr
  rw [← hg] at g1 g2 g3
  rw [← hhd] at k1 k2 k3
  have eG := process_single_request ck cki JUPITER_VERSION d ("GET ".toList ++ rest) g1 g2 g3 hs hh
    { session with request := unlines (("GET ".toList ++ rest) :: hs) ++ ENDL } rfl html_time
  have eH := process_single_request ck cki JUPITER_VERSION d ("HEAD ".toList ++ rest) k1 k2 k3 hs hh
    { session with request := unlines (("HEAD ".toList ++ rest) :: hs) ++ ENDL } rfl html_time
  have wG : ({ session with request := unlines (("GET ".toList ++ rest) :: hs) ++ ENDL }
      : HTTPSession) = session.withRequest (unlines (("GET ".toList ++ rest) :: hs) ++ ENDL) := rfl
  have wH : ({ session with request := unlines (("HEAD ".toList ++ rest) :: hs) ++ ENDL }
      : HTTPSession) = session.withRequest (unlines (("HEAD ".toList ++ rest) :: hs) ++ ENDL) := rfl
  have w1 : getWord 1 [' '] ("GET ".toList ++ rest) = getWord 0 [' '] rest := by
    rw [hg, getWord_succ_word 0 _ _ (by decide) (by decide)]
  have lG : (requestLine ck d HTTPCommand.GET ("GET ".toList ++ rest) session).1
      = { command := HTTPCommand.GET, content := some c,
          content_parameters := targetParameters (getWord 0 [' '] rest) } := by
    rw [requestLine_locals, w1, hc]
  have lH : (requestLine ck d HTTPCommand.HEAD ("GET ".toList ++ rest) session).1
      = { command := HTTPCommand.HEAD, content := some c,
          content_parameters := targetParameters (getWord 0 [' '] rest) } := by
    rw [requestLine_locals, w1, hc]
  obtain ⟨_, _, o3⟩ := requestLine_other_command ck d HTTPCommand.HEAD HTTPCommand.GET
    ("GET ".toList ++ rest) session
  rw [wG, processLine_withRequest, processLine_GET, afterHeaders_withRequest, lG] at eG
  rw [wH, processLine_withRequest, processLine_HEAD, afterHeaders_withRequest, lH, o3] at eH
  rw [wG, wH, eG, eH]
  have hA : (afterHeaders ck cki d hs
      (requestLine ck d HTTPCommand.GET ("GET ".toList ++ rest) session).2).sock
      = session.sock := by
    rw [afterHeaders_sock, requestLine_sock]
  generalize afterHeaders ck cki d hs
    (requestLine ck d HTTPCommand.GET ("GET ".toList ++ rest) session).2 = A at hA ⊢
  have fG := finishRequest_fields (respond JUPITER_VERSION (html_time 0)
    { command := HTTPCommand.GET, content := some c,
      content_parameters := targetParameters (getWord 0 [' '] rest) }
    (A.withRequest (unlines (("GET ".toList ++ rest) :: hs) ++ ENDL))).1
  have fH := finishRequest_fields (respond JUPITER_VERSION (html_time 0)
    { command := HTTPCommand.HEAD, content := some c,
      content_parameters := targetParameters (getWord 0 [' '] rest) }
    (A.withRequest (unlines (("HEAD ".toList ++ rest) :: hs) ++ ENDL))).1
  refine ⟨_, _, rfl, rfl, ?_, ?_, ?_, ?_, response_HEAD_contentLength _ _ _ _ _,
    formatContentLength_small _⟩
  · rw [fG.2.1, fH.2.1]
    rfl
  · rw [fG.2.2, fH.2.2]
    rfl
  · rw [fH.1, fH.2.1]
    simp [respond, HTTPSession.send, HTTPSession.withRequest, hA]
  · rw [fG.1, fH.2.1]
    simp [respond, HTTPSession.send, HTTPSession.withRequest, hA, response_GET_eq]

/-- C8 at a concrete input: `GET /a?x HTTP/1.1` and `HEAD /a?x HTTP/1.1`, each with a Host
header, on the table holding `pageA`. -/
theorem C8_head_is_get_without_body_witness :
    ∃ sG sH,
      process_request calcChecksum calcChecksumi "Jupiter".toList pagesTable exampleTime
          { freshSession [] with
            request := unlines (("GET ".toList ++ "/a?x HTTP/1.1".toList)
              :: ["Host: example.com".toList]) ++ ENDL } = some sG
      ∧ process_request calcChecksum calcChecksumi "Jupiter".toList pagesTable exampleTime
          { freshSession [] with
            request := unlines (("HEAD ".toList ++ "/a?x HTTP/1.1".toList)
              :: ["Host: example.com".toList]) ++ ENDL } = some sH
      ∧ sG.version = sH.version
      ∧ sG.keep_alive = sH.keep_alive
      ∧ sH.sock.sent = (freshSession []).sock.sent ++
          [response "Jupiter".toList (exampleTime 0) sH.version HTTPCommand.HEAD pageA
            (targetParameters (getWord 0 [' '] "/a?x HTTP/1.1".toList))]
      ∧ sG.sock.sent = (freshSession []).sock.sent ++
          [response "Jupiter".toList (exampleTime 0) sH.version HTTPCommand.HEAD pageA
              (targetParameters (getWord 0 [' '] "/a?x HTTP/1.1".toList))
            ++ pageA.execute (targetParameters (getWord 0 [' '] "/a?x HTTP/1.1".toList))]
      ∧ (∃ pre post,
          response "Jupiter".toList (exampleTime 0) sH.version HTTPCommand.HEAD pageA
              (targetParameters (getWord 0 [' '] "/a?x HTTP/1.1".toList))
            = pre ++ formatContentLength
                (pageA.execute (targetParameters (getWord 0 [' '] "/a?x HTTP/1.1".toList))).length
              ++ post)
      ∧ ((pageA.execute (targetParameters (getWord 0 [' '] "/a?x HTTP/1.1".toList))).length
            < 4294967296 →
          formatContentLength
              (pageA.execute (targetParameters (getWord 0 [' '] "/a?x HTTP/1.1".toList))).length
            = "Content-Length: ".toList
                ++ (Nat.repr (pageA.execute
                      (targetParameters (getWord 0 [' '] "/a?x HTTP/1.1".toList))).length).toList
                ++ ENDL) :=
  C8_head_is_get_without_body calcChecksum calcChecksumi "Jupiter".toList pagesTable exampleTime
    "/a?x HTTP/1.1".toList ["Host: example.com".toList] (freshSession []) pageA
    (by decide) (by decide) rfl

/-- C9 (fails on the code): `Directory::hook` on a node without children and the
two-segment path `a/b` returns for no amount of fuel: the loop at `directory_add_loop`
is entered with the remaining path `/b` and never advances it. -/
theorem C9_hook_two_segments_no_return (ck cki : Str → Nat) (fuel : Nat) (name : Str)
    (c : Content) :
    Directory.hook ck cki fuel (Directory.new cki name) "a/b".toList c = none := by
  cases fuel with
  | zero => rfl
  | succ fuel =>
    have h1 : shiftRight (span ['/'] "a/b".toList) "a/b".toList = "a/b".toList := by decide
    have h2 : find '/' "a/b".toList = some 1 := by decide
    simp only [Directory.hook, h1, h2]
    simp [Directory.new, Directory.directories, lastEntry, substring0, shiftRight,
      directory_add_loop_slash]

/-- C10 (fails on the code): a directory with a child directory `images` holding a
Content `logo` answers not-found to `find("IMAGES/logo")`, for every pair of checksum
functions: the directory segment is compared with the case-sensitive `equals`. -/
theorem C10_find_directory_other_case (ck cki : Str → Nat) (f : Str → Str) :
    Directory.find ck
        (Directory.mk [] (cki [])
          [Directory.mk "images".toList (cki "images".toList) []
            [Content.new ck "logo".toList f]] [])
        "IMAGES/logo".toList
      = none := by
  rw [directory_find_unfold]
  simp +decide [Directory.directories, Directory.name, lastMatch, shiftRight, span, find,
    substring0, List.takeWhile, equals]

/-- C11: on a node whose only child directory is `Images`, the table-level `hook` of
`images/x` descends into `Images` and leaves the node with its one child, as the claim
says; `Directory::hook` of the same path on the same node compares the segment with the
case-sensitive `equals`, finds no child and never returns. -/
theorem C11_directory_hook_other_case_no_descent (ck cki : Str → Nat) (c : Content) :
    Data.hookHost ck cki 2 (imagesNode cki) "images/x".toList c
        = some (imagesNodeHooked cki c)
      ∧ (imagesNodeHooked cki c).directories.length = (imagesNode cki).directories.length
      ∧ equalsi "Images".toList "images".toList = true
      ∧ ∀ fuel, Directory.hook ck cki fuel (imagesNode cki) "images/x".toList c = none := by
  refine ⟨rfl, rfl, by decide, ?_⟩
  intro fuel
  apply hook_unmatched_no_return ck cki fuel (imagesNode cki) "images/x".toList c 6
  · decide
  · simp +decide [imagesNode, Directory.directories, Directory.new, lastEntry, Directory.name,
      equals, shiftRight, span, substring0]

/-- C12: `hook(hostname, path, content)` with a path that is empty or made of `'/'` only
adds the content to the Host twice, once by `host->content.add` and once more by the
closing `dir->hook(path, in_content)`: the content collection grows by two entries, not
one; no directory is created. On a fresh table the global Host ends with the content
list `[content, content]`. -/
theorem C12_empty_path_adds_content_twice (ck cki : Str → Nat) (fuel k : Nat) (c : Content) :
    (∀ host : Directory,
        (Data.hookHost ck cki (fuel + 1) host (List.replicate k '/') c).map
            (fun host1 => (host1.content, host1.directories))
          = some (host.content ++ [c, c], host.directories))
      ∧ Data.hook ck cki (fuel + 1) (Data.new cki) global_namespace (List.replicate k '/') c
          = some { Data.new cki with
              hosts := [Directory.mk global_namespace (cki global_namespace) [] [c, c]] } := by
  constructor
  · intro host
    rw [hookHost_slashes]
    simp [Directory.addContent, Directory.content, Directory.directories, Directory.name,
      Directory.name_checksum]
  · unfold Data.hook
    have he : Data.hostEntry cki (Data.new cki) global_namespace
        = some (0, Directory.new cki global_namespace) := by
      simp [Data.hostEntry, Data.new, lastEntry, Directory.new, Directory.name_checksum,
        Directory.name, equalsi_refl]
    rw [he]
    simp only [hookHost_slashes, Option.map_some']
    rfl

/-- C13 (fails on the code): assume `calcChecksumi` gives equal values to names equal
ignoring case, and take any table built from a fresh one by `hook` and `remove` calls.
A `hook(hostname, path, content)` whose path, once `Data::hook` has taken its first
segment, still names a directory never returns, so there is no table afterwards in which
`has` and `find_host` could succeed: `hook(hostname, "a/b/c", content)` on a fresh table
is such a call, for every hostname. Every other `hook` call returns, and then it has
appended a Host named `hostname` when no Host name equals `hostname` ignoring case, left
the list of Host names as it was when one does, no two Hosts of the resulting table have
names equal ignoring case, and `has(h1)` and `find_host(h1)` succeed for every `h1` equal
to `hostname` ignoring case. -/
theorem C13_hook_with_directories_never_returns (ck cki : Str → Nat)
    (hcki : ∀ a b, equalsi a b = true → cki a = cki b) (t : Data)
    (ht : Reachable ck cki t) (fuel : Nat) (hostname in_path : Str) (c : Content) :
    (namesSubdirectory in_path = true →
        Data.hook ck cki fuel t hostname in_path c = none)
      ∧ (namesSubdirectory in_path = false →
        ∃ t1, Data.hook ck cki (fuel + 1) t hostname in_path c = some t1
          ∧ ((∀ host ∈ t.hosts, equalsi host.name hostname = false) →
              ∃ host1, t1.hosts = t.hosts ++ [host1] ∧ host1.name = hostname)
          ∧ ((∃ host ∈ t.hosts, equalsi host.name hostname = true) →
              t1.hosts.map Directory.name = t.hosts.map Directory.name)
          ∧ t1.hosts.Pairwise (fun a b => equalsi a.name b.name = false)
          ∧ ∀ h1, equalsi h1 hostname = true →
              Data.has cki t1 h1 = true ∧ (Data.find_host cki t1 h1).isSome = true)
      ∧ namesSubdirectory "a/b/c".toList = true
      ∧ Data.hook ck cki fuel (Data.new cki) hostname "a/b/c".toList c = none := by
  have hr := hook_returns ck cki fuel t hostname in_path c (reachable_flat ck cki t ht)
  refine ⟨hr.2, ?_, by decide, ?_⟩
  · intro hflat
    obtain ⟨t1, ht1⟩ := Option.isSome_iff_exists.1 (hr.1 hflat)
    exact ⟨t1, ht1, hook_host_table ck cki hcki t ht (fuel + 1) hostname in_path c t1 ht1⟩
  · exact (hook_returns ck cki fuel (Data.new cki) hostname "a/b/c".toList c
      (reachable_flat ck cki (Data.new cki) (Reachable.fresh _ rfl))).2 (by decide)

/-- C13 at a concrete input, with the byte-sum checksums on a fresh table:
`hook("Example.com", "a/b/c", examplePage)` has not returned after any number of steps,
here 100, while `hook("Example.com", "", examplePage)` returns and leaves a Host that
answers to `example.COM`. -/
theorem C13_hook_with_directories_never_returns_witness :
    (∀ a b, equalsi a b = true → calcChecksumi a = calcChecksumi b)
      ∧ namesSubdirectory "a/b/c".toList = true
      ∧ Data.hook calcChecksum calcChecksumi 100 (Data.new calcChecksumi)
          "Example.com".toList "a/b/c".toList examplePage = none
      ∧ Data.hook calcChecksum calcChecksumi 2 (Data.new calcChecksumi) "Example.com".toList []
          examplePage = some exampleComTable
      ∧ Data.has calcChecksumi exampleComTable "example.COM".toList = true
      ∧ ∃ t1, Data.hook calcChecksum calcChecksumi (1 + 1) (Data.new calcChecksumi)
            "Example.com".toList [] examplePage = some t1
          ∧ ((∀ host ∈ (Data.new calcChecksumi).hosts,
                equalsi host.name "Example.com".toList = false) →
              ∃ host1, t1.hosts = (Data.new calcChecksumi).hosts ++ [host1]
                ∧ host1.name = "Example.com".toList)
          ∧ ((∃ host ∈ (Data.new calcChecksumi).hosts,
                equalsi host.name "Example.com".toList = true) →
              t1.hosts.map Directory.name = (Data.new calcChecksumi).hosts.map Directory.name)
          ∧ t1.hosts.Pairwise (fun a b => equalsi a.name b.name = false)
          ∧ ∀ h1, equalsi h1 "Example.com".toList = true →
              Data.has calcChecksumi t1 h1 = true
                ∧ (Data.find_host calcChecksumi t1 h1).isSome = true :=
  ⟨calcChecksumi_equalsi, by decide,
    (C13_hook_with_directories_never_returns calcChecksum calcChecksumi calcChecksumi_equalsi
      (Data.new calcChecksumi) (Reachable.fresh _ rfl) 100 "Example.com".toList
      "a/b/c".toList examplePage).1 (by decide),
    rfl, by decide,
    (C13_hook_with_directories_never_returns calcChecksum calcChecksumi calcChecksumi_equalsi
      (Data.new calcChecksumi) (Reachable.fresh _ rfl) 1 "Example.com".toList
      [] examplePage).2.1 (by decide)⟩

/-- C14: on a fresh table `remove("")` finds the global-namespace Host, the Host with the
empty name the constructor put at index 0, returns true and takes it out of the host
list, which is left empty: `remove` has no guard for index 0. Afterwards the
single-argument `find` has no Host to ask and `has("")` is false. -/
theorem C14_remove_empty_name_removes_global (ck cki : Str → Nat) (name : Str) :
    (Data.new cki).hosts = [Directory.new cki global_namespace]
      ∧ Data.remove cki (Data.new cki) global_namespace
          = (true, { Data.new cki with hosts := [] })
      ∧ (Data.remove cki (Data.new cki) global_namespace).2.hosts.get? 0 = none
      ∧ Data.has cki (Data.remove cki (Data.new cki) global_namespace).2 global_namespace
          = false
      ∧ Data.find ck (Data.remove cki (Data.new cki) global_namespace).2 name = none := by
  have he : Data.hostEntry cki (Data.new cki) global_namespace
      = some (0, Directory.new cki global_namespace) := by
    simp [Data.hostEntry, Data.new, lastEntry, Directory.new, Directory.name_checksum,
      Directory.name, equalsi_refl]
  have hr : Data.remove cki (Data.new cki) global_namespace
      = (true, { Data.new cki with hosts := [] }) := by
    unfold Data.remove
    rw [he]
    rfl
  rw [hr]
  exact ⟨rfl, rfl, rfl, rfl, rfl⟩

/-- C15: on every table built from a fresh one by `hook` and `remove` calls, when
`remove(hostname)` returns true, then in the table it leaves `find_host(hostname)` is
null, `find(hostname, path)` is not-found for every path and `has(hostname)` is false. -/
theorem C15_removed_host_is_gone (ck cki : Str → Nat) (t : Data) (ht : Reachable ck cki t)
    (hostname : Str) (hrem : (Data.remove cki t hostname).1 = true) :
    Data.find_host cki (Data.remove cki t hostname).2 hostname = none
      ∧ (∀ path, Data.findIn ck cki (Data.remove cki t hostname).2 hostname path = none)
      ∧ Data.has cki (Data.remove cki t hostname).2 hostname = false := by
  have he := remove_no_match_left cki t hostname (reachable_invariant ck cki t ht).2 hrem
  have hf : Data.find_host cki (Data.remove cki t hostname).2 hostname = none := by
    unfold Data.find_host
    rw [he]
    rfl
  refine ⟨hf, ?_, ?_⟩
  · intro path
    unfold Data.findIn
    rw [hf]
  · unfold Data.has
    rw [he]
    rfl

/-- C15 at a concrete input: the table holding the Host `Example.com`, from which
`remove("example.COM")` takes that Host out. -/
theorem C15_removed_host_is_gone_witness :
    (Data.remove calcChecksumi exampleComTable "example.COM".toList).1 = true
      ∧ Data.find_host calcChecksumi
          (Data.remove calcChecksumi exampleComTable "example.COM".toList).2
          "example.COM".toList = none
      ∧ (∀ path, Data.findIn calcChecksum calcChecksumi
          (Data.remove calcChecksumi exampleComTable "example.COM".toList).2
          "example.COM".toList path = none)
      ∧ Data.has calcChecksumi
          (Data.remove calcChecksumi exampleComTable "example.COM".toList).2
          "example.COM".toList = false :=
  ⟨by decide,
    C15_removed_host_is_gone calcChecksum calcChecksumi exampleComTable
      (Reachable.hook (Data.new calcChecksumi) exampleComTable 2 "Example.com".toList []
        examplePage (Reachable.fresh _ rfl) rfl)
      "example.COM".toList (by decide)⟩

/-- C16: on every table built from a fresh one by `hook` calls that returned, the host
list starts with a Host of empty name, `find_host` of the empty name is that Host at
index 0, and for every name the single-argument `find(name)` equals
`find(global_namespace, name)`. -/
theorem C16_find_is_find_in_global (ck cki : Str → Nat) (t : Data) (ht : Hooked ck cki t)
    (name : Str) :
    (∃ g rest, t.hosts = g :: rest ∧ g.name = global_namespace
        ∧ Data.find_host cki t global_namespace = some g)
      ∧ Data.find ck t name = Data.findIn ck cki t global_namespace name := by
  obtain ⟨g, rest, hhosts, hgn, hgc, hrest⟩ := hooked_globalFirst ck cki t ht
  have he := globalFirst_hostEntry cki t g rest hhosts hgn hgc hrest
  have hf : Data.find_host cki t global_namespace = some g := by
    unfold Data.find_host
    rw [he]
    rfl
  refine ⟨⟨g, rest, hhosts, hgn, hf⟩, ?_⟩
  unfold Data.findIn Data.find
  rw [hf, hhosts]

/-- C16 at a concrete input: the table holding the Host `Example.com` beside the global
namespace, asked for `/a`. -/
theorem C16_find_is_find_in_global_witness :
    (∃ g rest, exampleComTable.hosts = g :: rest ∧ g.name = global_namespace
        ∧ Data.find_host calcChecksumi exampleComTable global_namespace = some g)
      ∧ Data.find calcChecksum exampleComTable "/a".toList
          = Data.findIn calcChecksum calcChecksumi exampleComTable global_namespace
              "/a".toList :=
  C16_find_is_find_in_global calcChecksum calcChecksumi exampleComTable
    (Hooked.hook (Data.new calcChecksumi) exampleComTable 2 "Example.com".toList []
      examplePage (Hooked.fresh _ rfl) rfl)
    "/a".toList

/-- C17: with the Content `a` hooked under the Host `Example.com`, `find("Example.com",
"/a")` returns that Content while `has("Example.com", "/a")` is false: `has` compares the
whole argument, leading slash included, with the Content names of the Host and never
looks into a directory (`Directory::has` is a stub answering false). Likewise, after
`hook("Example.com", "IMAGES/logo", logoPage)`, `find` resolves `IMAGES/logo` and `has`
denies it. The two agree on the bare name `a`. -/
theorem C17_has_disagrees_with_find :
    (Data.findIn calcChecksum calcChecksumi exampleComTable "Example.com".toList
          "/a".toList).map (fun c => c.execute [])
        = some "EXAMPLE".toList
      ∧ Data.hasIn calcChecksum calcChecksumi exampleComTable "Example.com".toList
          "/a".toList = false
      ∧ Data.hasIn calcChecksum calcChecksumi exampleComTable "Example.com".toList
          "a".toList = true
      ∧ logoTable.map (fun t =>
          ((Data.findIn calcChecksum calcChecksumi t "Example.com".toList
              "IMAGES/logo".toList).map (fun c => c.execute []),
            Data.hasIn calcChecksum calcChecksumi t "Example.com".toList
              "IMAGES/logo".toList))
        = some (some "LOGO".toList, false)
      ∧ Directory.has (Directory.new calcChecksumi global_namespace) "a".toList = false := by
  refine ⟨by rfl, by rfl, by rfl, by rfl, rfl⟩

/-- C18, as the code has it: for every table holding a Host at index 0, every session, clock and
rest of the request line, and all header lines that do not start with a space and whose
first space-delimited token ends with a colon (no Host header among them, a Host header
naming no registered Host, or any other), the buffer holding the complete request
`GET rest` or `HEAD rest` makes `process_request` return, and what it sends is decided by
the single-argument `find(target path)`, the lookup in the global-namespace Host: one
response built from the Content that lookup returns, nothing when it returns none. -/
theorem C18_target_resolved_in_global_namespace (ck cki : Str → Nat) (JUPITER_VERSION : Str)
    (d : Data) (html_time : Nat → Str) (rest : Str) (hs : List Str) (session : HTTPSession)
    (_hd : d.hosts ≠ [])
    (hr : ∀ x ∈ rest, x ≠ '\r')
    (hh : ∀ l ∈ hs, isHeaderLine l = true) :
    (∃ sG,
      process_request ck cki JUPITER_VERSION d html_time
          { session with request := unlines (("GET ".toList ++ rest) :: hs) ++ ENDL } = some sG
      ∧ sG.sock.sent = session.sock.sent ++
          served JUPITER_VERSION (html_time 0) sG.version HTTPCommand.GET
            (Data.find ck d (targetPath (getWord 0 [' '] rest)))
            (targetParameters (getWord 0 [' '] rest)))
    ∧ (∃ sH,
      process_request ck cki JUPITER_VERSION d html_time
          { session with request := unlines (("HEAD ".toList ++ rest) :: hs) ++ ENDL } = some sH
      ∧ sH.sock.sent = session.sock.sent ++
          served JUPITER_VERSION (html_time 0) sH.version HTTPCommand.HEAD
            (Data.find ck d (targetPath (getWord 0 [' '] rest)))
            (targetParameters (getWord 0 [' '] rest))) := by
  have hg : "GET ".toList ++ rest = "GET".toList ++ ' ' :: rest := by simp
  have hhd : "HEAD ".toList ++ rest = "HEAD".toList ++ ' ' :: rest := by simp
  obtain ⟨g1, g2, g3⟩ := methodLine_facts "GET".toList rest (by decide) (by decide) (by decide) hr
  obtain ⟨k1, k2, k3⟩ := methodLine_facts "HEAD".toList rest (by decide) (by decide) (by decide) hr
  rw [← hg] at g1 g2 g3
  rw [← hhd] at k1 k2 k3
  have w1 : getWord 1 [' '] ("GET ".toList ++ rest) = getWord 0 [' '] rest := by
    rw [hg, getWord_succ_word 0 _ _ (by decide) (by decide)]
  have eG := single_request_served ck cki JUPITER_VERSION d html_time ("GET ".toList ++ rest)
    ("GET ".toList ++ rest) HTTPCommand.GET (Or.inl rfl) g1 g2 g3
    (fun locals s => processLine_GET ck cki d rest locals s) hs hh
    { session with request := unlines (("GET ".toList ++ rest) :: hs) ++ ENDL } rfl
  have eH := single_request_served ck cki JUPITER_VERSION d html_time ("HEAD ".toList ++ rest)
    ("GET ".toList ++ rest) HTTPCommand.HEAD (Or.inr rfl) k1 k2 k3
    (fun locals s => processLine_HEAD ck cki d rest locals s) hs hh
    { session with request := unlines (("HEAD ".toList ++ rest) :: hs) ++ ENDL } rfl
  rw [w1] at eG eH
  exact ⟨eG, eH⟩

/-- C18 at a concrete input: `GET /a?x HTTP/1.0` and `HEAD /a?x HTTP/1.0` with the header
`Host: nowhere.example`, on the table holding `pageA` in the global namespace only. -/
theorem C18_target_resolved_in_global_namespace_witness :
    pagesTable.hosts ≠ []
    ∧ Data.find_host calcChecksumi pagesTable "nowhere.example".toList = none
    ∧ Data.find calcChecksum pagesTable (targetPath (getWord 0 [' '] "/a?x HTTP/1.0".toList))
        = some pageA
    ∧ (∃ sG,
      process_request calcChecksum calcChecksumi "Jupiter".toList pagesTable exampleTime
          { freshSession [] with
            request := unlines (("GET ".toList ++ "/a?x HTTP/1.0".toList)
              :: ["Host: nowhere.example".toList]) ++ ENDL } = some sG
      ∧ sG.sock.sent = (freshSession []).sock.sent ++
          served "Jupiter".toList (exampleTime 0) sG.version HTTPCommand.GET
            (Data.find calcChecksum pagesTable
              (targetPath (getWord 0 [' '] "/a?x HTTP/1.0".toList)))
            (targetParameters (getWord 0 [' '] "/a?x HTTP/1.0".toList)))
    ∧ (∃ sH,
      process_request calcChecksum calcChecksumi "Jupiter".toList pagesTable exampleTime
          { freshSession [] with
            request := unlines (("HEAD ".toList ++ "/a?x HTTP/1.0".toList)
              :: ["Host: nowhere.example".toList]) ++ ENDL } = some sH
      ∧ sH.sock.sent = (freshSession []).sock.sent ++
          served "Jupiter".toList (exampleTime 0) sH.version HTTPCommand.HEAD
            (Data.find calcChecksum pagesTable
              (targetPath (getWord 0 [' '] "/a?x HTTP/1.0".toList)))
            (targetParameters (getWord 0 [' '] "/a?x HTTP/1.0".toList))) :=
  ⟨by simp [pagesTable], rfl, rfl,
    C18_target_resolved_in_global_namespace calcChecksum calcChecksumi "Jupiter".toList
      pagesTable exampleTime "/a?x HTTP/1.0".toList ["Host: nowhere.example".toList]
      (freshSession []) (by simp [pagesTable]) (by decide) (by decide)⟩

/-- C18 fails as stated: `GET /a HTTP/1.0` with the header `Accept:*/*` is a complete GET
request without Host header, and the single-argument `find` resolves its target to
`pageA` of `pagesTable`; yet `process_request` returns having sent nothing. The line
`Accept:*/*` has a first space-delimited token that does not end with a colon, so it is
taken for a request line with an unknown method, which replaces the command GET before
the empty line is reached. -/
theorem C18_counterexample :
    Data.find calcChecksum pagesTable (targetPath "/a".toList) = some pageA
      ∧ (process_request calcChecksum calcChecksumi "Jupiter".toList pagesTable exampleTime
          (freshSession "GET /a HTTP/1.0\r\nAccept:*/*\r\n\r\n".toList)).map
          (fun s => s.sock.sent)
        = some [] := by
  refine ⟨rfl, ?_⟩
  decide

/-- C19, as the code has it: for every line the loop of `process_request` takes, with
`first` its first space-delimited token and `third` its third word. When `first` is
exactly `GET` or `HEAD`: a `third` equal to `HTTP/1.0` ignoring case sets the session
version to 1.0 and changes nothing else, a `third` equal to `HTTP/1.1` ignoring case sets
the version to 1.1 and the keep-alive flag, and any other or missing `third` leaves the
session as it was. When `first` is any other method (it does not end with a colon and is
neither `GET` nor `HEAD`), the command becomes UNKNOWN and the session is left as it was,
whatever the third word. -/
theorem C19_version_read_for_get_and_head (ck cki : Str → Nat) (d : Data) (line : Str)
    (locals : RequestLocals) (session : HTTPSession) :
    ((getToken0 ' ' line = "GET".toList ∨ getToken0 ' ' line = "HEAD".toList) →
        (equalsi (getWord 2 [' '] line) "HTTP/1.0".toList = true →
          (processLine ck cki d line locals session).2
            = { session with version := HTTPVersion.HTTP_1_0 })
        ∧ (equalsi (getWord 2 [' '] line) "HTTP/1.1".toList = true →
          (processLine ck cki d line locals session).2
            = { session with version := HTTPVersion.HTTP_1_1, keep_alive := true })
        ∧ (equalsi (getWord 2 [' '] line) "HTTP/1.0".toList = false →
          equalsi (getWord 2 [' '] line) "HTTP/1.1".toList = false →
          (processLine ck cki d line locals session).2 = session))
      ∧ ((getToken0 ' ' line).getLast? ≠ some ':' →
        getToken0 ' ' line ≠ "GET".toList → getToken0 ' ' line ≠ "HEAD".toList →
        (processLine ck cki d line locals session).1.command = HTTPCommand.UNKNOWN
          ∧ (processLine ck cki d line locals session).2 = session) := by
  constructor
  · intro hm
    have hp : ∃ command, processLine ck cki d line locals session
        = requestLine ck d command line session := by
      rcases hm with h | h
      · exact ⟨HTTPCommand.GET, by unfold processLine; rw [h]; rfl⟩
      · exact ⟨HTTPCommand.HEAD, by unfold processLine; rw [h]; rfl⟩
    obtain ⟨command, hp⟩ := hp
    rw [hp]
    exact requestLine_session ck d command line session
  · intro hcolon hget hhead
    have hget1 : getToken0 ' ' line ≠ ['G', 'E', 'T'] := hget
    have hhead1 : getToken0 ' ' line ≠ ['H', 'E', 'A', 'D'] := hhead
    unfold processLine
    simp [hcolon, equals, hget1, hhead1]

/-- C19 at concrete inputs: `HEAD /a http/1.0` on a session at version 1.1, `GET /a
HTTP/1.1`, `GET /a` and `POST /a HTTP/1.1` on a new session. -/
theorem C19_version_read_for_get_and_head_witness :
    (processLine calcChecksum calcChecksumi pagesTable "HEAD /a http/1.0".toList
        RequestLocals.initial { freshSession [] with version := HTTPVersion.HTTP_1_1 }).2
      = { freshSession [] with version := HTTPVersion.HTTP_1_0 }
    ∧ (processLine calcChecksum calcChecksumi pagesTable "GET /a HTTP/1.1".toList
        RequestLocals.initial (freshSession [])).2
      = { freshSession [] with version := HTTPVersion.HTTP_1_1, keep_alive := true }
    ∧ (processLine calcChecksum calcChecksumi pagesTable "GET /a".toList
        RequestLocals.initial (freshSession [])).2 = freshSession []
    ∧ (processLine calcChecksum calcChecksumi pagesTable "POST /a HTTP/1.1".toList
        RequestLocals.initial (freshSession [])).2 = freshSession [] :=
  ⟨((C19_version_read_for_get_and_head calcChecksum calcChecksumi pagesTable
        "HEAD /a http/1.0".toList RequestLocals.initial
        { freshSession [] with version := HTTPVersion.HTTP_1_1 }).1
      (Or.inr (by decide))).1 (by decide),
    ((C19_version_read_for_get_and_head calcChecksum calcChecksumi pagesTable
        "GET /a HTTP/1.1".toList RequestLocals.initial (freshSession [])).1
      (Or.inl (by decide))).2.1 (by decide),
    ((C19_version_read_for_get_and_head calcChecksum calcChecksumi pagesTable
        "GET /a".toList RequestLocals.initial (freshSession [])).1
      (Or.inl (by decide))).2.2 (by decide) (by decide),
    ((C19_version_read_for_get_and_head calcChecksum calcChecksumi pagesTable
        "POST /a HTTP/1.1".toList RequestLocals.initial (freshSession [])).2
      (by decide) (by decide) (by decide)).2⟩

/-- C19 fails as stated: the request line `POST /a HTTP/1.1` leaves a new session at
version 1.0 with the keep-alive flag unset, at the line and after the whole request has
been processed, although its third token is `HTTP/1.1`; and `GET /a http/1.1`, whose
third token is not `HTTP/1.1`, moves the session to version 1.1 and sets the flag. -/
theorem C19_counterexample :
    (freshSession []).version = HTTPVersion.HTTP_1_0
    ∧ (freshSession []).keep_alive = false
    ∧ getWord 2 [' '] "POST /a HTTP/1.1".toList = "HTTP/1.1".toList
    ∧ (processLine calcChecksum calcChecksumi pagesTable "POST /a HTTP/1.1".toList
        RequestLocals.initial (freshSession [])).2.version = HTTPVersion.HTTP_1_0
    ∧ (processLine calcChecksum calcChecksumi pagesTable "POST /a HTTP/1.1".toList
        RequestLocals.initial (freshSession [])).2.keep_alive = false
    ∧ (process_request calcChecksum calcChecksumi "Jupiter".toList pagesTable exampleTime
        (freshSession "POST /a HTTP/1.1\r\n\r\n".toList)).map
          (fun s => (s.version, s.keep_alive))
        = some (HTTPVersion.HTTP_1_0, false)
    ∧ getWord 2 [' '] "GET /a http/1.1".toList ≠ "HTTP/1.1".toList
    ∧ (processLine calcChecksum calcChecksumi pagesTable "GET /a http/1.1".toList
        RequestLocals.initial (freshSession [])).2.version = HTTPVersion.HTTP_1_1
    ∧ (processLine calcChecksum calcChecksumi pagesTable "GET /a http/1.1".toList
        RequestLocals.initial (freshSession [])).2.keep_alive = true := by
  refine ⟨rfl, rfl, by decide, by rfl, by rfl, by rfl, by decide, by rfl, by rfl⟩

/-- C21: for every request line `GET rest` or `HEAD rest`, with `T` the target (the first
word of `rest`). When `T` holds a `'?'`, `T` is the looked-up path, then the first `'?'`,
then the parameters, the path holding no `'?'`; when it holds none, the path is `T` and
the parameters are empty. The line leaves the loop with the Content that `find` returns
for the path and with those parameters; and when that Content exists, the complete `GET`
request is answered with the header block followed by the handler's result on exactly
those parameters. -/
theorem C21_target_cut_at_first_question_mark (ck cki : Str → Nat) (JUPITER_VERSION : Str)
    (d : Data) (html_time : Nat → Str) (rest : Str) (hs : List Str) (session : HTTPSession)
    (hr : ∀ x ∈ rest, x ≠ '\r') (hh : ∀ l ∈ hs, isHeaderLine l = true) :
    (∀ i, find '?' (getWord 0 [' '] rest) = some i →
        getWord 0 [' '] rest
            = targetPath (getWord 0 [' '] rest) ++ '?' :: targetParameters (getWord 0 [' '] rest)
          ∧ '?' ∉ targetPath (getWord 0 [' '] rest))
      ∧ (find '?' (getWord 0 [' '] rest) = none →
          targetPath (getWord 0 [' '] rest) = getWord 0 [' '] rest
            ∧ targetParameters (getWord 0 [' '] rest) = [])
      ∧ (∀ locals, (processLine ck cki d ("GET ".toList ++ rest) locals session).1
          = { command := HTTPCommand.GET,
              content := Data.find ck d (targetPath (getWord 0 [' '] rest)),
              content_parameters := targetParameters (getWord 0 [' '] rest) })
      ∧ (∀ locals, (processLine ck cki d ("HEAD ".toList ++ rest) locals session).1
          = { command := HTTPCommand.HEAD,
              content := Data.find ck d (targetPath (getWord 0 [' '] rest)),
              content_parameters := targetParameters (getWord 0 [' '] rest) })
      ∧ (∀ c, Data.find ck d (targetPath (getWord 0 [' '] rest)) = some c →
          ∃ sG,
            process_request ck cki JUPITER_VERSION d html_time
                { session with request := unlines (("GET ".toList ++ rest) :: hs) ++ ENDL }
              = some sG
            ∧ sG.sock.sent = session.sock.sent ++
                [response JUPITER_VERSION (html_time 0) sG.version HTTPCommand.HEAD c
                    (targetParameters (getWord 0 [' '] rest))
                  ++ c.function (targetParameters (getWord 0 [' '] rest))]) := by
  have hg : "GET ".toList ++ rest = "GET".toList ++ ' ' :: rest := by simp
  have w1 : getWord 1 [' '] ("GET ".toList ++ rest) = getWord 0 [' '] rest := by
    rw [hg, getWord_succ_word 0 _ _ (by decide) (by decide)]
  obtain ⟨t1, t2⟩ := target_split (getWord 0 [' '] rest)
  refine ⟨fun i h => (t1 i h).2.2, fun h => (t2 h).2, ?_, ?_, ?_⟩
  · intro locals
    rw [processLine_GET, requestLine_locals, w1]
  · intro locals
    rw [processLine_HEAD, requestLine_locals, w1]
  · intro c hc
    obtain ⟨g1, g2, g3⟩ := methodLine_facts "GET".toList rest (by decide) (by decide)
      (by decide) hr
    rw [← hg] at g1 g2 g3
    obtain ⟨sG, e1, e2⟩ := single_request_served ck cki JUPITER_VERSION d html_time
      ("GET ".toList ++ rest) ("GET ".toList ++ rest) HTTPCommand.GET (Or.inl rfl) g1 g2 g3
      (fun locals s => processLine_GET ck cki d rest locals s) hs hh
      { session with request := unlines (("GET ".toList ++ rest) :: hs) ++ ENDL } rfl
    rw [w1, hc] at e2
    refine ⟨sG, e1, ?_⟩
    rw [e2]
    simp only [served, response_GET_eq]
    rfl

/-- C21 at a concrete input: `GET /a?x=1&y=%20?z HTTP/1.0` on the table holding `pageA`,
whose handler answers `A` followed by what it received. -/
theorem C21_target_cut_at_first_question_mark_witness :
    targetPath (getWord 0 [' '] "/a?x=1&y=%20?z HTTP/1.0".toList) = "/a".toList
      ∧ targetParameters (getWord 0 [' '] "/a?x=1&y=%20?z HTTP/1.0".toList)
          = "x=1&y=%20?z".toList
      ∧ pageA.function "x=1&y=%20?z".toList = "Ax=1&y=%20?z".toList
      ∧ ∃ sG,
          process_request calcChecksum calcChecksumi "Jupiter".toList pagesTable exampleTime
              { freshSession [] with
                request := unlines (("GET ".toList ++ "/a?x=1&y=%20?z HTTP/1.0".toList)
                  :: []) ++ ENDL }
            = some sG
          ∧ sG.sock.sent = (freshSession []).sock.sent ++
              [response "Jupiter".toList (exampleTime 0) sG.version HTTPCommand.HEAD pageA
                  (targetParameters (getWord 0 [' '] "/a?x=1&y=%20?z HTTP/1.0".toList))
                ++ pageA.function
                    (targetParameters (getWord 0 [' '] "/a?x=1&y=%20?z HTTP/1.0".toList))] :=
  ⟨by decide, by decide, by decide,
    (C21_target_cut_at_first_question_mark calcChecksum calcChecksumi "Jupiter".toList
      pagesTable exampleTime "/a?x=1&y=%20?z HTTP/1.0".toList [] (freshSession [])
      (by decide) (by decide)).2.2.2.2 pageA rfl⟩

/-- C22: the switch at the end of a request, the only place where `process_request`
sends, either sends nothing or sends one text that carries the marks of the session
version: at 1.1 it starts with `HTTP/1.1 200 OK` CR LF and holds the line `Connection:
keep-alive`, at 1.0 it starts with `HTTP/1.0 200 OK` CR LF and holds the line
`Connection: close`. So for every complete `GET` or `HEAD` request whose target resolves
a Content, `process_request` returns having sent one response with the marks of the
version the session has then. -/
theorem C22_response_carries_version (ck cki : Str → Nat) (JUPITER_VERSION : Str) (d : Data)
    (html_time : Nat → Str) (rest : Str) (hs : List Str) (session : HTTPSession) (c : Content)
    (hr : ∀ x ∈ rest, x ≠ '\r')
    (hh : ∀ l ∈ hs, isHeaderLine l = true)
    (hc : Data.find ck d (targetPath (getWord 0 [' '] rest)) = some c) :
    (∀ (time_header : Str) (locals : RequestLocals) (s : HTTPSession),
        (respond JUPITER_VERSION time_header locals s).1.sock.sent = s.sock.sent
          ∨ ∃ r, (respond JUPITER_VERSION time_header locals s).1.sock.sent = s.sock.sent ++ [r]
              ∧ versionMarks s.version r)
      ∧ (∃ sG r,
          process_request ck cki JUPITER_VERSION d html_time
              { session with request := unlines (("GET ".toList ++ rest) :: hs) ++ ENDL }
            = some sG
          ∧ sG.sock.sent = session.sock.sent ++ [r] ∧ versionMarks sG.version r)
      ∧ (∃ sH r,
          process_request ck cki JUPITER_VERSION d html_time
              { session with request := unlines (("HEAD ".toList ++ rest) :: hs) ++ ENDL }
            = some sH
          ∧ sH.sock.sent = session.sock.sent ++ [r] ∧ versionMarks sH.version r) := by
  have hg : "GET ".toList ++ rest = "GET".toList ++ ' ' :: rest := by simp
  have hhd : "HEAD ".toList ++ rest = "HEAD".toList ++ ' ' :: rest := by simp
  obtain ⟨g1, g2, g3⟩ := methodLine_facts "GET".toList rest (by decide) (by decide) (by decide) hr
  obtain ⟨k1, k2, k3⟩ := methodLine_facts "HEAD".toList rest (by decide) (by decide) (by decide) hr
  rw [← hg] at g1 g2 g3
  rw [← hhd] at k1 k2 k3
  have w1 : getWord 1 [' '] ("GET ".toList ++ rest) = getWord 0 [' '] rest := by
    rw [hg, getWord_succ_word 0 _ _ (by decide) (by decide)]
  obtain ⟨sG, eG1, eG2⟩ := single_request_served ck cki JUPITER_VERSION d html_time
    ("GET ".toList ++ rest) ("GET ".toList ++ rest) HTTPCommand.GET (Or.inl rfl) g1 g2 g3
    (fun locals s => processLine_GET ck cki d rest locals s) hs hh
    { session with request := unlines (("GET ".toList ++ rest) :: hs) ++ ENDL } rfl
  obtain ⟨sH, eH1, eH2⟩ := single_request_served ck cki JUPITER_VERSION d html_time
    ("HEAD ".toList ++ rest) ("GET ".toList ++ rest) HTTPCommand.HEAD (Or.inr rfl) k1 k2 k3
    (fun locals s => processLine_HEAD ck cki d rest locals s) hs hh
    { session with request := unlines (("HEAD ".toList ++ rest) :: hs) ++ ENDL } rfl
  rw [w1, hc] at eG2 eH2
  refine ⟨?_, ⟨sG, _, eG1, eG2, response_versionMarks _ _ _ _ _ _⟩,
    ⟨sH, _, eH1, eH2, response_versionMarks _ _ _ _ _ _⟩⟩
  intro time_header locals s
  unfold respond
  split
  · right
    exact ⟨_, rfl, response_versionMarks _ _ _ _ _ _⟩
  · right
    exact ⟨_, rfl, response_versionMarks _ _ _ _ _ _⟩
  · left
    rfl

/-- C22 at a concrete input: `GET /a HTTP/1.1` and `HEAD /a HTTP/1.1` with a Host header
on the table holding `pageA`; the session is at version 1.1 when the response is built. -/
theorem C22_response_carries_version_witness :
    (∀ (time_header : Str) (locals : RequestLocals) (s : HTTPSession),
        (respond "Jupiter".toList time_header locals s).1.sock.sent = s.sock.sent
          ∨ ∃ r, (respond "Jupiter".toList time_header locals s).1.sock.sent
                = s.sock.sent ++ [r]
              ∧ versionMarks s.version r)
      ∧ (∃ sG r,
          process_request calcChecksum calcChecksumi "Jupiter".toList pagesTable exampleTime
              { freshSession [] with
                request := unlines (("GET ".toList ++ "/a HTTP/1.1".toList)
                  :: ["Host: example.com".toList]) ++ ENDL }
            = some sG
          ∧ sG.sock.sent = (freshSession []).sock.sent ++ [r] ∧ versionMarks sG.version r)
      ∧ (∃ sH r,
          process_request calcChecksum calcChecksumi "Jupiter".toList pagesTable exampleTime
              { freshSession [] with
                request := unlines (("HEAD ".toList ++ "/a HTTP/1.1".toList)
                  :: ["Host: example.com".toList]) ++ ENDL }
            = some sH
          ∧ sH.sock.sent = (freshSession []).sock.sent ++ [r] ∧ versionMarks sH.version r) :=
  C22_response_carries_version calcChecksum calcChecksumi "Jupiter".toList pagesTable
    exampleTime "/a HTTP/1.1".toList ["Host: example.com".toList] (freshSession []) pageA
    (by decide) (by decide) rfl

/-- C24: a session of the list that, at the clock reading of its turn in the next
`think`, has been idle beyond the timeout that applies to it (the keep-alive timeout when
it is keep-alive, the session timeout when it is not) is deleted, unchanged, whatever its
socket would deliver and whatever the clock of `html_time` reads: nothing is read and
`process_request` is not called. The session list after the tick is what the loop leaves
of the sessions before it, then of the sessions after it, then the newly accepted
sessions: the evicted session is not in it. -/
theorem C24_idle_session_evicted (ck cki : Str → Nat) (JUPITER_VERSION : Str) (d : Data)
    (tick : Tick) (pre : List HTTPSession) (s : HTTPSession) (post : List HTTPSession)
    (hd : d.sessions = pre ++ s :: post)
    (hidle : spec_evicts d (tick.now pre.length) s = true) :
    (∀ (html_time : Nat → Str) (recv : Recv),
        thinkSession ck cki JUPITER_VERSION d (tick.now pre.length) html_time s recv
          = some { session := s, fate := Fate.destroyed })
      ∧ ∃ pre1 post1 added,
          thinkSessions ck cki JUPITER_VERSION d tick 0 pre = some pre1
          ∧ thinkSessions ck cki JUPITER_VERSION d tick (pre.length + 1) post = some post1
          ∧ thinkPorts ck cki JUPITER_VERSION d tick 0 d.ports = some added
          ∧ think ck cki JUPITER_VERSION d tick
              = some { d with sessions := pre1 ++ post1 ++ added } := by
  have hev := spec_evicts_evicts d (tick.now pre.length) s hidle
  refine ⟨fun html_time recv =>
    thinkSession_evicted ck cki JUPITER_VERSION d _ html_time s recv hev, ?_⟩
  obtain ⟨pre1, post1, o, added, h1, h2, h3, h4, h5⟩ :=
    think_at ck cki JUPITER_VERSION d tick pre s post hd
  rw [thinkSession_evicted ck cki JUPITER_VERSION d _ _ s _ hev] at h3
  simp only [Option.some.injEq] at h3
  subst h3
  refine ⟨pre1, post1, added, h1, h2, h4, ?_⟩
  rw [h5]
  simp

/-- C24 at a concrete input: at clock reading 40000, with the default timeouts of 30
seconds, a keep-alive session last active at 5000 stands between two sessions last active
at 20000; the tick leaves those two. -/
theorem C24_idle_session_evicted_witness :
    ((∀ (html_time : Nat → Str) (recv : Recv),
        thinkSession calcChecksum calcChecksumi "Jupiter".toList idleTable
            (quietTick.now [sessionAt 20000 false].length) html_time (sessionAt 5000 true) recv
          = some { session := sessionAt 5000 true, fate := Fate.destroyed })
      ∧ ∃ pre1 post1 added,
          thinkSessions calcChecksum calcChecksumi "Jupiter".toList idleTable quietTick 0
              [sessionAt 20000 false] = some pre1
          ∧ thinkSessions calcChecksum calcChecksumi "Jupiter".toList idleTable quietTick
              ([sessionAt 20000 false].length + 1) [sessionAt 20000 true] = some post1
          ∧ thinkPorts calcChecksum calcChecksumi "Jupiter".toList idleTable quietTick 0
              idleTable.ports = some added
          ∧ think calcChecksum calcChecksumi "Jupiter".toList idleTable quietTick
            = some { idleTable with sessions := pre1 ++ post1 ++ added })
      ∧ think calcChecksum calcChecksumi "Jupiter".toList idleTable quietTick
          = some { idleTable with sessions := [sessionAt 20000 false, sessionAt 20000 true] } :=
  ⟨C24_idle_session_evicted calcChecksum calcChecksumi "Jupiter".toList idleTable quietTick
      [sessionAt 20000 false] (sessionAt 5000 true) [sessionAt 20000 true] rfl (by decide),
    rfl⟩

/-- C25: bytes that were received (`recv` returned a positive count). When they bring
the buffer of an existing session that is not evicted to exactly `max_request_size` bytes
and the buffer then holds CR LF CR LF, `think` hands the session, its buffer extended and
its last activity updated, to `process_request`, which returns. When they are the first
read of a newly accepted connection, are exactly `max_request_size` bytes long and hold
CR LF CR LF, `think` hands the new session with that buffer to `process_request`, which
returns. In both cases the session stays exactly when it is keep-alive afterwards. -/
theorem C25_full_buffer_with_request_is_processed (ck cki : Str → Nat)
    (JUPITER_VERSION : Str) (d : Data) (now : Nat) (html_time : Nat → Str)
    (session : HTTPSession) (in_sock : Socket) (recv : Recv) (hret : recv.ret > 0) :
    (evicts d now session = false →
        session.request.length + recv.buffer.length = d.max_request_size →
        (findStr HTTP_REQUEST_ENDING (session.request ++ recv.buffer)).isSome = true →
        ∃ session3,
          process_request ck cki JUPITER_VERSION d html_time
              { session with request := session.request ++ recv.buffer, last_active := now }
            = some session3
          ∧ thinkSession ck cki JUPITER_VERSION d now html_time session recv
            = some { session := session3,
                     fate := if session3.keep_alive = true then Fate.retained
                             else Fate.destroyed })
      ∧ (recv.buffer.length = d.max_request_size →
        (findStr HTTP_REQUEST_ENDING recv.buffer).isSome = true →
        ∃ session2,
          process_request ck cki JUPITER_VERSION d html_time
              { HTTPSession.new in_sock now with request := recv.buffer } = some session2
          ∧ thinkIncoming ck cki JUPITER_VERSION d now html_time in_sock recv
            = some { session := session2,
                     fate := if session2.keep_alive = true then Fate.retained
                             else Fate.destroyed }) := by
  constructor
  · intro hev hsize hend
    exact thinkSession_processes ck cki JUPITER_VERSION d now html_time session recv hev hret
      (by omega) hend
  · intro hsize hend
    exact thinkIncoming_processes ck cki JUPITER_VERSION d now html_time in_sock recv
      (by omega) (by omega) hend

/-- C25 at a concrete input: with a cap of 19 bytes, the 10 bytes `TP/1.0` CR LF CR LF
complete the buffer `GET /a HT` of an existing session, and the 19 bytes of
`GET /a HTTP/1.0` CR LF CR LF are the first read of a new connection; both requests are
answered. -/
theorem C25_full_buffer_with_request_is_processed_witness :
    (∃ session3,
        process_request calcChecksum calcChecksumi "Jupiter".toList tightTable exampleTime
            { freshSession "GET /a HT".toList with
              request := (freshSession "GET /a HT".toList).request
                ++ (Recv.data "TP/1.0\r\n\r\n".toList).buffer,
              last_active := 10 }
          = some session3
        ∧ thinkSession calcChecksum calcChecksumi "Jupiter".toList tightTable 10 exampleTime
            (freshSession "GET /a HT".toList) (Recv.data "TP/1.0\r\n\r\n".toList)
          = some { session := session3,
                   fate := if session3.keep_alive = true then Fate.retained
                           else Fate.destroyed })
      ∧ (thinkSession calcChecksum calcChecksumi "Jupiter".toList tightTable 10 exampleTime
            (freshSession "GET /a HT".toList) (Recv.data "TP/1.0\r\n\r\n".toList)).map
          (fun o => o.session.sock.sent.length) = some 1
      ∧ (thinkIncoming calcChecksum calcChecksumi "Jupiter".toList tightTable 10 exampleTime
            { sent := [] } (Recv.data "GET /a HTTP/1.0\r\n\r\n".toList)).map
          (fun o => o.session.sock.sent.length) = some 1 :=
  ⟨(C25_full_buffer_with_request_is_processed calcChecksum calcChecksumi "Jupiter".toList
      tightTable 10 exampleTime (freshSession "GET /a HT".toList) { sent := [] }
      (Recv.data "TP/1.0\r\n\r\n".toList) (by decide)).1 (by decide) (by decide) (by decide),
    by rfl, by rfl⟩

/-- C26: bytes that were received (`recv` returned a positive count) and that would carry
the buffer beyond `max_request_size`, or bring it to exactly that size without a CR LF
CR LF in it. For a session of the list that is not evicted at its turn, the loop body
deletes it with its socket, version and keep-alive flag as they were (nothing was sent,
`process_request` was not called), and the session is not in the list after the tick.
For a newly accepted connection whose first read they are, the new session is deleted as
it was created, and nothing is added to the list for it. -/
theorem C26_oversized_buffer_is_rejected (ck cki : Str → Nat) (JUPITER_VERSION : Str)
    (d : Data) (tick : Tick) :
    (∀ (pre : List HTTPSession) (s : HTTPSession) (post : List HTTPSession),
        d.sessions = pre ++ s :: post →
        evicts d (tick.now pre.length) s = false →
        (tick.recv pre.length).ret > 0 →
        (s.request.length + (tick.recv pre.length).buffer.length > d.max_request_size
          ∨ (s.request.length + (tick.recv pre.length).buffer.length = d.max_request_size
            ∧ findStr HTTP_REQUEST_ENDING (s.request ++ (tick.recv pre.length).buffer)
                = none)) →
        (∃ outcome,
          thinkSession ck cki JUPITER_VERSION d (tick.now pre.length)
              (tick.html_time pre.length) s (tick.recv pre.length) = some outcome
          ∧ outcome.fate = Fate.destroyed
          ∧ outcome.session.sock = s.sock
          ∧ outcome.session.version = s.version
          ∧ outcome.session.keep_alive = s.keep_alive)
        ∧ tickKeeps ck cki JUPITER_VERSION d tick pre post [])
      ∧ (∀ (pre : List Socket) (p : Socket) (post : List Socket) (in_sock : Socket)
          (recv : Recv),
        d.ports = pre ++ p :: post →
        tick.accept pre.length = some (in_sock, recv) →
        recv.ret > 0 →
        (recv.buffer.length > d.max_request_size
          ∨ (recv.buffer.length = d.max_request_size
            ∧ findStr HTTP_REQUEST_ENDING recv.buffer = none)) →
        thinkIncoming ck cki JUPITER_VERSION d (tick.accept_now pre.length)
            (tick.accept_html_time pre.length) in_sock recv
          = some { session := HTTPSession.new in_sock (tick.accept_now pre.length),
                   fate := Fate.destroyed }
        ∧ (HTTPSession.new in_sock (tick.accept_now pre.length)).sock = in_sock
        ∧ tickAdds ck cki JUPITER_VERSION d tick pre post []) := by
  constructor
  · intro pre s post hd hev hret hbig
    have hcases := thinkSession_rejects ck cki JUPITER_VERSION d (tick.now pre.length)
      (tick.html_time pre.length) s (tick.recv pre.length) hev hret hbig
    rcases hcases with h | h
    · exact ⟨⟨_, h, rfl, rfl, rfl, rfl⟩,
        think_keeps ck cki JUPITER_VERSION d tick pre s post hd _ h⟩
    · exact ⟨⟨_, h, rfl, rfl, rfl, rfl⟩,
        think_keeps ck cki JUPITER_VERSION d tick pre s post hd _ h⟩
  · intro pre p post in_sock recv hd hacc hret hbig
    have h := thinkIncoming_rejects ck cki JUPITER_VERSION d (tick.accept_now pre.length)
      (tick.accept_html_time pre.length) in_sock recv (by omega) hbig
    exact ⟨h, rfl, think_adds ck cki JUPITER_VERSION d tick pre p post hd in_sock recv hacc _ h⟩


/-- C26 at a concrete input: with a cap of 19 bytes, a session holding 9 bytes reads 11
more, and a new connection delivers 21 bytes at once; the tick leaves no session. -/
theorem C26_oversized_buffer_is_rejected_witness :
    tickKeeps calcChecksum calcChecksumi "Jupiter".toList crowdedTable floodTick [] [] []
      ∧ tickAdds calcChecksum calcChecksumi "Jupiter".toList crowdedTable floodTick [] [] []
      ∧ think calcChecksum calcChecksumi "Jupiter".toList crowdedTable floodTick
          = some { crowdedTable with sessions := [] } :=
  ⟨((C26_oversized_buffer_is_rejected calcChecksum calcChecksumi "Jupiter".toList crowdedTable
        floodTick).1 [] (freshSession "GET /a HT".toList) [] rfl (by decide) (by decide)
        (Or.inl (by decide))).2,
    ((C26_oversized_buffer_is_rejected calcChecksum calcChecksumi "Jupiter".toList crowdedTable
        floodTick).2 [] { sent := [] } [] { sent := [] }
        (Recv.data "GET /ab HTTP/1.0\r\n\r\n".toList) rfl rfl (by decide)
        (Or.inl (by decide))).2.2,
    rfl⟩

/-- C27: whenever `think` calls `process_request`, the call returns and the session is in
the session list after the tick exactly when its keep-alive flag is true after the call.
For a session of the list (not evicted at its turn, its read positive, the extended
buffer within the size cap and holding CR LF CR LF) the processed session stays in its
place when keep-alive and is deleted otherwise. For a newly accepted connection (its first
read not zero, within the size cap and holding CR LF CR LF) the processed session is
added when keep-alive and deleted without being added otherwise. -/
theorem C27_processed_session_kept_iff_keep_alive (ck cki : Str → Nat)
    (JUPITER_VERSION : Str) (d : Data) (tick : Tick) :
    (∀ (pre : List HTTPSession) (s : HTTPSession) (post : List HTTPSession),
        d.sessions = pre ++ s :: post →
        evicts d (tick.now pre.length) s = false →
        (tick.recv pre.length).ret > 0 →
        s.request.length + (tick.recv pre.length).buffer.length ≤ d.max_request_size →
        (findStr HTTP_REQUEST_ENDING (s.request ++ (tick.recv pre.length).buffer)).isSome
          = true →
        ∃ session3,
          process_request ck cki JUPITER_VERSION d (tick.html_time pre.length)
              { s with request := s.request ++ (tick.recv pre.length).buffer,
                       last_active := tick.now pre.length }
            = some session3
          ∧ thinkSession ck cki JUPITER_VERSION d (tick.now pre.length)
              (tick.html_time pre.length) s (tick.recv pre.length)
            = some { session := session3,
                     fate := if session3.keep_alive = true then Fate.retained
                             else Fate.destroyed }
          ∧ tickKeeps ck cki JUPITER_VERSION d tick pre post
              (if session3.keep_alive = true then [session3] else []))
      ∧ (∀ (pre : List Socket) (p : Socket) (post : List Socket) (in_sock : Socket)
          (recv : Recv),
        d.ports = pre ++ p :: post →
        tick.accept pre.length = some (in_sock, recv) →
        recv.ret ≠ 0 →
        recv.buffer.length ≤ d.max_request_size →
        (findStr HTTP_REQUEST_ENDING recv.buffer).isSome = true →
        ∃ session2,
          process_request ck cki JUPITER_VERSION d (tick.accept_html_time pre.length)
              { HTTPSession.new in_sock (tick.accept_now pre.length) with
                request := recv.buffer }
            = some session2
          ∧ thinkIncoming ck cki JUPITER_VERSION d (tick.accept_now pre.length)
              (tick.accept_html_time pre.length) in_sock recv
            = some { session := session2,
                     fate := if session2.keep_alive = true then Fate.retained
                             else Fate.destroyed }
          ∧ tickAdds ck cki JUPITER_VERSION d tick pre post
              (if session2.keep_alive = true then [session2] else [])) := by
  constructor
  · intro pre s post hd hev hret hsize hend
    obtain ⟨s3, h1, h2⟩ := thinkSession_processes ck cki JUPITER_VERSION d
      (tick.now pre.length) (tick.html_time pre.length) s (tick.recv pre.length) hev hret
      hsize hend
    refine ⟨s3, h1, h2, ?_⟩
    have hk := think_keeps ck cki JUPITER_VERSION d tick pre s post hd _ h2
    by_cases hka : s3.keep_alive = true
    · simpa [hka] using hk
    · simpa [hka] using hk
  · intro pre p post in_sock recv hd hacc hret hsize hend
    obtain ⟨s2, h1, h2⟩ := thinkIncoming_processes ck cki JUPITER_VERSION d
      (tick.accept_now pre.length) (tick.accept_html_time pre.length) in_sock recv hret
      hsize hend
    refine ⟨s2, h1, h2, ?_⟩
    have hk := think_adds ck cki JUPITER_VERSION d tick pre p post hd in_sock recv hacc _ h2
    by_cases hka : s2.keep_alive = true
    · simpa [hka] using hk
    · simpa [hka] using hk

/-- C27 at a concrete input: the session of the list completes `GET /a HTTP/1.0`, is
answered and, not being keep-alive, is removed; the new connection delivers
`GET /a HTTP/1.1`, is answered and, being keep-alive, is added. After the tick the list
holds that one session. -/
theorem C27_processed_session_kept_iff_keep_alive_witness :
    (∃ session3,
        process_request calcChecksum calcChecksumi "Jupiter".toList crowdedTable
            (busyTick.html_time ([] : List HTTPSession).length)
            { freshSession "GET /a HT".toList with
              request := (freshSession "GET /a HT".toList).request
                ++ (busyTick.recv ([] : List HTTPSession).length).buffer,
              last_active := busyTick.now ([] : List HTTPSession).length }
          = some session3
        ∧ thinkSession calcChecksum calcChecksumi "Jupiter".toList crowdedTable
            (busyTick.now ([] : List HTTPSession).length)
            (busyTick.html_time ([] : List HTTPSession).length)
            (freshSession "GET /a HT".toList) (busyTick.recv ([] : List HTTPSession).length)
          = some { session := session3,
                   fate := if session3.keep_alive = true then Fate.retained
                           else Fate.destroyed }
        ∧ tickKeeps calcChecksum calcChecksumi "Jupiter".toList crowdedTable busyTick [] []
            (if session3.keep_alive = true then [session3] else []))
      ∧ (∃ session2,
        process_request calcChecksum calcChecksumi "Jupiter".toList crowdedTable
            (busyTick.accept_html_time ([] : List Socket).length)
            { HTTPSession.new { sent := [] } (busyTick.accept_now ([] : List Socket).length) with
              request := (Recv.data "GET /a HTTP/1.1\r\n\r\n".toList).buffer }
          = some session2
        ∧ thinkIncoming calcChecksum calcChecksumi "Jupiter".toList crowdedTable
            (busyTick.accept_now ([] : List Socket).length)
            (busyTick.accept_html_time ([] : List Socket).length) { sent := [] }
            (Recv.data "GET /a HTTP/1.1\r\n\r\n".toList)
          = some { session := session2,
                   fate := if session2.keep_alive = true then Fate.retained
                           else Fate.destroyed }
        ∧ tickAdds calcChecksum calcChecksumi "Jupiter".toList crowdedTable busyTick [] []
            (if session2.keep_alive = true then [session2] else []))
      ∧ (think calcChecksum calcChecksumi "Jupiter".toList crowdedTable busyTick).map
          (fun t => t.sessions.map (fun s => (s.keep_alive, s.version, s.sock.sent.length)))
        = some [(true, HTTPVersion.HTTP_1_1, 1)] :=
  ⟨(C27_processed_session_kept_iff_keep_alive calcChecksum calcChecksumi "Jupiter".toList
      crowdedTable busyTick).1 [] (freshSession "GET /a HT".toList) [] rfl (by decide)
      (by decide) (by decide) (by decide),
    (C27_processed_session_kept_iff_keep_alive calcChecksum calcChecksumi "Jupiter".toList
      crowdedTable busyTick).2 [] { sent := [] } [] { sent := [] }
      (Recv.data "GET /a HTTP/1.1\r\n\r\n".toList) rfl rfl (by decide) (by decide)
      (by decide),
    by rfl⟩

/-- C28: for every table, clock and session, whatever its buffer holds, `process_request`
returns. The loop over the lines of a session consults the recursive call of line 581
only for sessions whose buffer is strictly shorter than that session's: replacing the
recursive call by anything that agrees with it on strictly shorter buffers changes
nothing. Hence the depth of the recursion is bounded by the size of the buffer, and any
bound above that size gives the same result. -/
theorem C28_process_request_terminates (ck cki : Str → Nat) (JUPITER_VERSION : Str)
    (d : Data) (html_time : Nat → Str) (session : HTTPSession) :
    (process_request ck cki JUPITER_VERSION d html_time session).isSome = true
      ∧ (∀ recurse recurse1 : (Nat → Str) → HTTPSession → Option HTTPSession,
          (∀ ht s, s.request.length < session.request.length → recurse ht s = recurse1 ht s) →
          lineLoop ck cki JUPITER_VERSION d recurse html_time (tokenize session.request).length
              [] (tokenize session.request) RequestLocals.initial session
            = lineLoop ck cki JUPITER_VERSION d recurse1 html_time
                (tokenize session.request).length [] (tokenize session.request)
                RequestLocals.initial session)
      ∧ (∀ fuel, session.request.length < fuel →
          process_requestFuel ck cki JUPITER_VERSION d fuel html_time session
            = process_request ck cki JUPITER_VERSION d html_time session) := by
  refine ⟨process_request_isSome ck cki JUPITER_VERSION d html_time session, ?_, ?_⟩
  · intro recurse recurse1 hrec
    exact lineLoop_congr ck cki JUPITER_VERSION d recurse recurse1 session.request.length hrec
      _ _ html_time [] RequestLocals.initial session (le_refl _)
  · intro fuel hfuel
    exact process_requestFuel_enough ck cki JUPITER_VERSION d fuel
      (session.request.length + 1) html_time session hfuel (by omega)

/-- C29, the part the code keeps: in every table built from a fresh one by `hook` calls
that returned, every node of every Host's tree has child directories whose names are
pairwise different ignoring ASCII case. -/
theorem C29_hooked_child_directories_distinct (ck cki : Str → Nat) (t : Data)
    (ht : Hooked ck cki t) (host : Directory) (hm : host ∈ t.hosts) (n : Directory)
    (hn : IsNode host n) :
    n.directories.Pairwise (fun a b => equalsi a.name b.name = false) := by
  have hf := hooked_flat ck cki t ht host hm
  rcases flat_nodes host n hf hn with rfl | ⟨_, hnil⟩
  · exact hf.1
  · rw [hnil]
    exact List.Pairwise.nil

/-- C29 at a concrete input: the table after `hook("", "x", pageA)`,
`hook("", "X", globalPage)` and `hook("", "y", pageB)`, whose global namespace has the
child directories `x` and `y`. -/
theorem C29_hooked_child_directories_distinct_witness :
    (∀ host ∈ twoDirsTable.hosts, ∀ n, IsNode host n →
        n.directories.Pairwise (fun a b => equalsi a.name b.name = false))
      ∧ twoDirsTable.hosts.map (fun host => host.directories.map Directory.name)
          = [["x".toList, "y".toList]] :=
  ⟨fun host hm n hn =>
      C29_hooked_child_directories_distinct calcChecksum calcChecksumi twoDirsTable
        (Hooked.hook sameNameTable twoDirsTable 2 [] "y".toList pageB
          (Hooked.hook oneNameTable sameNameTable 2 [] "X".toList globalPage
            (Hooked.hook (Data.new calcChecksumi) oneNameTable 2 [] "x".toList pageA
              (Hooked.fresh _ rfl) rfl) rfl) rfl)
        host hm n hn,
    rfl⟩

/-- C29 fails as stated: after `hook("", "x", pageA)` and `hook("", "X", globalPage)` on a
fresh table, the directory `x` of the global namespace holds two content entries named
`a`; and the single call `hook("", "", pageA)` on a fresh table leaves the global
namespace with two entries named `a`. -/
theorem C29_counterexample :
    Hooked calcChecksum calcChecksumi sameNameTable
      ∧ (∃ host ∈ sameNameTable.hosts, ∃ n, IsNode host n
          ∧ n.content.map Content.name = ["a".toList, "a".toList]
          ∧ ¬ (n.content.map Content.name).Nodup)
      ∧ (Data.hook calcChecksum calcChecksumi 1 (Data.new calcChecksumi) [] [] pageA).map
            (fun t => t.hosts.map (fun host => host.content.map Content.name))
          = some [["a".toList, "a".toList]] := by
  refine ⟨Hooked.hook oneNameTable sameNameTable 2 [] "X".toList globalPage
      (Hooked.hook (Data.new calcChecksumi) oneNameTable 2 [] "x".toList pageA
        (Hooked.fresh _ rfl) rfl) rfl, ?_, by rfl⟩
  refine ⟨_, List.mem_singleton.2 rfl,
    Directory.mk "x".toList (calcChecksumi "x".toList) [] [pageA, globalPage],
    IsNode.child _ _ _ (by simp [Directory.directories]) (IsNode.self _), by rfl, by decide⟩

/-- C30: for every table, clock and session whose buffer splits at CR LF into the lines
`pre`, none of them empty once its leading spaces are dropped, then a line `e` that is
empty once they are, then `tail`: when the keep-alive flag is false after the loop has
visited `pre`, `process_request` returns with the request buffer as it was, with at most
one text added to what the socket has sent, and with the flag still false, whatever
`tail` holds. -/
theorem C30_not_keep_alive_stops_after_first_request (ck cki : Str → Nat)
    (JUPITER_VERSION : Str) (d : Data) (html_time : Nat → Str) (session : HTTPSession)
    (pre : List Str) (e : Str) (tail : List Str)
    (htok : tokenize session.request = pre ++ e :: tail)
    (hpre : ∀ raw ∈ pre, (shiftRight (span [' '] raw) raw).isEmpty = false)
    (he : (shiftRight (span [' '] e) e).isEmpty = true)
    (hka : (afterLines ck cki d pre (RequestLocals.initial, session)).2.keep_alive = false) :
    ∃ session1,
      process_request ck cki JUPITER_VERSION d html_time session = some session1
      ∧ session1.request = session.request
      ∧ (session1.sock.sent = session.sock.sent
        ∨ ∃ r, session1.sock.sent = session.sock.sent ++ [r])
      ∧ session1.keep_alive = false := by
  obtain ⟨a1, a2⟩ := afterLines_request_sock ck cki d pre (RequestLocals.initial, session)
  obtain ⟨r1, r2, r3⟩ := respond_effect JUPITER_VERSION (html_time 0)
    (afterLines ck cki d pre (RequestLocals.initial, session)).1
    (afterLines ck cki d pre (RequestLocals.initial, session)).2
  refine ⟨(respond JUPITER_VERSION (html_time 0)
    (afterLines ck cki d pre (RequestLocals.initial, session)).1
    (afterLines ck cki d pre (RequestLocals.initial, session)).2).1, ?_, ?_, ?_, ?_⟩
  · unfold process_request
    rw [process_requestFuel]
    simp only [htok]
    rw [lineLoop_lines ck cki JUPITER_VERSION d _ html_time _ pre hpre, lineLoop]
    simp only [he, if_true, r2, hka, beq_self_eq_true]
  · rw [r1, a1]
  · rw [a2] at r3
    exact r3
  · rw [r2, hka]

/-- C30 at a concrete input: the buffer holds `GET /a HTTP/1.0` and `GET /b HTTP/1.0`,
each with its empty line, on the table holding `pageA` and `pageB`; one response is sent
and the buffer stays. -/
theorem C30_not_keep_alive_stops_after_first_request_witness :
    (∃ session1,
        process_request calcChecksum calcChecksumi "Jupiter".toList pagesTable exampleTime
            (freshSession "GET /a HTTP/1.0\r\n\r\nGET /b HTTP/1.0\r\n\r\n".toList)
          = some session1
        ∧ session1.request
          = (freshSession "GET /a HTTP/1.0\r\n\r\nGET /b HTTP/1.0\r\n\r\n".toList).request
        ∧ (session1.sock.sent
            = (freshSession "GET /a HTTP/1.0\r\n\r\nGET /b HTTP/1.0\r\n\r\n".toList).sock.sent
          ∨ ∃ r, session1.sock.sent
            = (freshSession "GET /a HTTP/1.0\r\n\r\nGET /b HTTP/1.0\r\n\r\n".toList).sock.sent
                ++ [r])
        ∧ session1.keep_alive = false)
      ∧ (process_request calcChecksum calcChecksumi "Jupiter".toList pagesTable exampleTime
            (freshSession "GET /a HTTP/1.0\r\n\r\nGET /b HTTP/1.0\r\n\r\n".toList)).map
          (fun s => s.sock.sent.length) = some 1 :=
  ⟨C30_not_keep_alive_stops_after_first_request calcChecksum calcChecksumi "Jupiter".toList
      pagesTable exampleTime
      (freshSession "GET /a HTTP/1.0\r\n\r\nGET /b HTTP/1.0\r\n\r\n".toList)
      ["GET /a HTTP/1.0".toList] [] ["GET /b HTTP/1.0".toList, [], []]
      (by decide) (by decide) (by decide) (by rfl),
    by rfl⟩

/-- C31: the buffer holds the request ` GET /a HTTP/1.1`, whose first line starts with one
space, its empty line, and then the three bytes `GET`. The request is 20 bytes long as
received; `process_request` answers it, the session is keep-alive, and the buffer it
leaves is a line feed followed by `GET`, four bytes instead of the three that follow the
request: `get_line_offset` adds up the sizes of the lines after their leading spaces have
been trimmed in place, 19 here. Without the leading space the buffer left is `GET`. -/
theorem C31_offset_counts_trimmed_lines :
    " GET /a HTTP/1.1\r\n\r\nGET".toList = " GET /a HTTP/1.1\r\n\r\n".toList ++ "GET".toList
      ∧ findStr HTTP_REQUEST_ENDING "GET".toList = none
      ∧ " GET /a HTTP/1.1\r\n\r\n".toList.length = 20
      ∧ get_line_offset ["GET /a HTTP/1.1".toList, [], "GET".toList] 2 = 19
      ∧ (process_request calcChecksum calcChecksumi "Jupiter".toList pagesTable exampleTime
            (freshSession " GET /a HTTP/1.1\r\n\r\nGET".toList)).map
          (fun s => (s.keep_alive, s.sock.sent.length, s.request))
        = some (true, 1, "\nGET".toList)
      ∧ (process_request calcChecksum calcChecksumi "Jupiter".toList pagesTable exampleTime
            (freshSession "GET /a HTTP/1.1\r\n\r\nGET".toList)).map
          (fun s => (s.keep_alive, s.sock.sent.length, s.request))
        = some (true, 1, "GET".toList) := by
  refine ⟨by decide, by decide, by decide, by decide, by rfl, by rfl⟩

/-- C32: for every table whose sessions all have a request buffer of at most
`max_request_size` bytes and for every tick, `think` returns, the size cap is as it was,
and every session of the list after the tick has a request buffer of at most
`max_request_size` bytes. -/
theorem C32_buffers_stay_within_cap (ck cki : Str → Nat) (JUPITER_VERSION : Str) (d : Data)
    (tick : Tick) (hinv : ∀ s ∈ d.sessions, s.request.length ≤ d.max_request_size) :
    ∃ d1, think ck cki JUPITER_VERSION d tick = some d1
      ∧ d1.max_request_size = d.max_request_size
      ∧ ∀ s ∈ d1.sessions, s.request.length ≤ d1.max_request_size := by
  obtain ⟨d1, h⟩ := Option.isSome_iff_exists.1 (think_isSome ck cki JUPITER_VERSION d tick)
  refine ⟨d1, h, ?_⟩
  unfold think at h
  cases h1 : thinkSessions ck cki JUPITER_VERSION d tick 0 d.sessions with
  | none => rw [h1] at h; cases h
  | some sessions1 =>
    rw [h1] at h
    simp only at h
    cases h2 : thinkPorts ck cki JUPITER_VERSION d tick 0 d.ports with
    | none => rw [h2] at h; cases h
    | some added =>
      rw [h2] at h
      simp only [Option.some.injEq] at h
      subst h
      refine ⟨rfl, ?_⟩
      intro s hm
      rcases List.mem_append.1 hm with hm | hm
      · exact thinkSessions_bound ck cki JUPITER_VERSION d tick d.sessions hinv 0 sessions1 h1
          s hm
      · exact thinkPorts_bound ck cki JUPITER_VERSION d tick d.ports 0 added h2 s hm

/-- C32 at a concrete input: the table with a cap of 19 bytes and one session holding 9
bytes, in the tick where that session completes a request and a connection delivers a
request of 19 bytes. -/
theorem C32_buffers_stay_within_cap_witness :
    ∃ d1, think calcChecksum calcChecksumi "Jupiter".toList crowdedTable busyTick = some d1
      ∧ d1.max_request_size = crowdedTable.max_request_size
      ∧ ∀ s ∈ d1.sessions, s.request.length ≤ d1.max_request_size :=
  C32_buffers_stay_within_cap calcChecksum calcChecksumi "Jupiter".toList crowdedTable
    busyTick (by decide)

/-- C33: on every node without child directories, `Directory::hook` with a path `a/...`
returns for no amount of fuel, whatever follows the `'/'`: the first segment `a` names no
child, the node for it is created, and the loop at `directory_add_loop` is entered with
the remaining path, which starts with `'/'` and is never advanced. -/
theorem C33_hook_creating_directories_never_returns (ck cki : Str → Nat) (fuel : Nat)
    (name : Str) (name_checksum : Nat) (content : List Content) (rest : Str) (c : Content) :
    Directory.hook ck cki fuel (Directory.mk name name_checksum [] content)
      ('a' :: '/' :: rest) c = none := by
  apply hook_unmatched_no_return ck cki fuel _ ('a' :: '/' :: rest) c 1
  · simp +decide [shiftRight, span, find, List.takeWhile]
  · rfl

/-- C34: for every line of the token array, once its leading spaces are dropped it is
either empty, and the loop takes the end-of-request branch without looking at a token,
or its first space-delimited token is not empty: the index `size - 1` is within the
token and the character read there is its last one. -/
theorem C34_first_token_not_empty (raw : Str)
    (h : (shiftRight (span [' '] raw) raw).isEmpty = false) :
    0 < (getToken0 ' ' (shiftRight (span [' '] raw) raw)).length
      ∧ (getToken0 ' ' (shiftRight (span [' '] raw) raw)).length - 1
          < (getToken0 ' ' (shiftRight (span [' '] raw) raw)).length
      ∧ ∃ c, (getToken0 ' ' (shiftRight (span [' '] raw) raw)).get?
            ((getToken0 ' ' (shiftRight (span [' '] raw) raw)).length - 1) = some c
          ∧ (getToken0 ' ' (shiftRight (span [' '] raw) raw)).getLast? = some c := by
  have hhead : (shiftRight (span [' '] raw) raw).head? ≠ some ' ' := by
    induction raw with
    | nil => simp [shiftRight, span]
    | cons x xs ih =>
      by_cases hx : x = ' '
      · subst hx
        have e : shiftRight (span [' '] (' ' :: xs)) (' ' :: xs)
            = shiftRight (span [' '] xs) xs := by
          simp [shiftRight, span, List.takeWhile]
        rw [e] at h ⊢
        exact ih h
      · simp [shiftRight, span, List.takeWhile, hx]
  cases hl : shiftRight (span [' '] raw) raw with
  | nil => rw [hl] at h; simp at h
  | cons x xs =>
    rw [hl] at hhead
    have hx : x ≠ ' ' := by simpa using hhead
    have hb : (x != ' ') = true := by simpa using hx
    have hpos : 0 < (getToken0 ' ' (x :: xs)).length := by
      simp [getToken0, List.takeWhile, hb]
    refine ⟨hpos, by omega, ?_⟩
    have hne : getToken0 ' ' (x :: xs) ≠ [] := by
      intro e
      rw [e] at hpos
      simp at hpos
    refine ⟨(getToken0 ' ' (x :: xs)).getLast hne, ?_, List.getLast?_eq_getLast _ hne⟩
    rw [List.get?_eq_getElem?, List.getLast_eq_getElem, List.getElem?_eq_getElem]

/-- C34 at a concrete input: the line `   Host: example.com`, whose first token is
`Host:`. -/
theorem C34_first_token_not_empty_witness :
    0 < (getToken0 ' ' (shiftRight (span [' '] "   Host: example.com".toList)
          "   Host: example.com".toList)).length
      ∧ (getToken0 ' ' (shiftRight (span [' '] "   Host: example.com".toList)
            "   Host: example.com".toList)).length - 1
          < (getToken0 ' ' (shiftRight (span [' '] "   Host: example.com".toList)
              "   Host: example.com".toList)).length
      ∧ ∃ c, (getToken0 ' ' (shiftRight (span [' '] "   Host: example.com".toList)
              "   Host: example.com".toList)).get?
            ((getToken0 ' ' (shiftRight (span [' '] "   Host: example.com".toList)
              "   Host: example.com".toList)).length - 1) = some c
          ∧ (getToken0 ' ' (shiftRight (span [' '] "   Host: example.com".toList)
              "   Host: example.com".toList)).getLast? = some c :=
  C34_first_token_not_empty "   Host: example.com".toList (by decide)

/-- C35, as the code has it: the Connection line follows the session version. For every
session that is keep-alive whenever it is at version 1.1 (every new session is), and
every complete `GET` or `HEAD` request whose target resolves a Content, `process_request`
returns having sent one response; when the session is then at version 1.1 the response
holds the line `Connection: keep-alive` and the keep-alive flag is set, and at any other
version the response holds the line `Connection: close`, whatever the flag. -/
theorem C35_connection_line_follows_version (ck cki : Str → Nat) (JUPITER_VERSION : Str)
    (d : Data) (html_time : Nat → Str) (rest : Str) (hs : List Str) (session : HTTPSession)
    (c : Content) (hr : ∀ x ∈ rest, x ≠ '\r')
    (hh : ∀ l ∈ hs, isHeaderLine l = true)
    (hc : Data.find ck d (targetPath (getWord 0 [' '] rest)) = some c)
    (hinv : session.version = HTTPVersion.HTTP_1_1 → session.keep_alive = true) :
    (∃ sG r,
        process_request ck cki JUPITER_VERSION d html_time
            { session with request := unlines (("GET ".toList ++ rest) :: hs) ++ ENDL }
          = some sG
        ∧ sG.sock.sent = session.sock.sent ++ [r] ∧ connectionMarks sG r)
      ∧ (∃ sH r,
        process_request ck cki JUPITER_VERSION d html_time
            { session with request := unlines (("HEAD ".toList ++ rest) :: hs) ++ ENDL }
          = some sH
        ∧ sH.sock.sent = session.sock.sent ++ [r] ∧ connectionMarks sH r) := by
  have hg : "GET ".toList ++ rest = "GET".toList ++ ' ' :: rest := by simp
  have hhd : "HEAD ".toList ++ rest = "HEAD".toList ++ ' ' :: rest := by simp
  obtain ⟨g1, g2, g3⟩ := methodLine_facts "GET".toList rest (by decide) (by decide) (by decide) hr
  obtain ⟨k1, k2, k3⟩ := methodLine_facts "HEAD".toList rest (by decide) (by decide) (by decide) hr
  rw [← hg] at g1 g2 g3
  rw [← hhd] at k1 k2 k3
  have w1 : getWord 1 [' '] ("GET ".toList ++ rest) = getWord 0 [' '] rest := by
    rw [hg, getWord_succ_word 0 _ _ (by decide) (by decide)]
  have key : ∀ (line : Str) (command : HTTPCommand) (s1 : HTTPSession),
      s1.sock.sent = session.sock.sent ++
          served JUPITER_VERSION (html_time 0) s1.version command
            (Data.find ck d (targetPath (getWord 1 [' '] ("GET ".toList ++ rest))))
            (targetParameters (getWord 1 [' '] ("GET ".toList ++ rest))) →
      s1.version = (afterHeaders ck cki d hs (processLine ck cki d line RequestLocals.initial
          { session with request := unlines (line :: hs) ++ ENDL }).2).version →
      s1.keep_alive = (afterHeaders ck cki d hs (processLine ck cki d line
          RequestLocals.initial
          { session with request := unlines (line :: hs) ++ ENDL }).2).keep_alive →
      ∃ r, s1.sock.sent = session.sock.sent ++ [r] ∧ connectionMarks s1 r := by
    intro line command s1 e2 e3 e4
    rw [w1, hc] at e2
    refine ⟨_, e2, ?_, ?_⟩
    · intro hv
      refine ⟨((response_versionMarks _ _ _ _ _ _).1 hv).2, ?_⟩
      rw [e4]
      exact afterHeaders_versionFlag ck cki d hs _
        (processLine_versionFlag ck cki d line RequestLocals.initial
          { session with request := unlines (line :: hs) ++ ENDL } hinv)
        (by rw [← e3]; exact hv)
    · intro hv
      exact response_close_line _ _ _ _ _ _ hv
  obtain ⟨sG, eG1, eG2, eG3, eG4⟩ := single_request_flags ck cki JUPITER_VERSION d html_time
    ("GET ".toList ++ rest) ("GET ".toList ++ rest) HTTPCommand.GET (Or.inl rfl) g1 g2 g3
    (fun locals s => processLine_GET ck cki d rest locals s) hs hh
    { session with request := unlines (("GET ".toList ++ rest) :: hs) ++ ENDL } rfl
  obtain ⟨sH, eH1, eH2, eH3, eH4⟩ := single_request_flags ck cki JUPITER_VERSION d html_time
    ("HEAD ".toList ++ rest) ("GET ".toList ++ rest) HTTPCommand.HEAD (Or.inr rfl) k1 k2 k3
    (fun locals s => processLine_HEAD ck cki d rest locals s) hs hh
    { session with request := unlines (("HEAD ".toList ++ rest) :: hs) ++ ENDL } rfl
  obtain ⟨rG, hG⟩ := key _ _ sG eG2 eG3 eG4
  obtain ⟨rH, hH⟩ := key _ _ sH eH2 eH3 eH4
  exact ⟨⟨sG, rG, eG1, hG⟩, ⟨sH, rH, eH1, hH⟩⟩

/-- C35 at a concrete input: `GET /a HTTP/1.1` and `HEAD /a HTTP/1.1` with a Host header
on a new session and the table holding `pageA`. -/
theorem C35_connection_line_follows_version_witness :
    (∃ sG r,
        process_request calcChecksum calcChecksumi "Jupiter".toList pagesTable exampleTime
            { freshSession [] with
              request := unlines (("GET ".toList ++ "/a HTTP/1.1".toList)
                :: ["Host: example.com".toList]) ++ ENDL }
          = some sG
        ∧ sG.sock.sent = (freshSession []).sock.sent ++ [r] ∧ connectionMarks sG r)
      ∧ (∃ sH r,
        process_request calcChecksum calcChecksumi "Jupiter".toList pagesTable exampleTime
            { freshSession [] with
              request := unlines (("HEAD ".toList ++ "/a HTTP/1.1".toList)
                :: ["Host: example.com".toList]) ++ ENDL }
          = some sH
        ∧ sH.sock.sent = (freshSession []).sock.sent ++ [r] ∧ connectionMarks sH r) :=
  C35_connection_line_follows_version calcChecksum calcChecksumi "Jupiter".toList pagesTable
    exampleTime "/a HTTP/1.1".toList ["Host: example.com".toList] (freshSession []) pageA
    (by decide) (by decide) rfl (by decide)

/-- C35 fails as stated: a new connection whose first read is the request
`GET /a HTTP/1.0` with the header `Connection: keep-alive` is answered with a response
that says `Connection: close`, while the session ends with its keep-alive flag set and
`think` adds it to the session list. -/
theorem C35_counterexample :
    (thinkIncoming calcChecksum calcChecksumi "Jupiter".toList pagesTable 0 exampleTime
        { sent := [] }
        (Recv.data "GET /a HTTP/1.0\r\nConnection: keep-alive\r\n\r\n".toList)).map
      (fun o => (o.fate, o.session.keep_alive, o.session.version, o.session.sock.sent))
    = some (Fate.retained, true, HTTPVersion.HTTP_1_0,
        ["HTTP/1.0 200 OK\r\nDate: \r\nMon, 05 Oct 2015 01:50:08 GMTServer: Jupiter\r\nContent-Length: 1\r\nConnection: close\r\nContent-Type: text/plain\r\n\r\n\r\nA".toList]) := by
  decide

/-- C36: for every table, clock and accepted socket, when the first `recv()` of the new
session returns 0 the loop body neither adds the session to the list nor deletes it: the
`if (session->sock.recv())` has no else branch, the object created by `new HTTPSession`
is dropped with its socket open. For every non-zero value the session is added or
deleted. In the tick where this happens on the one listening socket of a table, the
session list gains nothing. -/
theorem C36_zero_first_read_leaks_session (ck cki : Str → Nat) (JUPITER_VERSION : Str)
    (d : Data) (now : Nat) (html_time : Nat → Str) (in_sock : Socket) :
    (∀ (buffer : Str) (lastError : Int),
        thinkIncoming ck cki JUPITER_VERSION d now html_time in_sock
            { ret := 0, buffer := buffer, lastError := lastError }
          = some { session := HTTPSession.new in_sock now, fate := Fate.leaked })
      ∧ Fate.leaked ≠ Fate.retained ∧ Fate.leaked ≠ Fate.destroyed
      ∧ (∀ recv : Recv, recv.ret ≠ 0 →
          ∃ outcome, thinkIncoming ck cki JUPITER_VERSION d now html_time in_sock recv
              = some outcome
            ∧ (outcome.fate = Fate.retained ∨ outcome.fate = Fate.destroyed))
      ∧ thinkPorts calcChecksum calcChecksumi "Jupiter".toList crowdedTable silentTick 0
          crowdedTable.ports = some [] := by
  refine ⟨?_, by decide, by decide, ?_, by rfl⟩
  · intro buffer lastError
    unfold thinkIncoming
    simp
  · intro recv hret
    obtain ⟨o, ho⟩ := Option.isSome_iff_exists.1
      (thinkIncoming_isSome ck cki JUPITER_VERSION d now html_time in_sock recv)
    refine ⟨o, ho, ?_⟩
    unfold thinkIncoming at ho
    simp only [bne_iff_ne, ne_eq, hret, not_false_eq_true, if_true] at ho
    repeat' split at ho
    all_goals first
      | (simp only [Option.some.injEq] at ho
         subst ho
         first | exact Or.inl rfl | exact Or.inr rfl)
      | (simp only [Option.map_eq_some'] at ho
         obtain ⟨s2, _, hs2⟩ := ho
         subst hs2
         split <;> first | exact Or.inl rfl | exact Or.inr rfl)

/-- C37: for every table `d` and every value `b` of the member `permit_keept_alive`, the
table that differs from `d` in that member only gives the same `process_request` on
every session and clock, and the same `think` on every tick, the resulting table
differing in that member only. With the member false, the request `GET /a HTTP/1.1`
still leaves the session keep-alive. -/
theorem C37_permit_keep_alive_is_not_read (ck cki : Str → Nat) (JUPITER_VERSION : Str)
    (d : Data) (b : Bool) :
    (∀ (html_time : Nat → Str) (session : HTTPSession),
        process_request ck cki JUPITER_VERSION { d with permit_keept_alive := b } html_time
            session
          = process_request ck cki JUPITER_VERSION d html_time session)
      ∧ (∀ tick : Tick,
          think ck cki JUPITER_VERSION { d with permit_keept_alive := b } tick
            = (think ck cki JUPITER_VERSION d tick).map
                (fun d1 => { d1 with permit_keept_alive := b }))
      ∧ (process_request calcChecksum calcChecksumi "Jupiter".toList
            { pagesTable with permit_keept_alive := false } exampleTime
            (freshSession "GET /a HTTP/1.1\r\n\r\n".toList)).map
          (fun s => (s.keep_alive, s.sock.sent.length)) = some (true, 1) := by
  refine ⟨process_request_permit ck cki JUPITER_VERSION d b, ?_, by rfl⟩
  intro tick
  unfold think
  rw [thinkSessions_permit, thinkPorts_permit]
  cases thinkSessions ck cki JUPITER_VERSION d tick 0 d.sessions with
  | none => rfl
  | some sessions1 =>
    cases thinkPorts ck cki JUPITER_VERSION d tick 0 d.ports with
    | none => rfl
    | some added => rfl

/-- C38: for every table and every `hook(h, path, content)` that returns, and every host
name `h1` not equal to `h` ignoring ASCII case: `find_host(h1)` and `find(h1, q)` for
every path `q` answer after the call what they answered before; the Hosts whose name is
not `h` ignoring case are the same after the call, in the same order; and the list of
Host names is as before, or as before with `h` appended. -/
theorem C38_hook_leaves_other_hosts (ck cki : Str → Nat) (fuel : Nat) (t : Data)
    (h in_path : Str) (c : Content) (t1 : Data)
    (hhook : Data.hook ck cki fuel t h in_path c = some t1)
    (h1 : Str) (hne : equalsi h1 h = false) :
    Data.find_host cki t1 h1 = Data.find_host cki t h1
      ∧ (∀ q, Data.findIn ck cki t1 h1 q = Data.findIn ck cki t h1 q)
      ∧ t1.hosts.filter (fun host => !equalsi host.name h)
          = t.hosts.filter (fun host => !equalsi host.name h)
      ∧ (t1.hosts.map Directory.name = t.hosts.map Directory.name
        ∨ t1.hosts.map Directory.name = t.hosts.map Directory.name ++ [h]) := by
  obtain ⟨e1, e2, e3⟩ := hook_other_hosts ck cki fuel t h in_path c t1 hhook h1 hne
  have hf : Data.find_host cki t1 h1 = Data.find_host cki t h1 := by
    unfold Data.find_host
    rw [e1]
  refine ⟨hf, ?_, e2, e3⟩
  intro q
  unfold Data.findIn
  rw [hf]

/-- C38 at a concrete input: `hook("example.COM", "", pageB)` on the table holding the
Host `Example.com` beside the global namespace, seen from the empty host name. -/
theorem C38_hook_leaves_other_hosts_witness :
    Data.find_host calcChecksumi exampleComTable2 global_namespace
        = Data.find_host calcChecksumi exampleComTable global_namespace
      ∧ (∀ q, Data.findIn calcChecksum calcChecksumi exampleComTable2 global_namespace q
          = Data.findIn calcChecksum calcChecksumi exampleComTable global_namespace q)
      ∧ exampleComTable2.hosts.filter (fun host => !equalsi host.name "example.COM".toList)
          = exampleComTable.hosts.filter (fun host => !equalsi host.name "example.COM".toList)
      ∧ (exampleComTable2.hosts.map Directory.name = exampleComTable.hosts.map Directory.name
        ∨ exampleComTable2.hosts.map Directory.name
          = exampleComTable.hosts.map Directory.name ++ ["example.COM".toList]) :=
  C38_hook_leaves_other_hosts calcChecksum calcChecksumi 2 exampleComTable
    "example.COM".toList [] pageB exampleComTable2 rfl global_namespace (by decide)

/-- C39: for every sequence of bytes, `fnv1_32` and `fnv1a_32` are the reference 32-bit
FNV-1 and FNV-1a hashes and `fnv1` and `fnv1a` the reference 64-bit ones, each within its
width; the empty sequence hashes to the offset basis, and `fnv1a_32` of the single byte
0x61 is 0xE40C292C. -/
theorem C39_fnv_matches_reference (data : List Nat) (hd : ∀ b ∈ data, b < 256) :
    fnv1_32 data = reference_fnv1_32 data
      ∧ fnv1a_32 data = reference_fnv1a_32 data
      ∧ fnv1 data = reference_fnv1_64 data
      ∧ fnv1a data = reference_fnv1a_64 data
      ∧ fnv1_32 data < 2 ^ 32 ∧ fnv1a_32 data < 2 ^ 32
      ∧ fnv1 data < 2 ^ 64 ∧ fnv1a data < 2 ^ 64
      ∧ fnv1_32 [] = 2166136261 ∧ fnv1a_32 [] = 2166136261
      ∧ fnv1 [] = 14695981039346656037 ∧ fnv1a [] = 14695981039346656037
      ∧ fnv1a_32 [0x61] = 0xE40C292C := by
  have hrev : ∀ b ∈ data.reverse, b < 256 := by
    intro b hb
    exact hd b (List.mem_reverse.1 hb)
  have e1 : fnv1_32 data = reference_fnv1_32 data :=
    fnv1_32_loop_reference data hd [] (by simp)
  have e2 : fnv1a_32 data = reference_fnv1a_32 data := fnv1a_32_loop_reference data hd []
  have e3 : fnv1 data = reference_fnv1_64 data := fnv1_loop_reference data hd [] (by simp)
  have e4 : fnv1a data = reference_fnv1a_64 data := fnv1a_loop_reference data hd []
  refine ⟨e1, e2, e3, e4, ?_, ?_, ?_, ?_, rfl, rfl, rfl, rfl, by decide⟩
  · rw [e1]
    exact reference_fnv1_rev_lt 32 _ _ (by decide) (by decide) _ hrev
  · rw [e2]
    exact reference_fnv1a_rev_lt 32 _ _ (by decide) _
  · rw [e3]
    exact reference_fnv1_rev_lt 64 _ _ (by decide) (by decide) _ hrev
  · rw [e4]
    exact reference_fnv1a_rev_lt 64 _ _ (by decide) _

/-- C39 at a concrete input: the bytes of `foobar`, whose 32-bit FNV-1 and FNV-1a hashes
are 0x31F0B262 and 0xBF9CF968 and whose 64-bit ones are 0x340D8765A4DDA9C2 and
0x85944171F73967E8. -/
theorem C39_fnv_matches_reference_witness :
    (fnv1_32 [0x66, 0x6F, 0x6F, 0x62, 0x61, 0x72]
        = reference_fnv1_32 [0x66, 0x6F, 0x6F, 0x62, 0x61, 0x72]
      ∧ fnv1a_32 [0x66, 0x6F, 0x6F, 0x62, 0x61, 0x72]
        = reference_fnv1a_32 [0x66, 0x6F, 0x6F, 0x62, 0x61, 0x72]
      ∧ fnv1 [0x66, 0x6F, 0x6F, 0x62, 0x61, 0x72]
        = reference_fnv1_64 [0x66, 0x6F, 0x6F, 0x62, 0x61, 0x72]
      ∧ fnv1a [0x66, 0x6F, 0x6F, 0x62, 0x61, 0x72]
        = reference_fnv1a_64 [0x66, 0x6F, 0x6F, 0x62, 0x61, 0x72]
      ∧ fnv1_32 [0x66, 0x6F, 0x6F, 0x62, 0x61, 0x72] < 2 ^ 32
      ∧ fnv1a_32 [0x66, 0x6F, 0x6F, 0x62, 0x61, 0x72] < 2 ^ 32
      ∧ fnv1 [0x66, 0x6F, 0x6F, 0x62, 0x61, 0x72] < 2 ^ 64
      ∧ fnv1a [0x66, 0x6F, 0x6F, 0x62, 0x61, 0x72] < 2 ^ 64
      ∧ fnv1_32 [] = 2166136261 ∧ fnv1a_32 [] = 2166136261
      ∧ fnv1 [] = 14695981039346656037 ∧ fnv1a [] = 14695981039346656037
      ∧ fnv1a_32 [0x61] = 0xE40C292C)
      ∧ fnv1_32 [0x66, 0x6F, 0x6F, 0x62, 0x61, 0x72] = 0x31F0B262
      ∧ fnv1a_32 [0x66, 0x6F, 0x6F, 0x62, 0x61, 0x72] = 0xBF9CF968
      ∧ fnv1 [0x66, 0x6F, 0x6F, 0x62, 0x61, 0x72] = 0x340D8765A4DDA9C2
      ∧ fnv1a [0x66, 0x6F, 0x6F, 0x62, 0x61, 0x72] = 0x85944171F73967E8 :=
  ⟨C39_fnv_matches_reference [0x66, 0x6F, 0x6F, 0x62, 0x61, 0x72] (by decide),
    by decide, by decide, by decide, by decide⟩

/-- C40: for every registry of fewer than 2^32 objects (the range of the `unsigned int`
that `size()` returns) whose callbacks leave the registry alone, the list `rehashables`
being taken as a sequence: `rehash` calls `OnRehash` exactly once on each registered
object, in the order of the list; it returns the number of objects whose `OnRehash`
returned a non-zero value, which is 0 for the empty registry; afterwards
`getRehashableCount()` is the previous count minus that number, and the registry holds
exactly the objects that returned 0, in their original order. -/
theorem C40_rehash_counts_and_removes (registry : List Rehashable)
    (hsize : registry.length < 4294967296) :
    rehashCalls (rehash registry).events = List.range registry.length
      ∧ (rehash registry).total = (registry.filter (fun o => o.OnRehash != 0)).length
      ∧ (rehash []).total = 0
      ∧ (rehash registry).total ≤ getRehashableCount registry
      ∧ getRehashableCount (rehash registry).rehashables
          = getRehashableCount registry - (rehash registry).total
      ∧ (rehash registry).rehashables = registry.filter (fun o => o.OnRehash == 0) := by
  have hlen := rehash_filter_lengths registry
  have hcalls : rehashCalls (rehash registry).events = List.range registry.length := by
    cases registry with
    | nil => rfl
    | cons data rest =>
      have hr : rehash (data :: rest) = rehashLoop 0 [] (data :: rest) 0 := rfl
      rw [hr, (rehashLoop_result (data :: rest) 0 [] 0 (by decide)).2.2, List.range_eq_range']
  have htotal : (rehash registry).total
      = (registry.filter (fun o => o.OnRehash != 0)).length := by
    cases registry with
    | nil => rfl
    | cons data rest =>
      have hr : rehash (data :: rest) = rehashLoop 0 [] (data :: rest) 0 := rfl
      rw [hr, (rehashLoop_result (data :: rest) 0 [] 0 (by decide)).2.1, Nat.zero_add]
      exact Nat.mod_eq_of_lt (by omega)
  have hkept : (rehash registry).rehashables = registry.filter (fun o => o.OnRehash == 0) := by
    cases registry with
    | nil => rfl
    | cons data rest =>
      have hr : rehash (data :: rest) = rehashLoop 0 [] (data :: rest) 0 := rfl
      rw [hr, (rehashLoop_result (data :: rest) 0 [] 0 (by decide)).1, List.nil_append]
  refine ⟨hcalls, htotal, rfl, ?_, ?_, hkept⟩
  · unfold getRehashableCount
    rw [htotal, Nat.mod_eq_of_lt hsize]
    omega
  · unfold getRehashableCount
    rw [htotal, hkept, Nat.mod_eq_of_lt hsize, Nat.mod_eq_of_lt (by omega)]
    omega

/-- C40 at a concrete input: a registry of four objects whose `OnRehash` return 0, 1, -1
and 0; `OnRehash` is called on the four nodes in order, `rehash` returns 2 and two
objects are left. -/
theorem C40_rehash_counts_and_removes_witness :
    [rehashableReturning 0, rehashableReturning 1, rehashableReturning (-1),
        rehashableReturning 0].length < 4294967296
      ∧ rehashCalls (rehash [rehashableReturning 0, rehashableReturning 1,
          rehashableReturning (-1), rehashableReturning 0]).events = [0, 1, 2, 3]
      ∧ (rehash [rehashableReturning 0, rehashableReturning 1,
          rehashableReturning (-1), rehashableReturning 0]).total = 2
      ∧ getRehashableCount (rehash [rehashableReturning 0, rehashableReturning 1,
          rehashableReturning (-1), rehashableReturning 0]).rehashables = 2
      ∧ (rehash [rehashableReturning 0, rehashableReturning 1,
          rehashableReturning (-1), rehashableReturning 0]).rehashables
        = [rehashableReturning 0, rehashableReturning 1, rehashableReturning (-1),
            rehashableReturning 0].filter (fun o => o.OnRehash == 0) :=
  ⟨by decide, by decide, by decide, by decide,
    (C40_rehash_counts_and_removes [rehashableReturning 0, rehashableReturning 1,
      rehashableReturning (-1), rehashableReturning 0] (by decide)).2.2.2.2.2⟩

end Jupiter
